import Mathlib

/-!
# Verification development for the dmm scripting language

Shallow embedding of the dmm front end and evaluator:
tokenizer (`src/lexer.rs`), recursive-descent parser (`src/parser.rs`),
tree-walking evaluator with call stack (`src/interpreter.rs`) and the
operator-fatigue gate / shouting collaborator (`src/humanoid.rs`).

Modelling conventions:
* The lexer cursor is represented by the remaining suffix of the source
  text (a `List Char`); the Rust code keeps an absolute position into an
  immutable string, which is observationally the same (backtracking is
  modelled by keeping the saved suffix).
* Machine integers: the language's `i32` values are `Int` together with
  explicit range checks (debug-profile Rust aborts on overflow, which we
  model as a panic outcome); the lexer's `u32` literal payload is a `Nat`
  with an explicit `< 2 ^ 32` bound.
* Rust panics (`panic!`, `unwrap`, arithmetic overflow) are a `panicked`
  outcome; they abort the whole evaluation.
* Randomness, wall-clock cooldown measurements and interactive answers
  are oracle streams threaded through the evaluation state; `println!`
  output and interactive prompts are accumulated traces.
* `char::is_alphanumeric` is Unicode-aware in Rust; it is modelled for
  the ASCII subset via `Char.isAlphanum`, which the programs of all
  claims stay inside.
-/

namespace Dmm

/-- Reserved keyword tags, mirroring `enum Keyword` in `src/lexer.rs`.
`Function`, `Return`, `Loop` and `If` are renamed to avoid Lean keywords. -/
inductive Keyword where
  | greeting
  | farewell
  | avo
  | cado
  | function
  | ret
  | loopKw
  | equals
  | less
  | greater
  | assignPrefix
  | assignInfix
  | ifKw
deriving DecidableEq, Repr

/-- Lexical tokens, mirroring `enum Token` in `src/lexer.rs`.
The integer payload is the `u32` the Rust lexer stores, as a `Nat`. -/
inductive Token where
  | reservedKeyword (k : Keyword)
  | id (string : String)
  | integer (n : Nat)
  | string (s : String)
  | boolean (b : Bool)
  | comma
  | plus
  | minus
  | multiply
  | divide
  | parentheseOpen
  | parentheseClose
  | endLine
  | assign
  | eof
deriving DecidableEq, Repr

/-- Lexer/parser failures, mirroring `enum LexerError` in `src/lexer.rs`,
extended with two embedding artifacts: `panicked` stands for a Rust panic
(a process abort, not a recoverable error in the source) and `outOfFuel`
marks exhaustion of the step budget of the fuel-based embedding. -/
inductive LexerError where
  | invalidSyntax (msg : String)
  | unexpectedToken (found : Token) (expected : String)
  | panicked (msg : String)
  | outOfFuel
deriving DecidableEq, Repr

/-- Runtime values, mirroring `enum Value` in `src/parser.rs`.
The integer payload is an `i32`, kept as an `Int`. -/
inductive Value where
  | integer (n : Int)
  | string (s : String)
  | boolean (b : Bool)
  | none
deriving DecidableEq, Repr

/-- Comparison kinds, mirroring `enum CompareType` in `src/parser.rs`. -/
inductive CompareType where
  | equals
  | less
  | greater
deriving DecidableEq, Repr

/-- Display rendering of values (`impl Display for Value`): integers in
decimal, text verbatim, booleans as the two smiley glyphs, none as `-`. -/
def Value.display : Value → String
  | .integer n => toString n
  | .string s => s
  | .boolean b => if b then ":)" else ":("
  | .none => "-"

/-- Discriminant position of a `Value` variant in declaration order, used
by the derived `PartialOrd`: Rust's derive compares the discriminants of
distinct variants. -/
def Value.discr : Value → Nat
  | .integer _ => 0
  | .string _ => 1
  | .boolean _ => 2
  | .none => 3

/-- Total comparison implementing Rust's `#[derive(PartialOrd)]` on
`Value`: values of distinct variants are ordered by declaration order of
the variants; values of the same variant compare their payloads
(`i32` order, byte-lexicographic string order — which agrees with
codepoint order — and `false < true`). Every payload comparison here is
total, so the derived `partial_cmp` never returns `None`; `a < b` in the
source is `cmpV a b = .lt` and `a > b` is `cmpV a b = .gt`. -/
def Value.cmpV : Value → Value → Ordering
  | .integer a, .integer b => compare a b
  | .string a, .string b => compare a b
  | .boolean a, .boolean b => compare a b
  | .none, .none => .eq
  | a, b => compare a.discr b.discr

/-- AST nodes, mirroring `enum ASTNode` in `src/parser.rs`. `Rc` sharing
of children is immaterial for the semantics and dropped; `Vec` becomes
`List`. `If` and `Return` are renamed to avoid Lean keywords. -/
inductive ASTNode where
  | unaryOp (expression : ASTNode) (token : Token)
  | binOp (left : ASTNode) (right : ASTNode) (token : Token)
  | value (value : Value)
  | functionCall (function : ASTNode) (parameters : List ASTNode)
  | functionDeclaration (name : String) (parameters : List String)
      (execution_block : ASTNode)
  | ifNode (condition : ASTNode) (execution : ASTNode)
  | loop (condition : ASTNode) (execution : ASTNode)
  | compare (left : ASTNode) (right : ASTNode) (compare_type : CompareType)
  | block (children : List ASTNode)
  | assign (left : ASTNode) (right : ASTNode)
  | ret (expression : ASTNode)
  | variable (name : String)
  | noOp

/-- Check for the empty statement, as used by `statement_list`'s
`statement != ASTNode::NoOp` filter (`NoOp` carries no payload, so
equality with `NoOp` is exactly this variant check). -/
def ASTNode.isNoOp : ASTNode → Bool
  | .noOp => true
  | _ => false

/-- Check for a bare literal node, as used by the fatigue gate's
`if let ASTNode::Value{value: _} = node` test in `Worker::call`. -/
def ASTNode.isValue : ASTNode → Bool
  | .value _ => true
  | _ => false

/-- Check for a `Return` node, as used by the `Block` arm's
`match &child { ASTNode::Return{..} => ..., _ => ... }`. -/
def ASTNode.isRet : ASTNode → Bool
  | .ret _ => true
  | _ => false

/-- Name of a `Variable` node, if it is one; the
`ASTNode::Variable{name}`-or-catch-all matches of the evaluator are
expressed through this projection. -/
def ASTNode.varName? : ASTNode → Option String
  | .variable n => some n
  | _ => Option.none

/-! ## Lexer (`src/lexer.rs`) -/

/-- Reserved keyword table of `Lexer::new`. The Rust `HashMap` has
distinct keys, so an association list with exact-key lookup is the same
map. -/
def reservedKeywords : List (String × Token) :=
  [("hallo", .reservedKeyword .greeting),
   ("reicht dann auch mal", .reservedKeyword .farewell),
   ("avo", .reservedKeyword .avo),
   ("cado", .reservedKeyword .cado),
   ("funny", .reservedKeyword .function),
   ("wenn", .reservedKeyword .ifKw),
   ("wirf", .reservedKeyword .ret),
   ("schleif", .reservedKeyword .loopKw),
   ("is", .reservedKeyword .equals),
   ("kleina", .reservedKeyword .less),
   ("krasser", .reservedKeyword .greater),
   ("machma", .reservedKeyword .assignPrefix),
   ("uf", .reservedKeyword .assignInfix)]

/-- Characters that extend the keyword-search run in
`Lexer::keyword_or_string`: alphanumeric, space or underscore. -/
def isRunChar (c : Char) : Bool := c.isAlphanum || c == ' ' || c == '_'

/-- Characters that extend an identifier: alphanumeric or underscore
(spaces terminate an identifier). -/
def isIdChar (c : Char) : Bool := c.isAlphanum || c == '_'

/-- Keyword phase of `Lexer::keyword_or_string`: grow the accumulated run
one peeked character at a time and return a keyword token the moment the
accumulator is exactly a key of the table; `none` means the run ended (a
non-run character or end of input) without any prefix matching. -/
def kwScan (acc : String) : List Char → Option (Token × List Char)
  | [] => Option.none
  | c :: cs =>
    if isRunChar c then
      let acc' := acc.push c
      match reservedKeywords.lookup acc' with
      | some tok => some (tok, cs)
      | Option.none => kwScan acc' cs
    else Option.none

/-- Identifier phase of `Lexer::keyword_or_string` after backtracking:
extend the accumulator with alphanumeric/underscore characters only. -/
def idScan (acc : String) : List Char → String × List Char
  | [] => (acc, [])
  | c :: cs => if isIdChar c then idScan (acc.push c) cs else (acc, c :: cs)

/-- String-literal branch of `Lexer::keyword_or_string` (after the
opening `<`): the content is everything up to the next `>`; a missing
closing `>` is the unterminated-string syntax error. -/
def stringScan (cs : List Char) : Except LexerError (Token × List Char) :=
  match cs.dropWhile (fun c => c ≠ '>') with
  | '>' :: rest => .ok (.string (String.mk (cs.takeWhile (fun c => c ≠ '>'))), rest)
  | _ => .error (.invalidSyntax "Missing string closure: >")

/-- Embedding of `Lexer::keyword_or_string` for current character `c`
with remaining suffix `cs`. The Rust byte-slice backtrack
`result.get(0..1)` is the single starting character (the sources of the
claims are ASCII, where the byte slice is exact). -/
def keywordOrString (c : Char) (cs : List Char) :
    Except LexerError (Token × List Char) :=
  if c = '<' then stringScan cs
  else
    match kwScan (String.singleton c) cs with
    | some (tok, rest) => .ok (tok, rest)
    | Option.none =>
      let p := idScan (String.singleton c) cs
      .ok (.id p.1, p.2)

/-- Numeric value of a digit run. -/
def digitsToNat (ds : List Char) : Nat :=
  ds.foldl (fun acc c => acc * 10 + (c.toNat - '0'.toNat)) 0

/-- Embedding of `Lexer::integer`: a maximal digit run parsed with
`str::parse::<u32>`; a run whose value does not fit in 32 bits makes the
`unwrap` panic. -/
def integerScan (c : Char) (cs : List Char) :
    Except LexerError (Token × List Char) :=
  let n := digitsToNat (c :: cs.takeWhile Char.isDigit)
  if n < 2 ^ 32 then .ok (.integer n, cs.dropWhile Char.isDigit)
  else .error (.panicked "u32 parse overflow")

/-- Embedding of `Lexer::get_next_token`. End of input yields `eof`
idempotently. After producing a token the cursor moves past it and single
spaces are skipped (`skip_whitespace`); error paths propagate before the
skip, exactly as the `?` operator does. (The Rust code reports an
`InvalidSyntax` error instead of `eof` when the whole source text is the
empty string; the parser swallows exactly that first error in
`Parser::new`, so the observable behavior is unchanged.) -/
def getNextToken : List Char → Except LexerError (Token × List Char)
  | [] => .ok (.eof, [])
  | c :: cs =>
    let step : Except LexerError (Token × List Char) :=
      if c.isDigit then integerScan c cs
      else if c = '+' then .ok (.plus, cs)
      else if c = '-' then .ok (.minus, cs)
      else if c = '*' then .ok (.multiply, cs)
      else if c = '/' then .ok (.divide, cs)
      else if c = '(' then .ok (.parentheseOpen, cs)
      else if c = ')' then .ok (.parentheseClose, cs)
      else if c = '=' then .ok (.assign, cs)
      else if c = '\n' then .ok (.endLine, cs)
      else if c = ',' then .ok (.comma, cs)
      else if c = ':' then
        match cs with
        | ')' :: rest => .ok (.boolean true, rest)
        | '(' :: rest => .ok (.boolean false, rest)
        | _ => keywordOrString c cs
      else keywordOrString c cs
    match step with
    | .ok (tok, rest) => .ok (tok, rest.dropWhile (fun ch => ch == ' '))
    | .error e => .error e

theorem lex_sanity_keyword :
    getNextToken "hallo\nx".data = .ok (.reservedKeyword .greeting, "\nx".data) := by
  rfl

theorem lex_sanity_farewell :
    getNextToken "reicht dann auch mal".data =
      .ok (.reservedKeyword .farewell, []) := by
  rfl

theorem lex_sanity_id :
    getNextToken "ab cd".data = .ok (.id "ab", "cd".data) := by
  rfl

/-! ## Parser (`src/parser.rs`) -/

/-- Parser state: the embedded `Lexer` (its remaining suffix) plus the
one-token lookahead `current_token`. -/
structure ParserSt where
  rest : List Char
  current_token : Token
deriving DecidableEq, Repr

/-- Result type of the parser functions: an error or a parsed artifact
together with the updated parser state. -/
abbrev PRes (α : Type) := Except LexerError (α × ParserSt)

/-- Error-propagating bind used throughout the embedding of the parser
(the Rust `?` operator on results). -/
def pbind {α β : Type} (x : Except LexerError α)
    (f : α → Except LexerError β) : Except LexerError β :=
  match x with
  | .ok a => f a
  | .error e => .error e

@[simp] theorem pbind_ok {α β : Type} (a : α)
    (f : α → Except LexerError β) : pbind (.ok a) f = f a := rfl

@[simp] theorem pbind_error {α β : Type} (e : LexerError)
    (f : α → Except LexerError β) : pbind (.error e) f = .error e := rfl

/-- Embedding of `Parser::new`: fetch the first token, replacing a lexer
error by `eof` (`unwrap_or(Token::EOF)`). -/
def mkParser (text : String) : ParserSt :=
  match getNextToken text.data with
  | .ok (tok, rest) => { rest := rest, current_token := tok }
  | .error _ => { rest := [], current_token := .eof }

/-- Embedding of `Parser::consume_token`: fetch the next token into the
lookahead. -/
def consumeToken (p : ParserSt) : Except LexerError ParserSt :=
  match getNextToken p.rest with
  | .ok (tok, rest) => .ok { rest := rest, current_token := tok }
  | .error e => .error e

/-- Rendering of a token for `UnexpectedToken::expected` messages
(`Token`'s `Display` delegates to the derived `Debug`; the exact text is
presentation-only and never load-bearing for a claim). -/
def tokenText (t : Token) : String := reprStr t

/-- Embedding of `Parser::consume`: advance when the lookahead is the
expected token, otherwise fail with `UnexpectedToken`. -/
def consume (p : ParserSt) (token : Token) : Except LexerError ParserSt :=
  if p.current_token = token then consumeToken p
  else .error (.unexpectedToken p.current_token (tokenText token))

/-- Embedding of `Parser::variable`: a variable node from an `ID` token. -/
def variableNode (p : ParserSt) : PRes ASTNode :=
  match p.current_token with
  | .id s => pbind (consumeToken p) fun p' => .ok (ASTNode.variable s, p')
  | _ => .error (.unexpectedToken p.current_token "Variable")

/-- Embedding of `Parser::empty`. -/
def emptyNode : ASTNode := .noOp

/-- Reinterpretation of the lexer's `u32` literal payload as an `i32`
(`value as i32` in `Parser::factor`): the same 32-bit pattern read as a
signed integer, i.e. wrap modulo `2 ^ 32` into the signed range. -/
def u32AsI32 (n : Nat) : Int :=
  if n < 2 ^ 31 then (n : Int) else (n : Int) - 2 ^ 32

/-- Comparison keyword recognized by the comparison loop in
`Parser::term`; any other keyword breaks the loop. -/
def compareTypeOf : Keyword → Option CompareType
  | .equals => some .equals
  | .less => some .less
  | .greater => some .greater
  | _ => Option.none

mutual

/-- Embedding of `Parser::factor`: unary `+`/`-`, integer/string/boolean
literal, parenthesized expression, or variable/call. The fuel argument
only bounds the recursion depth of the embedding. -/
def factor : Nat → ParserSt → PRes ASTNode
  | 0, _ => .error .outOfFuel
  | n + 1, p =>
    if p.current_token = .plus ∨ p.current_token = .minus then
      pbind (consumeToken p) fun p1 =>
      pbind (factor n p1) fun r =>
      .ok (.unaryOp r.1 p.current_token, r.2)
    else
      match p.current_token with
      | .integer v =>
        pbind (consumeToken p) fun p1 => .ok (.value (.integer (u32AsI32 v)), p1)
      | .parentheseOpen =>
        pbind (consume p .parentheseOpen) fun p1 =>
        pbind (expr n p1) fun r =>
        pbind (consume r.2 .parentheseClose) fun p3 =>
        .ok (r.1, p3)
      | .string s =>
        pbind (consumeToken p) fun p1 => .ok (.value (.string s), p1)
      | .boolean b =>
        pbind (consumeToken p) fun p1 => .ok (.value (.boolean b), p1)
      | _ => functionCallOrVariable n p

/-- Embedding of `Parser::function_call_or_variable`. -/
def functionCallOrVariable : Nat → ParserSt → PRes ASTNode
  | 0, _ => .error .outOfFuel
  | n + 1, p =>
    pbind (variableNode p) fun r =>
    if r.2.current_token = .parentheseOpen then functioncallStatement n r.1 r.2
    else .ok r

/-- Embedding of `Parser::term`: a factor chain under `*`/`/`, then the
chain of comparison keywords. -/
def term : Nat → ParserSt → PRes ASTNode
  | 0, _ => .error .outOfFuel
  | n + 1, p =>
    pbind (factor n p) fun r =>
    pbind (termMulLoop n r.1 r.2) fun r2 =>
    termCmpLoop n r2.1 r2.2

/-- First `while` loop of `Parser::term` (`*` and `/`). -/
def termMulLoop : Nat → ASTNode → ParserSt → PRes ASTNode
  | 0, _, _ => .error .outOfFuel
  | n + 1, node, p =>
    if p.current_token = .multiply ∨ p.current_token = .divide then
      pbind (consumeToken p) fun p1 =>
      pbind (factor n p1) fun r =>
      termMulLoop n (.binOp node r.1 p.current_token) r.2
    else .ok (node, p)

/-- Second `while` loop of `Parser::term` (comparison keywords). -/
def termCmpLoop : Nat → ASTNode → ParserSt → PRes ASTNode
  | 0, _, _ => .error .outOfFuel
  | n + 1, node, p =>
    match p.current_token with
    | .reservedKeyword kw =>
      match compareTypeOf kw with
      | some ct =>
        pbind (consumeToken p) fun p1 =>
        pbind (factor n p1) fun r =>
        termCmpLoop n (.compare node r.1 ct) r.2
      | Option.none => .ok (node, p)
    | _ => .ok (node, p)

/-- Embedding of `Parser::expr`: a term chain under binary `+`/`-`. -/
def expr : Nat → ParserSt → PRes ASTNode
  | 0, _ => .error .outOfFuel
  | n + 1, p =>
    pbind (term n p) fun r =>
    exprLoop n r.1 r.2

/-- The `while` loop of `Parser::expr`. -/
def exprLoop : Nat → ASTNode → ParserSt → PRes ASTNode
  | 0, _, _ => .error .outOfFuel
  | n + 1, node, p =>
    if p.current_token = .plus ∨ p.current_token = .minus then
      pbind (consumeToken p) fun p1 =>
      pbind (term n p1) fun r =>
      exprLoop n (.binOp node r.1 p.current_token) r.2
    else .ok (node, p)

/-- Embedding of `Parser::assignment_statement` (the `left` node has
already been parsed). -/
def assignmentStatement : Nat → ASTNode → ParserSt → PRes ASTNode
  | 0, _, _ => .error .outOfFuel
  | n + 1, left, p =>
    pbind (consume p .assign) fun p1 =>
    pbind (expr n p1) fun r =>
    .ok (.assign left r.1, r.2)

/-- Embedding of `Parser::functioncall_statement` (the callee node has
already been parsed): a parenthesized, comma-separated argument list. -/
def functioncallStatement : Nat → ASTNode → ParserSt → PRes ASTNode
  | 0, _, _ => .error .outOfFuel
  | n + 1, function, p =>
    pbind (consume p .parentheseOpen) fun p1 =>
    if p1.current_token ≠ .parentheseClose then
      pbind (callParamsLoop n p1) fun r =>
      pbind (consume r.2 .parentheseClose) fun p3 =>
      .ok (.functionCall function r.1, p3)
    else
      pbind (consume p1 .parentheseClose) fun p2 =>
      .ok (.functionCall function [], p2)

/-- Argument loop of `Parser::functioncall_statement`: expressions
separated by commas, stopping at the first non-comma lookahead. -/
def callParamsLoop : Nat → ParserSt → PRes (List ASTNode)
  | 0, _ => .error .outOfFuel
  | n + 1, p =>
    pbind (expr n p) fun r =>
    if r.2.current_token ≠ .comma then .ok ([r.1], r.2)
    else
      pbind (consume r.2 .comma) fun p2 =>
      pbind (callParamsLoop n p2) fun r2 =>
      .ok (r.1 :: r2.1, r2.2)

/-- Embedding of `Parser::statement`, dispatching on the lookahead.
Note that in the source both the `If` and the `Equals` keyword start an
`If` statement, and that the parameter-name loop of a function
declaration consumes `ID` tokens only — there is no comma handling. -/
def statement : Nat → ParserSt → PRes ASTNode
  | 0, _ => .error .outOfFuel
  | n + 1, p =>
    match p.current_token with
    | .id _ =>
      pbind (variableNode p) fun r =>
      if r.2.current_token = .assign then assignmentStatement n r.1 r.2
      else if r.2.current_token = .parentheseOpen then
        functioncallStatement n r.1 r.2
      else .ok (emptyNode, r.2)
    | .reservedKeyword kw =>
      match kw with
      | .ifKw | .equals =>
        pbind (consumeToken p) fun p1 =>
        pbind (expr n p1) fun r =>
        pbind (innerBlockStatement n r.2) fun rb =>
        .ok (.ifNode r.1 rb.1, rb.2)
      | .function =>
        pbind (consumeToken p) fun p1 =>
        match p1.current_token with
        | .id funcName =>
          pbind (consumeToken p1) fun p2 =>
          pbind (consume p2 .parentheseOpen) fun p3 =>
          pbind (if p3.current_token ≠ .parentheseClose
                 then declParamsLoop n p3 else .ok ([], p3)) fun rp =>
          pbind (consume rp.2 .parentheseClose) fun p5 =>
          pbind (innerBlockStatement n p5) fun rb =>
          .ok (.functionDeclaration funcName rp.1 rb.1, rb.2)
        | _ => .error (.unexpectedToken p1.current_token "ID for FunctionName")
      | .loopKw =>
        pbind (consumeToken p) fun p1 =>
        pbind (expr n p1) fun r =>
        pbind (innerBlockStatement n r.2) fun rb =>
        .ok (.loop r.1 rb.1, rb.2)
      | .assignPrefix =>
        pbind (consumeToken p) fun p1 =>
        pbind (variableNode p1) fun rl =>
        pbind (consume rl.2 (.reservedKeyword .assignInfix)) fun p3 =>
        pbind (expr n p3) fun rr =>
        .ok (.assign rl.1 rr.1, rr.2)
      | .ret =>
        pbind (consumeToken p) fun p1 =>
        pbind (expr n p1) fun r =>
        .ok (.ret r.1, r.2)
      | _ => .ok (emptyNode, p)
    | _ => .ok (emptyNode, p)

/-- Parameter-name loop of the function-declaration branch: a `while let
Token::ID` loop, i.e. it consumes consecutive `ID` tokens and stops at
the first non-`ID` lookahead (a comma is not consumed and is left for
`consume(ParentheseClose)` to trip over). -/
def declParamsLoop : Nat → ParserSt → PRes (List String)
  | 0, _ => .error .outOfFuel
  | n + 1, p =>
    match p.current_token with
    | .id s =>
      pbind (consumeToken p) fun p1 =>
      pbind (declParamsLoop n p1) fun r =>
      .ok (s :: r.1, r.2)
    | _ => .ok ([], p)

/-- Embedding of `Parser::statement_list`: the first statement is kept
unconditionally; subsequent statements (one per line break) are filtered
when empty. -/
def statementList : Nat → ParserSt → PRes (List ASTNode)
  | 0, _ => .error .outOfFuel
  | n + 1, p =>
    pbind (statement n p) fun r =>
    pbind (statementListLoop n r.2) fun r2 =>
    .ok (r.1 :: r2.1, r2.2)

/-- The `while` loop of `Parser::statement_list`. -/
def statementListLoop : Nat → ParserSt → PRes (List ASTNode)
  | 0, _ => .error .outOfFuel
  | n + 1, p =>
    if p.current_token = .endLine then
      pbind (consume p .endLine) fun p1 =>
      pbind (statement n p1) fun r =>
      pbind (statementListLoop n r.2) fun r2 =>
      .ok (if r.1.isNoOp then r2.1 else r.1 :: r2.1, r2.2)
    else .ok ([], p)

/-- Embedding of `Parser::inner_block_statement`: optional line break,
then a block delimited by the `avo`/`cado` keyword pair. -/
def innerBlockStatement : Nat → ParserSt → PRes ASTNode
  | 0, _ => .error .outOfFuel
  | n + 1, p =>
    pbind (if p.current_token = .endLine then consumeToken p else .ok p) fun p1 =>
    pbind (consume p1 (.reservedKeyword .avo)) fun p2 =>
    pbind (statementList n p2) fun r =>
    pbind (consume r.2 (.reservedKeyword .cado)) fun p4 =>
    .ok (.block r.1, p4)

end

/-- Embedding of `Parser::block_statement`. -/
def blockStatement (n : Nat) (p : ParserSt) : PRes ASTNode :=
  pbind (statementList n p) fun r => .ok (.block r.1, r.2)

/-- Embedding of `Parser::program`: greeting, line break, statement-list
body, farewell. -/
def programP (n : Nat) (p : ParserSt) : PRes ASTNode :=
  pbind (consume p (.reservedKeyword .greeting)) fun p1 =>
  pbind (consume p1 .endLine) fun p2 =>
  pbind (blockStatement n p2) fun r =>
  pbind (consume r.2 (.reservedKeyword .farewell)) fun p4 =>
  .ok (r.1, p4)

/-- Embedding of `Parser::parse`: the program must be followed by end of
input. -/
def parseP (n : Nat) (p : ParserSt) : Except LexerError ASTNode :=
  pbind (programP n p) fun r =>
  if r.2.current_token = .eof then .ok r.1
  else .error (.unexpectedToken r.2.current_token "EOF")

/-- Parse a full source text with the given fuel. -/
def parseText (text : String) (n : Nat) : Except LexerError ASTNode :=
  parseP n (mkParser text)

theorem parse_sanity :
    parseText "hallo\na = 1 + 2\nreicht dann auch mal" 99 =
      .ok (.block [.assign (.variable "a")
        (.binOp (.value (.integer 1)) (.value (.integer 2)) .plus)]) := by
  rfl

/-! ## Interpreter state (`src/interpreter.rs`, `src/humanoid.rs`) -/

/-- One call frame, mirroring `struct Scope`: a variable table and a
function table. The Rust `HashMap`s are modelled as association lists
with first-match lookup; insertion conses, so the last write wins. -/
structure Scope where
  symbol_table : List (String × Value)
  function_table : List (String × ASTNode)

/-- Embedding of `Scope::new`. -/
def Scope.new : Scope := { symbol_table := [], function_table := [] }

/-- Evaluation errors, mirroring `enum InterpreterError`:
`HackyReturn` is the control-flow signal carrying a function's result,
`DisturbedWorker` the fatigue-gate abort. -/
inductive InterpreterError where
  | hackyReturn (v : Value)
  | disturbedWorker
deriving DecidableEq, Repr

/-- Outcome of one evaluation: a value, an `InterpreterError`, a Rust
panic (process abort), or exhaustion of the embedding's fuel. -/
inductive Outcome where
  | ok (v : Value)
  | err (e : InterpreterError)
  | panicked (msg : String)
  | outOfFuel
deriving DecidableEq, Repr

/-- Worker/Shouter mood levels, mirroring `enum Mood` in
`src/humanoid.rs` (calmest to terminal). -/
inductive Mood where
  | happy
  | glad
  | okay
  | sad
  | aggressive
  | deactivated
deriving DecidableEq, Repr

/-- Smiley rendering of a mood (`impl Display for Mood`). -/
def Mood.display : Mood → String
  | .happy => "=D"
  | .glad => "=)"
  | .okay => "=I"
  | .sad => "=("
  | .aggressive => "=X"
  | .deactivated => "Xc"

/-- Embedding of `HumanoidControl::mood` for the `Worker`'s mood range
`[50, 1000, 10000, 100000, 1000000]`. -/
def moodOf (n : Nat) : Mood :=
  if n < 50 then .happy
  else if n < 1000 then .glad
  else if n < 10000 then .okay
  else if n < 100000 then .sad
  else if n < 1000000 then .aggressive
  else .deactivated

/-- Embedding of `HumanoidControl::mood` for the `Shouter`'s mood range
`[20, 30, 40, 100, 10000]`. -/
def shouterMoodOf (n : Nat) : Mood :=
  if n < 20 then .happy
  else if n < 30 then .glad
  else if n < 40 then .okay
  else if n < 100 then .sad
  else if n < 10000 then .aggressive
  else .deactivated

/-- Fatigue-gate state, mirroring `struct Worker`. The `Instant`
timestamp `question_cooldown` is replaced by the elapsed-nanoseconds
oracle of the evaluation state: each gate check reads the nanoseconds
elapsed since the last reset from the environment. -/
structure WorkerSt where
  prev_mood : Mood
  stress_level : Nat
  user_answer : Option Value
  cooldown : Nat
  strict_work : Bool
deriving DecidableEq, Repr

/-- Embedding of `Worker::new`. -/
def WorkerSt.new (strict_work : Bool) : WorkerSt :=
  { prev_mood := .happy, stress_level := 0, user_answer := Option.none,
    cooldown := 20, strict_work := strict_work }

/-- Output-effect state, mirroring `struct Shouter`. -/
structure ShouterSt where
  voice_damage : Nat
  strict_work : Bool
deriving DecidableEq, Repr

/-- Full evaluation state: the interpreter's call stack (head of the
list is the top frame, the end of the Rust `Vec`), the two humanoid
collaborators, the accumulated `println!` output, the prompts issued by
blocking interactive reads, and the environment oracles (interactive
answers, random draws, elapsed-time measurements). `shout_trace` records
each invocation of the output-effect collaborator `(intensity, text)`;
it is a pure observation trace. -/
structure St where
  call_stack : List Scope
  worker : WorkerSt
  shouter : ShouterSt
  output : List String
  prompts : List String
  shout_trace : List (Nat × String)
  inputs : List Value
  rands : List Nat
  elapsed : List Nat

/-- Append one printed line. -/
def pushOut (st : St) (s : String) : St := { st with output := st.output ++ [s] }

/-- Draw from the random oracle (an exhausted stream keeps yielding 0;
the theorems about random-dependent behavior quantify over the stream). -/
def takeRand (st : St) : Nat × St :=
  match st.rands with
  | [] => (0, st)
  | r :: rs => (r, { st with rands := rs })

/-- Read one elapsed-nanoseconds measurement from the clock oracle. -/
def takeElapsed (st : St) : Nat × St :=
  match st.elapsed with
  | [] => (0, st)
  | e :: es => (e, { st with elapsed := es })

/-- Modelled from the spec: the interactive read `read_value` in
`src/humanoid.rs` prints the prompt, blocks for a line of input and
parses it "via the same literal-parsing path" into a single literal
`Value` (its helper `Lexer::new_fill_greeting_farewell`, which wraps the
typed line into a parseable program, is not present under `src/`).  The
read is modelled as recording the prompt and consuming the next
already-parsed literal value from the answer oracle; a missing answer is
`Value::None`, as in the source's failure paths. -/
def readValue (st : St) (text : String) : Value × St :=
  match st.inputs with
  | [] => (Value.none, { st with prompts := st.prompts ++ [text] })
  | v :: vs => (v, { st with prompts := st.prompts ++ [text], inputs := vs })

/-- Deterministic stand-in for the `Debug` rendering of the variable
table in the challenge banner (`println!("Symbols: {:?}", ...)`); the
Rust `HashMap` Debug order is unspecified and no claim depends on this
text. -/
def renderSymbols (t : List (String × Value)) : String :=
  "Symbols: " ++ String.intercalate ", " (t.map fun kv => kv.1 ++ ": " ++ kv.2.display)

/-- Constructor tag of a node, standing in for the `Debug` rendering of
the challenged AST node; the exact text is presentation-only. -/
def nodeTag : ASTNode → String
  | .unaryOp _ _ => "UnaryOp"
  | .binOp _ _ _ => "BinOp"
  | .value _ => "Value"
  | .functionCall _ _ => "FunctionCall"
  | .functionDeclaration _ _ _ => "FunctionDeclaration"
  | .ifNode _ _ => "If"
  | .loop _ _ => "Loop"
  | .compare _ _ _ => "Compare"
  | .block _ => "Block"
  | .assign _ _ => "Assign"
  | .ret _ => "Return"
  | .variable _ => "Variable"
  | .noOp => "NoOp"

/-- Embedding of `Worker::call` (`src/humanoid.rs` lines 103–145), the
fatigue gate consulted after a node evaluation that produced `correct`.
In strict mode it is a no-op. Otherwise the stress counter grows by a
random amount in `1..10`; a mood transition prints the mood banner; and
when the mood is terminal (`Deactivated`) and the measured elapsed time
exceeds the cooldown, a non-literal node triggers the interactive
challenge: an answer equal to `correct` resets the counter and draws a
new cooldown in `1000000..1000000000`, a different answer yields the
`DisturbedWorker` abort. -/
def workerCall (st : St) (scope : Scope) (node : ASTNode) (correct : Value) :
    Option InterpreterError × St :=
  let w := st.worker
  if w.strict_work then (Option.none, st)
  else
    let d := takeRand st
    let stress := w.stress_level + (1 + d.1 % 9)
    let current_mood := moodOf stress
    let changed := w.prev_mood ≠ current_mood
    let st1 := { d.2 with worker := { w with stress_level := stress, prev_mood := current_mood } }
    let st2 := if changed then pushOut st1 ("[ " ++ current_mood.display ++ " ]") else st1
    if current_mood = .deactivated then
      let el := takeElapsed st2
      if el.1 > w.cooldown then
        if node.isValue then (Option.none, el.2)
        else
          let st3 := pushOut el.2 (current_mood.display ++
            ", Ich kann nicht mehr... Zu was wertet dieser Ausdruck hier aus?")
          let st4 := pushOut st3 (String.mk (List.replicate 15 '-'))
          let st5 := pushOut st4 (renderSymbols scope.symbol_table)
          let st6 := pushOut st5 (nodeTag node)
          let st7 := pushOut st6 (String.mk (List.replicate 15 '-'))
          let ans := readValue st7 ">>"
          let st8 := { ans.2 with worker := { ans.2.worker with user_answer := some ans.1 } }
          if ans.1 = correct then
            let st9 := if correct = Value.none then pushOut st8 "Wow, gar nichts..." else st8
            let st10 := pushOut st9 "Danke, du hast recht!"
            let d2 := takeRand st10
            let st11 := { d2.2 with worker := { d2.2.worker with
              stress_level := 0, cooldown := 1000000 + d2.1 % 999000000,
              user_answer := Option.none } }
            (Option.none, st11)
          else
            let st9 := pushOut st8 ("¿Ehm, nein? Es wäre " ++ correct.display ++ ".")
            (some .disturbedWorker, st9)
      else (Option.none, el.2)
    else (Option.none, st2)

/-- Character loop of `Shouter::shout`: each character is upper-cased
with probability `(shout_level - 1) * 10` percent. -/
def shoutChars (shout_level : Nat) : List Char → St → String → String × St
  | [], st, acc => (acc, st)
  | c :: cs, st, acc =>
    let d := takeRand st
    let c' := if (shout_level - 1) * 10 > d.1 % 100 then c.toUpper else c
    shoutChars shout_level cs d.2 (acc.push c')

/-- Embedding of `Shouter::shout` (`src/humanoid.rs` lines 158–212).
Strict mode prints the text verbatim. Otherwise, with voice damage above
1000 the shouter coughs and asks for a drink (`gen_range(0..1)` is
always 0, so the drink request always happens); with smaller damage the
text is printed with randomized upper-casing and the damage grows by the
shout level. Presentational `sleep`s are not modelled. Every invocation
is recorded in `shout_trace`. -/
def shouterShout (st0 : St) (shout_level : Nat) (text : String) : St :=
  let st := { st0 with shout_trace := st0.shout_trace ++ [(shout_level, text)] }
  if st.shouter.strict_work then pushOut st text
  else if st.shouter.voice_damage > 1000 then
    let d1 := takeRand st
    let d2 := takeRand d1.2
    let word := if 1 + d2.1 % 3 = 1 then "*hust*"
      else if 1 + d2.1 % 3 = 2 then "*keuch*" else "*arr*"
    let st1 := pushOut d2.2 ((shouterMoodOf d2.2.shouter.voice_damage).display ++ " " ++ word)
    let d3 := takeRand st1
    let st2 := pushOut d3.2 "Kann ich was zu trinken haben?"
    let ans := readValue st2 "Gebe: "
    match ans.1 with
    | .string s =>
      if s.toLower = "tee" ∨ s.toLower = "wasser" then
        let st3 := pushOut ans.2 "Danke!"
        { st3 with shouter := { st3.shouter with voice_damage := 0 } }
      else pushOut ans.2 "Das trinke ich nicht."
    | _ => pushOut ans.2 "<Du musst in meiner Sprache sprechen>"
  else
    let r := shoutChars shout_level text.data st ""
    let st1 := pushOut r.2 r.1
    { st1 with shouter := { st1.shouter with
        voice_damage := st1.shouter.voice_damage + shout_level } }

/-- Embedding of `Interpreter::expect`: the value must be an integer,
anything else is the "Not a number!" panic. -/
def expectInt : Value → Option Int
  | .integer v => some v
  | _ => Option.none

/-- Kernel-computable `str::starts_with` (the standard library's
`String.startsWith` is not reducible by the kernel). -/
def strStartsWith (s p : String) : Bool := s.data.take p.data.length == p.data

/-- Signed 32-bit range check (debug-profile Rust aborts when an `i32`
operation leaves this range). -/
def i32InRange (z : Int) : Prop := -(2 ^ 31) ≤ z ∧ z < 2 ^ 31

instance (z : Int) : Decidable (i32InRange z) := by
  unfold i32InRange; infer_instance

/-- The gate call appended to a node visit (`src/interpreter.rs` lines
263–264): `self.worker.call(self.call_stack.last().unwrap(), node,
&result)?` followed by `Ok(result)`. Only the `visit` arms that fall
through to the end of the `match` reach this point. -/
def endVisit (node : ASTNode) (result : Value) (st : St) : Outcome × St :=
  match st.call_stack with
  | [] => (.panicked "Empty callstack! :s", st)
  | scope :: _ =>
    match workerCall st scope node result with
    | (Option.none, st') => (.ok result, st')
    | (some e, st') => (.err e, st')

/-- Error-propagating bind on evaluation outcomes (the `?` operator in
`Interpreter::visit`). -/
def vbind (p : Outcome × St) (k : Value → St → Outcome × St) : Outcome × St :=
  match p with
  | (.ok v, st) => k v st
  | other => other

@[simp] theorem vbind_ok (v : Value) (st : St) (k : Value → St → Outcome × St) :
    vbind (.ok v, st) k = k v st := rfl

@[simp] theorem vbind_err (e : InterpreterError) (st : St)
    (k : Value → St → Outcome × St) : vbind (.err e, st) k = (.err e, st) := rfl

@[simp] theorem vbind_panicked (m : String) (st : St)
    (k : Value → St → Outcome × St) :
    vbind (.panicked m, st) k = (.panicked m, st) := rfl

@[simp] theorem vbind_outOfFuel (st : St) (k : Value → St → Outcome × St) :
    vbind (.outOfFuel, st) k = (.outOfFuel, st) := rfl

/-- Continuation step of the `Block` child loop: an `ok` child result
continues with the rest of the loop, anything else short-circuits the
block with that outcome. -/
def seqAfter (p : Outcome × St) (k : St → Option Outcome × St) :
    Option Outcome × St :=
  match p with
  | (.ok _, st1) => k st1
  | (o, st1) => (some o, st1)

@[simp] theorem seqAfter_ok (v : Value) (st : St) (k : St → Option Outcome × St) :
    seqAfter (.ok v, st) k = k st := rfl

/-- Continuation step of the argument-rendering and argument-binding
loops: an `ok` result continues, anything else aborts the loop with that
outcome (the `?` operator inside the loop body). -/
def exceptAfter {α : Type} (p : Outcome × St)
    (k : Value → St → Except Outcome α × St) : Except Outcome α × St :=
  match p with
  | (.ok v, st1) => k v st1
  | (o, st1) => (.error o, st1)

@[simp] theorem exceptAfter_ok {α : Type} (v : Value) (st : St)
    (k : Value → St → Except Outcome α × St) :
    exceptAfter (.ok v, st) k = k v st := rfl

/-- Continuation step after one of the loops feeding a `FunctionCall`
arm: a loop error is returned from `visit` as-is (the `?`-style early
returns of the source), an `ok` artifact continues. -/
def callAfter {α : Type} (p : Except Outcome α × St)
    (k : α → St → Outcome × St) : Outcome × St :=
  match p with
  | (.ok a, st1) => k a st1
  | (.error o, st1) => (o, st1)

@[simp] theorem callAfter_ok {α : Type} (a : α) (st : St)
    (k : α → St → Outcome × St) : callAfter (.ok a, st) k = k a st := rfl

@[simp] theorem callAfter_error {α : Type} (o : Outcome) (st : St)
    (k : α → St → Outcome × St) : callAfter (.error o, st) k = (o, st) := rfl

/-- Completion of a user-defined call body (`src/interpreter.rs` lines
237–247): a normal value or an intercepted `HackyReturn` pops the callee
frame and becomes the call's result; any other outcome — including the
`DisturbedWorker` abort — is returned as-is, *without* popping the
frame (`return Err(e)` happens before `self.call_stack.pop()`). -/
def callFinish (p : Outcome × St) : Outcome × St :=
  match p with
  | (.ok v, st3) => (.ok v, { st3 with call_stack := st3.call_stack.tail })
  | (.err (.hackyReturn v), st3) =>
    (.ok v, { st3 with call_stack := st3.call_stack.tail })
  | other => other

mutual

/-- Embedding of `Interpreter::visit` (`src/interpreter.rs` lines
92–265). The fuel argument only bounds recursion depth; every branch
mirrors the source arm by arm, including which arms return early
(bypassing the fatigue-gate call at the end) and which fall through to
`endVisit`. -/
def visit : Nat → ASTNode → St → Outcome × St
  | 0, _, st => (.outOfFuel, st)
  | n + 1, node, st =>
    match node with
    | .binOp left right token =>
      match token with
      | .plus =>
        vbind (visit n left st) fun lv st1 =>
        match expectInt lv with
        | Option.none => (.panicked "Not a number!", st1)
        | some a =>
          vbind (visit n right st1) fun rv st2 =>
          match expectInt rv with
          | Option.none => (.panicked "Not a number!", st2)
          | some b =>
            if i32InRange (a + b) then endVisit node (.integer (a + b)) st2
            else (.panicked "attempt to add with overflow", st2)
      | .minus =>
        vbind (visit n left st) fun lv st1 =>
        match expectInt lv with
        | Option.none => (.panicked "Not a number!", st1)
        | some a =>
          vbind (visit n right st1) fun rv st2 =>
          match expectInt rv with
          | Option.none => (.panicked "Not a number!", st2)
          | some b =>
            if i32InRange (a - b) then endVisit node (.integer (a - b)) st2
            else (.panicked "attempt to subtract with overflow", st2)
      | .multiply =>
        vbind (visit n left st) fun lv st1 =>
        match expectInt lv with
        | Option.none => (.panicked "Not a number!", st1)
        | some a =>
          vbind (visit n right st1) fun rv st2 =>
          match expectInt rv with
          | Option.none => (.panicked "Not a number!", st2)
          | some b =>
            if i32InRange (a * b) then endVisit node (.integer (a * b)) st2
            else (.panicked "attempt to multiply with overflow", st2)
      | .divide =>
        vbind (visit n left st) fun lv st1 =>
        match expectInt lv with
        | Option.none => (.panicked "Not a number!", st1)
        | some a =>
          vbind (visit n right st1) fun rv st2 =>
          match expectInt rv with
          | Option.none => (.panicked "Not a number!", st2)
          | some b =>
            if b = 0 then (.panicked "attempt to divide by zero", st2)
            else if i32InRange (a.tdiv b) then endVisit node (.integer (a.tdiv b)) st2
            else (.panicked "attempt to divide with overflow", st2)
      | _ => (.panicked "Invalid BinaryOp Token", st)
    | .value v => endVisit node v st
    | .unaryOp expression token =>
      match token with
      | .plus =>
        vbind (visit n expression st) fun v st1 =>
        match expectInt v with
        | Option.none => (.panicked "Not a number!", st1)
        | some a => endVisit node (.integer a) st1
      | .minus =>
        vbind (visit n expression st) fun v st1 =>
        match expectInt v with
        | Option.none => (.panicked "Not a number!", st1)
        | some a =>
          if i32InRange (-a) then endVisit node (.integer (-a)) st1
          else (.panicked "attempt to negate with overflow", st1)
      | _ => (.panicked "Invalid UnaryOp Token", st)
    | .block children =>
      match visitSeq n children st with
      | (some o, st1) => (o, st1)
      | (Option.none, st1) => endVisit node .none st1
    | .variable name =>
      match st.call_stack with
      | [] => (.panicked "Empty callstack! :s", st)
      | scope :: _ =>
        match scope.symbol_table.lookup name with
        | some v => endVisit node v st
        | Option.none => (.panicked ("Unknown variable name: " ++ name), st)
    | .assign left right =>
      match left.varName? with
      | some name =>
        vbind (visit n right st) fun v st1 =>
        match st1.call_stack with
        | [] => (.panicked "Empty callstack! :s", st1)
        | scope :: restStack =>
          endVisit node .none { st1 with call_stack :=
            { scope with symbol_table := (name, v) :: scope.symbol_table } :: restStack }
      | Option.none => (.panicked "Invalid Left Side in Assign.", st)
    | .ifNode condition execution =>
      vbind (visit n condition st) fun v st1 =>
      match v with
      | .boolean true =>
        vbind (visit n execution st1) fun _ st2 => endVisit node .none st2
      | .boolean false => endVisit node .none st1
      | _ => (.err .disturbedWorker, st1)
    | .loop condition execution =>
      vbind (visitIter n condition execution st) fun _ st1 =>
      endVisit node .none st1
    | .compare left right compare_type =>
      vbind (visit n left st) fun lv st1 =>
      vbind (visit n right st1) fun rv st2 =>
      match compare_type with
      | .equals => (.ok (.boolean (lv = rv)), st2)
      | .less => (.ok (.boolean (Value.cmpV lv rv = .lt)), st2)
      | .greater => (.ok (.boolean (Value.cmpV lv rv = .gt)), st2)
    | .functionDeclaration name _ _ =>
      match st.call_stack with
      | [] => (.panicked "Empty callstack! :s", st)
      | scope :: restStack =>
        match scope.function_table.lookup name with
        | some _ => (.panicked ("Function " ++ name ++ " redeclared!"), st)
        | Option.none =>
          endVisit node .none { st with call_stack :=
            { scope with function_table := (name, node) :: scope.function_table } :: restStack }
    | .functionCall function parameters =>
      match function.varName? with
      | some name =>
        if strStartsWith name ":O__" then visitShout n node name parameters st
        else if name = "d;D" then visitInput n parameters st
        else visitUserCall n name parameters st
      | Option.none => endVisit node .none st
    | .ret expression =>
      vbind (visit n expression st) fun v st1 => (.err (.hackyReturn v), st1)
    | .noOp => endVisit node .none st

/-- Hard-coded output branch of the `FunctionCall` arm
(`src/interpreter.rs` lines 192–202): a callee name starting with the
4-character sentinel `:O__` renders all arguments to text and invokes
the shouter with intensity `name.len() - 3`; the node then falls through
to `Value::None` and the fatigue gate. -/
def visitShout : Nat → ASTNode → String → List ASTNode → St → Outcome × St
  | 0, _, _, _, st => (.outOfFuel, st)
  | n + 1, node, name, parameters, st =>
    callAfter (visitRender n parameters "" st) fun text st1 =>
      endVisit node .none (shouterShout st1 (name.length - 3) text)

/-- Hard-coded interactive-input branch of the `FunctionCall` arm
(`src/interpreter.rs` lines 203–214, callee name exactly `d;D`): renders
the arguments into a prompt, blocks for a typed literal answer and
returns it from `visit` directly (bypassing the gate). -/
def visitInput : Nat → List ASTNode → St → Outcome × St
  | 0, _, st => (.outOfFuel, st)
  | n + 1, parameters, st =>
    callAfter (visitRender n parameters "" st) fun text st1 =>
      (.ok (readValue st1 (text ++ ": ")).1, (readValue st1 (text ++ ": ")).2)

/-- User-defined function call branch (`src/interpreter.rs` lines
216–250): snapshot the caller's function table, resolve the callee,
check the argument count, evaluate and bind the arguments in the
caller's frame, push the new frame, run the body, and finish through
`callFinish` (which pops the frame only on a normal or early-return
completion). -/
def visitUserCall : Nat → String → List ASTNode → St → Outcome × St
  | 0, _, _, st => (.outOfFuel, st)
  | n + 1, name, parameters, st =>
    match st.call_stack with
    | [] => (.panicked "Empty callstack! :s", st)
    | scope :: _ =>
      match scope.function_table.lookup name with
      | Option.none => (.panicked ("Unknown variable name: " ++ name), st)
      | some fnode =>
        match fnode with
        | .functionDeclaration _ func_parameters execution_block =>
          if func_parameters.length ≠ parameters.length then
            (.panicked "Invalid argument count!", st)
          else
            callAfter (visitArgs n parameters func_parameters
                { symbol_table := [], function_table := scope.function_table } st)
              fun new_scope st1 =>
                callFinish (visit n execution_block
                  { st1 with call_stack := new_scope :: st1.call_stack })
        | _ => (.panicked "Invalid function stored.", st)

/-- The `for child in children` loop of the `Block` arm: a `Return`
child's result is returned from `visit` directly (bypassing the gate);
any other child's error short-circuits; `none` means the loop fell
through (the block then produces `Value::None` and consults the gate). -/
def visitSeq : Nat → List ASTNode → St → Option Outcome × St
  | 0, _, st => (some .outOfFuel, st)
  | _ + 1, [], st => (Option.none, st)
  | n + 1, child :: rest, st =>
    if child.isRet then (some (visit n child st).1, (visit n child st).2)
    else seqAfter (visit n child st) (visitSeq n rest)

/-- The `while let Value::Boolean(true)` loop of the `Loop` arm: the
condition is re-evaluated before every iteration; any condition value
other than `Boolean(true)` — including every non-boolean value — ends
the loop normally. -/
def visitIter : Nat → ASTNode → ASTNode → St → Outcome × St
  | 0, _, _, st => (.outOfFuel, st)
  | n + 1, condition, execution, st =>
    vbind (visit n condition st) fun v st1 =>
    match v with
    | .boolean true =>
      vbind (visit n execution st1) fun _ st2 =>
      visitIter n condition execution st2
    | _ => (.ok .none, st1)

/-- Argument-rendering loop shared by the `:O__` output form and the
`d;D` input form: each argument is rendered to text — a bare variable
via `resolve_variable`, anything else via `visit` — and concatenated. -/
def visitRender : Nat → List ASTNode → String → St → Except Outcome String × St
  | 0, _, _, st => (.error .outOfFuel, st)
  | _ + 1, [], acc, st => (.ok acc, st)
  | n + 1, p :: ps, acc, st =>
    match p.varName? with
    | some vname =>
      match st.call_stack with
      | [] => (.error (.panicked "Empty callstack! :s"), st)
      | scope :: _ =>
        match scope.symbol_table.lookup vname with
        | some v => visitRender n ps (acc ++ v.display) st
        | Option.none =>
          (.error (.panicked ("Unknown variable name: " ++ vname)), st)
    | Option.none =>
      exceptAfter (visit n p st) fun v st1 =>
        visitRender n ps (acc ++ v.display) st1

/-- Argument-binding loop of a user-defined call: arguments are
evaluated in order in the caller's frame and bound positionally into the
new frame's variable table. -/
def visitArgs : Nat → List ASTNode → List String → Scope → St →
    Except Outcome Scope × St
  | 0, _, _, _, st => (.error .outOfFuel, st)
  | _ + 1, [], _, sc, st => (.ok sc, st)
  | n + 1, p :: ps, names, sc, st =>
    exceptAfter (visit n p st) fun v st1 =>
      match names with
      | [] => (.error (.panicked "Function argument missing"), st1)
      | nm :: restNames =>
        visitArgs n ps restNames
          { sc with symbol_table := (nm, v) :: sc.symbol_table } st1

end

/-! ### One-step unfolding equations (all definitional)

These restate single arms of the mutual evaluator so that proofs can
rewrite one application at a time instead of unfolding every nested
call. -/

theorem visit_zero (a : ASTNode) (st : St) : visit 0 a st = (.outOfFuel, st) := rfl

theorem visit_value (n : Nat) (v : Value) (st : St) :
    visit (n + 1) (.value v) st = endVisit (.value v) v st := rfl

theorem visit_noOp (n : Nat) (st : St) :
    visit (n + 1) .noOp st = endVisit .noOp .none st := rfl

theorem visit_variable (n : Nat) (nm : String) (st : St) :
    visit (n + 1) (.variable nm) st =
      match st.call_stack with
      | [] => (.panicked "Empty callstack! :s", st)
      | scope :: _ =>
        match scope.symbol_table.lookup nm with
        | some v => endVisit (.variable nm) v st
        | Option.none => (.panicked ("Unknown variable name: " ++ nm), st) := rfl

theorem visit_block (n : Nat) (cs : List ASTNode) (st : St) :
    visit (n + 1) (.block cs) st =
      match visitSeq n cs st with
      | (some o, st1) => (o, st1)
      | (Option.none, st1) => endVisit (.block cs) .none st1 := rfl

theorem visit_assign (n : Nat) (l r : ASTNode) (st : St) :
    visit (n + 1) (.assign l r) st =
      match l.varName? with
      | some name =>
        vbind (visit n r st) fun v st1 =>
        match st1.call_stack with
        | [] => (.panicked "Empty callstack! :s", st1)
        | scope :: restStack =>
          endVisit (.assign l r) .none { st1 with call_stack :=
            { scope with symbol_table := (name, v) :: scope.symbol_table } :: restStack }
      | Option.none => (.panicked "Invalid Left Side in Assign.", st) := rfl

theorem visit_ifNode (n : Nat) (c e : ASTNode) (st : St) :
    visit (n + 1) (.ifNode c e) st =
      vbind (visit n c st) fun v st1 =>
      match v with
      | .boolean true =>
        vbind (visit n e st1) fun _ st2 => endVisit (.ifNode c e) .none st2
      | .boolean false => endVisit (.ifNode c e) .none st1
      | _ => (.err .disturbedWorker, st1) := rfl

theorem visit_loop (n : Nat) (c b : ASTNode) (st : St) :
    visit (n + 1) (.loop c b) st =
      vbind (visitIter n c b st) fun _ st1 =>
      endVisit (.loop c b) .none st1 := rfl

theorem visit_compare (n : Nat) (l r : ASTNode) (ct : CompareType) (st : St) :
    visit (n + 1) (.compare l r ct) st =
      vbind (visit n l st) fun lv st1 =>
      vbind (visit n r st1) fun rv st2 =>
      match ct with
      | .equals => (.ok (.boolean (lv = rv)), st2)
      | .less => (.ok (.boolean (Value.cmpV lv rv = .lt)), st2)
      | .greater => (.ok (.boolean (Value.cmpV lv rv = .gt)), st2) := rfl

theorem visit_ret (n : Nat) (e : ASTNode) (st : St) :
    visit (n + 1) (.ret e) st =
      vbind (visit n e st) fun v st1 => (.err (.hackyReturn v), st1) := rfl

theorem visit_functionDeclaration (n : Nat) (nm : String) (ps : List String)
    (b : ASTNode) (st : St) :
    visit (n + 1) (.functionDeclaration nm ps b) st =
      match st.call_stack with
      | [] => (.panicked "Empty callstack! :s", st)
      | scope :: restStack =>
        match scope.function_table.lookup nm with
        | some _ => (.panicked ("Function " ++ nm ++ " redeclared!"), st)
        | Option.none =>
          endVisit (.functionDeclaration nm ps b) .none { st with call_stack :=
            { scope with function_table :=
              (nm, .functionDeclaration nm ps b) :: scope.function_table } :: restStack } := rfl

theorem visit_call_var (n : Nat) (nm : String) (ps : List ASTNode) (st : St) :
    visit (n + 1) (.functionCall (.variable nm) ps) st =
      (if strStartsWith nm ":O__" then
        visitShout n (.functionCall (.variable nm) ps) nm ps st
      else if nm = "d;D" then visitInput n ps st
      else visitUserCall n nm ps st) := rfl

theorem visitShout_succ (n : Nat) (node : ASTNode) (nm : String)
    (ps : List ASTNode) (st : St) :
    visitShout (n + 1) node nm ps st =
      callAfter (visitRender n ps "" st) (fun text st1 =>
        endVisit node .none (shouterShout st1 (nm.length - 3) text)) := rfl

theorem visitInput_succ (n : Nat) (ps : List ASTNode) (st : St) :
    visitInput (n + 1) ps st =
      callAfter (visitRender n ps "" st) (fun text st1 =>
        (.ok (readValue st1 (text ++ ": ")).1, (readValue st1 (text ++ ": ")).2)) := rfl

theorem visitUserCall_succ (n : Nat) (nm : String) (ps : List ASTNode) (st : St) :
    visitUserCall (n + 1) nm ps st =
      match st.call_stack with
      | [] => (.panicked "Empty callstack! :s", st)
      | scope :: _ =>
        match scope.function_table.lookup nm with
        | Option.none => (.panicked ("Unknown variable name: " ++ nm), st)
        | some fnode =>
          match fnode with
          | .functionDeclaration _ func_parameters execution_block =>
            if func_parameters.length ≠ ps.length then
              (.panicked "Invalid argument count!", st)
            else
              callAfter (visitArgs n ps func_parameters
                  { symbol_table := [], function_table := scope.function_table } st)
                fun new_scope st1 =>
                  callFinish (visit n execution_block
                    { st1 with call_stack := new_scope :: st1.call_stack })
          | _ => (.panicked "Invalid function stored.", st) := rfl

theorem visitSeq_zero (cs : List ASTNode) (st : St) :
    visitSeq 0 cs st = (some .outOfFuel, st) := rfl

theorem visitSeq_nil (n : Nat) (st : St) :
    visitSeq (n + 1) [] st = (Option.none, st) := rfl

theorem visitSeq_cons (n : Nat) (child : ASTNode) (rest : List ASTNode) (st : St) :
    visitSeq (n + 1) (child :: rest) st =
      if child.isRet then (some (visit n child st).1, (visit n child st).2)
      else seqAfter (visit n child st) (visitSeq n rest) := rfl

theorem visitIter_succ (n : Nat) (c b : ASTNode) (st : St) :
    visitIter (n + 1) c b st =
      vbind (visit n c st) fun v st1 =>
      match v with
      | .boolean true =>
        vbind (visit n b st1) fun _ st2 => visitIter n c b st2
      | _ => (.ok .none, st1) := rfl

theorem visitRender_nil (n : Nat) (acc : String) (st : St) :
    visitRender (n + 1) [] acc st = (.ok acc, st) := rfl

theorem visitRender_cons (n : Nat) (p : ASTNode) (ps : List ASTNode)
    (acc : String) (st : St) :
    visitRender (n + 1) (p :: ps) acc st =
      match p.varName? with
      | some vname =>
        match st.call_stack with
        | [] => (.error (.panicked "Empty callstack! :s"), st)
        | scope :: _ =>
          match scope.symbol_table.lookup vname with
          | some v => visitRender n ps (acc ++ v.display) st
          | Option.none =>
            (.error (.panicked ("Unknown variable name: " ++ vname)), st)
      | Option.none =>
        exceptAfter (visit n p st) fun v st1 =>
          visitRender n ps (acc ++ v.display) st1 := rfl

theorem visitArgs_nil (n : Nat) (nms : List String) (sc : Scope) (st : St) :
    visitArgs (n + 1) [] nms sc st = (.ok sc, st) := rfl

theorem visitArgs_cons (n : Nat) (p : ASTNode) (ps : List ASTNode)
    (nms : List String) (sc : Scope) (st : St) :
    visitArgs (n + 1) (p :: ps) nms sc st =
      exceptAfter (visit n p st) fun v st1 =>
        match nms with
        | [] => (.error (.panicked "Function argument missing"), st1)
        | nm :: restNames =>
          visitArgs n ps restNames
            { sc with symbol_table := (nm, v) :: sc.symbol_table } st1 := rfl

/-- Result of a whole `Interpreter::interpret` run. A panic aborts the
process; `finished` covers the source's `Ok(())` exits (including the
reported top-level return and the reported worker abort). -/
inductive InterpRes where
  | lexError (e : LexerError)
  | finished
  | panicked (msg : String)
  | outOfFuel
deriving DecidableEq, Repr

/-- Embedding of `Interpreter::interpret`: parse, evaluate, and report —
a top-level `HackyReturn` prints the uncaught value, a `DisturbedWorker`
prints the "Oh oh" line; both end the run normally. -/
def interpret (text : String) (pfuel vfuel : Nat) (st : St) : InterpRes × St :=
  match parseText text pfuel with
  | .error e => (.lexError e, st)
  | .ok tree =>
    match visit vfuel tree st with
    | (.ok _, st1) => (.finished, st1)
    | (.err (.hackyReturn v), st1) =>
      (.finished, pushOut st1 ("This program throwed at us a: " ++ v.display))
    | (.err .disturbedWorker, st1) =>
      (.finished, pushOut st1 "Oh oh... DisturbedWorker")
    | (.panicked m, st1) => (.panicked m, st1)
    | (.outOfFuel, st1) => (.outOfFuel, st1)

/-- Initial evaluation state of `Interpreter::new` with the given
strictness and oracle streams: one empty frame on the call stack, fresh
worker and shouter. -/
def initSt (strict : Bool) (inputs : List Value) (rands elapsed : List Nat) : St :=
  { call_stack := [Scope.new],
    worker := WorkerSt.new strict,
    shouter := { voice_damage := 0, strict_work := strict },
    output := [], prompts := [], shout_trace := [],
    inputs := inputs, rands := rands, elapsed := elapsed }

/-! ## Fuel stability

A completed evaluation (one that did not exhaust its fuel) is a fixed
point of more fuel, so hypotheses about sub-evaluations at arbitrary
fuels compose. -/

/-- Congruence of `vbind` under a fuel bump: if the scrutinee and (on its
`ok` results) the continuation are stable, so is the bind. -/
theorem vbind_stable {p p' : Outcome × St} {k k' : Value → St → Outcome × St}
    (hp : p.1 ≠ .outOfFuel → p' = p)
    (hk : ∀ v s, p = (.ok v, s) → (k v s).1 ≠ .outOfFuel → k' v s = k v s)
    (h : (vbind p k).1 ≠ .outOfFuel) : vbind p' k' = vbind p k := by
  rcases p with ⟨o, s⟩
  cases o with
  | ok v =>
    have hkf : (k v s).1 ≠ .outOfFuel := h
    rw [hp (by simp)]
    simpa [vbind] using hk v s rfl hkf
  | err e => rw [hp (by simp)]; rfl
  | panicked m => rw [hp (by simp)]; rfl
  | outOfFuel => exact absurd rfl h

/-- Congruence of `seqAfter` under a fuel bump. -/
theorem seqAfter_stable {p p' : Outcome × St} {k k' : St → Option Outcome × St}
    (hp : p.1 ≠ .outOfFuel → p' = p)
    (hk : ∀ v s, p = (.ok v, s) → (k s).1 ≠ some .outOfFuel → k' s = k s)
    (h : (seqAfter p k).1 ≠ some .outOfFuel) : seqAfter p' k' = seqAfter p k := by
  rcases p with ⟨o, s⟩
  cases o with
  | ok v =>
    have hkf : (k s).1 ≠ some .outOfFuel := h
    rw [hp (by simp)]
    simpa [seqAfter] using hk v s rfl hkf
  | err e => rw [hp (by simp)]; rfl
  | panicked m => rw [hp (by simp)]; rfl
  | outOfFuel => exact absurd rfl h

/-- Congruence of `exceptAfter` under a fuel bump. -/
theorem exceptAfter_stable {α : Type} {p p' : Outcome × St}
    {k k' : Value → St → Except Outcome α × St}
    (hp : p.1 ≠ .outOfFuel → p' = p)
    (hk : ∀ v s, p = (.ok v, s) → (k v s).1 ≠ .error .outOfFuel → k' v s = k v s)
    (h : (exceptAfter p k).1 ≠ .error .outOfFuel) :
    exceptAfter p' k' = exceptAfter p k := by
  rcases p with ⟨o, s⟩
  cases o with
  | ok v =>
    have hkf : (k v s).1 ≠ .error .outOfFuel := h
    rw [hp (by simp)]
    simpa [exceptAfter] using hk v s rfl hkf
  | err e => rw [hp (by simp)]; rfl
  | panicked m => rw [hp (by simp)]; rfl
  | outOfFuel => exact absurd rfl h

/-- Congruence of `callAfter` under a fuel bump. -/
theorem callAfter_stable {α : Type} {p p' : Except Outcome α × St}
    {k k' : α → St → Outcome × St}
    (hp : p.1 ≠ .error .outOfFuel → p' = p)
    (hk : ∀ a s, p = (.ok a, s) → (k a s).1 ≠ .outOfFuel → k' a s = k a s)
    (h : (callAfter p k).1 ≠ .outOfFuel) : callAfter p' k' = callAfter p k := by
  rcases p with ⟨o, s⟩
  cases o with
  | ok a =>
    have hkf : (k a s).1 ≠ .outOfFuel := h
    rw [hp (by simp)]
    simpa [callAfter] using hk a s rfl hkf
  | error e =>
    have he : e ≠ .outOfFuel := h
    rw [hp (by simp [he])]; rfl

/-- The `callFinish` wrapper preserves fuel-exhaustion of its argument. -/
theorem callFinish_fuel {p : Outcome × St} (h : (callFinish p).1 ≠ .outOfFuel) :
    p.1 ≠ .outOfFuel := by
  rcases p with ⟨o, s⟩
  intro he
  have he' : o = Outcome.outOfFuel := he
  subst he'
  exact h rfl

theorem visit_stable_all : ∀ n : Nat,
    (∀ a st, (visit n a st).1 ≠ .outOfFuel →
      visit (n + 1) a st = visit n a st) ∧
    (∀ node nm ps st, (visitShout n node nm ps st).1 ≠ .outOfFuel →
      visitShout (n + 1) node nm ps st = visitShout n node nm ps st) ∧
    (∀ ps st, (visitInput n ps st).1 ≠ .outOfFuel →
      visitInput (n + 1) ps st = visitInput n ps st) ∧
    (∀ nm ps st, (visitUserCall n nm ps st).1 ≠ .outOfFuel →
      visitUserCall (n + 1) nm ps st = visitUserCall n nm ps st) ∧
    (∀ cs st, (visitSeq n cs st).1 ≠ some .outOfFuel →
      visitSeq (n + 1) cs st = visitSeq n cs st) ∧
    (∀ c b st, (visitIter n c b st).1 ≠ .outOfFuel →
      visitIter (n + 1) c b st = visitIter n c b st) ∧
    (∀ ps acc st, (visitRender n ps acc st).1 ≠ .error .outOfFuel →
      visitRender (n + 1) ps acc st = visitRender n ps acc st) ∧
    (∀ ps nms sc st, (visitArgs n ps nms sc st).1 ≠ .error .outOfFuel →
      visitArgs (n + 1) ps nms sc st = visitArgs n ps nms sc st) := by
  intro n
  induction n with
  | zero =>
    refine ⟨?_, ?_, ?_, ?_, ?_, ?_, ?_, ?_⟩
    · intro a st h; exact absurd rfl h
    · intro node nm ps st h; exact absurd rfl h
    · intro ps st h; exact absurd rfl h
    · intro nm ps st h; exact absurd rfl h
    · intro cs st h; exact absurd rfl h
    · intro c b st h; exact absurd rfl h
    · intro ps acc st h; exact absurd rfl h
    · intro ps nms sc st h; exact absurd rfl h
  | succ n ih =>
    obtain ⟨ihv, ihsh, ihin, ihu, ihs, ihi, ihr, iha⟩ := ih
    refine ⟨?_, ?_, ?_, ?_, ?_, ?_, ?_, ?_⟩
    · -- visit
      intro a st h
      cases a with
      | binOp l r tok =>
        cases tok
        case plus =>
          refine vbind_stable (fun hne => ihv l st hne) ?_ h
          intro v s _ hk1
          dsimp only at hk1 ⊢
          cases hv : expectInt v with
          | none => rfl
          | some a =>
            rw [hv] at hk1
            exact vbind_stable (fun hne => ihv r s hne) (fun w s2 _ _ => rfl) hk1
        case minus =>
          refine vbind_stable (fun hne => ihv l st hne) ?_ h
          intro v s _ hk1
          dsimp only at hk1 ⊢
          cases hv : expectInt v with
          | none => rfl
          | some a =>
            rw [hv] at hk1
            exact vbind_stable (fun hne => ihv r s hne) (fun w s2 _ _ => rfl) hk1
        case multiply =>
          refine vbind_stable (fun hne => ihv l st hne) ?_ h
          intro v s _ hk1
          dsimp only at hk1 ⊢
          cases hv : expectInt v with
          | none => rfl
          | some a =>
            rw [hv] at hk1
            exact vbind_stable (fun hne => ihv r s hne) (fun w s2 _ _ => rfl) hk1
        case divide =>
          refine vbind_stable (fun hne => ihv l st hne) ?_ h
          intro v s _ hk1
          dsimp only at hk1 ⊢
          cases hv : expectInt v with
          | none => rfl
          | some a =>
            rw [hv] at hk1
            exact vbind_stable (fun hne => ihv r s hne) (fun w s2 _ _ => rfl) hk1
        all_goals simp only [visit]
      | value v => simp only [visit]
      | unaryOp e tok =>
        cases tok
        case plus =>
          exact vbind_stable (fun hne => ihv e st hne) (fun v s _ _ => rfl) h
        case minus =>
          exact vbind_stable (fun hne => ihv e st hne) (fun v s _ _ => rfl) h
        all_goals simp only [visit]
      | block cs =>
        rw [visit_block (n + 1) cs st, visit_block n cs st]
        rw [visit_block n cs st] at h
        have hcond : (visitSeq n cs st).1 ≠ some .outOfFuel := by
          intro he
          cases hs : visitSeq n cs st with
          | mk or st1 =>
            rw [hs] at he
            have he2 : or = some Outcome.outOfFuel := he
            subst he2
            apply h
            rw [hs]
        rw [ihs cs st hcond]
      | «variable» nm => simp only [visit]
      | assign l r =>
        cases l
        case «variable» nm =>
          exact vbind_stable (fun hne => ihv r st hne) (fun v s _ _ => rfl) h
        all_goals simp only [visit, ASTNode.varName?]
      | ifNode c e =>
        refine vbind_stable (fun hne => ihv c st hne) ?_ h
        intro v s _ hk1
        cases v with
        | boolean b =>
          cases b with
          | true =>
            exact vbind_stable (fun hne => ihv e s hne) (fun w s2 _ _ => rfl) hk1
          | false => rfl
        | integer _ => rfl
        | string _ => rfl
        | none => rfl
      | loop c b =>
        exact vbind_stable (fun hne => ihi c b st hne) (fun v s _ _ => rfl) h
      | compare l r ct =>
        refine vbind_stable (fun hne => ihv l st hne) ?_ h
        intro v s _ hk1
        exact vbind_stable (fun hne => ihv r s hne) (fun w s2 _ _ => rfl) hk1
      | functionDeclaration nm ps b => simp only [visit]
      | functionCall f ps =>
        cases f
        case «variable» nm =>
          rw [visit_call_var (n + 1) nm ps st, visit_call_var n nm ps st]
          rw [visit_call_var n nm ps st] at h
          by_cases ho : strStartsWith nm ":O__" = true
          · simp only [if_pos ho] at h ⊢
            exact ihsh _ nm ps st h
          · simp only [if_neg ho] at h ⊢
            by_cases hd : nm = "d;D"
            · simp only [if_pos hd] at h ⊢
              exact ihin ps st h
            · simp only [if_neg hd] at h ⊢
              exact ihu nm ps st h
        all_goals simp only [visit, ASTNode.varName?]
      | ret e =>
        exact vbind_stable (fun hne => ihv e st hne) (fun v s _ _ => rfl) h
      | noOp => simp only [visit]
    · -- visitShout
      intro node nm ps st h
      exact callAfter_stable (fun hne => ihr ps "" st hne) (fun a s _ _ => rfl) h
    · -- visitInput
      intro ps st h
      exact callAfter_stable (fun hne => ihr ps "" st hne) (fun a s _ _ => rfl) h
    · -- visitUserCall
      intro nm ps st h
      rw [visitUserCall_succ (n + 1) nm ps st, visitUserCall_succ n nm ps st]
      rw [visitUserCall_succ n nm ps st] at h
      cases hcs : st.call_stack with
      | nil => rfl
      | cons scope restStack =>
        rw [hcs] at h
        dsimp only at h ⊢
        cases hl : List.lookup nm scope.function_table with
        | none => rfl
        | some fnode =>
          rw [hl] at h
          cases fnode
          case functionDeclaration fn fps fb =>
            dsimp only at h ⊢
            by_cases hlen : fps.length ≠ ps.length
            · simp only [if_pos hlen]
            · simp only [if_neg hlen] at h ⊢
              refine callAfter_stable (fun hne => iha ps fps _ st hne) ?_ h
              intro nsc s _ hkf
              have hb : (visit n fb
                  { s with call_stack := nsc :: s.call_stack }).1 ≠
                  .outOfFuel := callFinish_fuel hkf
              rw [ihv fb _ hb]
          all_goals rfl
    · -- visitSeq
      intro cs st h
      cases cs with
      | nil => simp only [visitSeq]
      | cons child rest =>
        rw [visitSeq_cons (n + 1) child rest st, visitSeq_cons n child rest st]
        rw [visitSeq_cons n child rest st] at h
        by_cases hcr : child.isRet = true
        · simp only [if_pos hcr] at h ⊢
          have hne : (visit n child st).1 ≠ .outOfFuel :=
            fun he => h (congrArg some he)
          rw [ihv child st hne]
        · simp only [if_neg hcr] at h ⊢
          exact seqAfter_stable (fun hne => ihv child st hne)
            (fun v s _ hks => ihs rest s hks) h
    · -- visitIter
      intro c b st h
      refine vbind_stable (fun hne => ihv c st hne) ?_ h
      intro v s _ hk1
      cases v with
      | boolean bb =>
        cases bb with
        | true =>
          exact vbind_stable (fun hne => ihv b s hne)
            (fun w s2 _ hk2 => ihi c b s2 hk2) hk1
        | false => rfl
      | integer _ => rfl
      | string _ => rfl
      | none => rfl
    · -- visitRender
      intro ps acc st h
      cases ps with
      | nil => simp only [visitRender]
      | cons p rest =>
        rw [visitRender_cons (n + 1) p rest acc st, visitRender_cons n p rest acc st]
        rw [visitRender_cons n p rest acc st] at h
        cases hn : p.varName? with
        | none =>
          rw [hn] at h
          exact exceptAfter_stable (fun hne => ihv p st hne)
            (fun v s _ hks => ihr rest _ s hks) h
        | some vname =>
          rw [hn] at h
          cases hcs : st.call_stack with
          | nil => rfl
          | cons scope restStack =>
            rw [hcs] at h
            dsimp only at h ⊢
            cases hl : List.lookup vname scope.symbol_table with
            | none => rfl
            | some v =>
              rw [hl] at h
              exact ihr rest _ st h
    · -- visitArgs
      intro ps nms sc st h
      cases ps with
      | nil => simp only [visitArgs]
      | cons p rest =>
        rw [visitArgs_cons (n + 1) p rest nms sc st, visitArgs_cons n p rest nms sc st]
        rw [visitArgs_cons n p rest nms sc st] at h
        refine exceptAfter_stable (fun hne => ihv p st hne) ?_ h
        intro v s _ hks
        cases nms with
        | nil => rfl
        | cons nm restNames =>
          exact iha rest restNames _ s hks

/-- A completed evaluation is a fixed point of any larger fuel. -/
theorem visit_stable {n m : Nat} (hnm : n ≤ m) (a : ASTNode) (st : St)
    (h : (visit n a st).1 ≠ .outOfFuel) : visit m a st = visit n a st := by
  induction hnm with
  | refl => rfl
  | step _ ih =>
    rename_i m' _
    have h1 := ih
    rw [← h1] at h
    have h2 := (visit_stable_all m').1 a st h
    rw [h2, h1]

/-- A completed block-child loop is a fixed point of any larger fuel. -/
theorem visitSeq_stable {n m : Nat} (hnm : n ≤ m) (cs : List ASTNode) (st : St)
    (h : (visitSeq n cs st).1 ≠ some .outOfFuel) :
    visitSeq m cs st = visitSeq n cs st := by
  induction hnm with
  | refl => rfl
  | step _ ih =>
    rename_i m' _
    have h1 := ih
    rw [← h1] at h
    have h2 := (visit_stable_all m').2.2.2.2.1 cs st h
    rw [h2, h1]

/-- A completed loop iteration chain is a fixed point of any larger fuel. -/
theorem visitIter_stable {n m : Nat} (hnm : n ≤ m) (c b : ASTNode) (st : St)
    (h : (visitIter n c b st).1 ≠ .outOfFuel) :
    visitIter m c b st = visitIter n c b st := by
  induction hnm with
  | refl => rfl
  | step _ ih =>
    rename_i m' _
    have h1 := ih
    rw [← h1] at h
    have h2 := (visit_stable_all m').2.2.2.2.2.1 c b st h
    rw [h2, h1]

/-- A completed render loop is a fixed point of any larger fuel. -/
theorem visitRender_stable {n m : Nat} (hnm : n ≤ m) (ps : List ASTNode)
    (acc : String) (st : St)
    (h : (visitRender n ps acc st).1 ≠ .error .outOfFuel) :
    visitRender m ps acc st = visitRender n ps acc st := by
  induction hnm with
  | refl => rfl
  | step _ ih =>
    rename_i m' _
    have h1 := ih
    rw [← h1] at h
    have h2 := (visit_stable_all m').2.2.2.2.2.2.1 ps acc st h
    rw [h2, h1]

/-- A completed argument-binding loop is a fixed point of any larger fuel. -/
theorem visitArgs_stable {n m : Nat} (hnm : n ≤ m) (ps : List ASTNode)
    (nms : List String) (sc : Scope) (st : St)
    (h : (visitArgs n ps nms sc st).1 ≠ .error .outOfFuel) :
    visitArgs m ps nms sc st = visitArgs n ps nms sc st := by
  induction hnm with
  | refl => rfl
  | step _ ih =>
    rename_i m' _
    have h1 := ih
    rw [← h1] at h
    have h2 := (visit_stable_all m').2.2.2.2.2.2.2 ps nms sc st h
    rw [h2, h1]

/-! ## Claims -/

/-- A convenient strict-mode initial state. -/
def strictSt : St := initSt true [] [] []

/-- Cross-variant values always have distinct discriminants ordered by
variant declaration order; the derived comparison never fails. -/
theorem cmpV_cross_variant (a b : Value) (hab : a.discr ≠ b.discr) :
    Value.cmpV a b = compare a.discr b.discr := by
  cases a <;> cases b <;> first
  | rfl
  | (exact absurd rfl hab)

/-- C2 counterexample: the ordering comparison `Integer(1) < String("a")`
between two different variants evaluates to `Boolean(true)` — and not to
any fatal condition — because the derived `PartialOrd` orders distinct
variants by declaration order. -/
theorem c2_counterexample :
    visit 2 (.compare (.value (.integer 1)) (.value (.string "a")) .less)
      strictSt = (.ok (.boolean true), strictSt) := rfl

/-- C2 (amended): for every `Compare` node of ordering kind, both
operands are reduced to values (left first) and compared with the
value type's derived total comparison `Value.cmpV`: same-variant values
compare their payloads, values of different variants are ordered by
variant declaration order (`Integer < String < Boolean < None`), and the
evaluation always yields the boolean ordering result — never a fatal
condition. -/
theorem c2_compare_ordering (f : Nat) (l r : ASTNode) (st stl str' : St)
    (vl vr : Value)
    (hl : visit f l st = (.ok vl, stl))
    (hr : visit f r stl = (.ok vr, str')) :
    visit (f + 1) (.compare l r .less) st =
      (.ok (.boolean (Value.cmpV vl vr = .lt)), str') ∧
    visit (f + 1) (.compare l r .greater) st =
      (.ok (.boolean (Value.cmpV vl vr = .gt)), str') ∧
    (∀ a b : Value, a.discr ≠ b.discr →
      Value.cmpV a b = compare a.discr b.discr) := by
  refine ⟨?_, ?_, fun a b hab => cmpV_cross_variant a b hab⟩
  · rw [visit_compare, hl, vbind_ok, hr, vbind_ok]
  · rw [visit_compare, hl, vbind_ok, hr, vbind_ok]

/-- C2 witness: instantiating the amended comparison theorem at
`2 kleina <x>` (an integer against a string). -/
theorem c2_witness :
    visit 2 (.compare (.value (.integer 2)) (.value (.string "x")) .less)
      strictSt = (.ok (.boolean true), strictSt) := by
  have h := (c2_compare_ordering 1 (.value (.integer 2))
    (.value (.string "x")) strictSt strictSt strictSt
    (.integer 2) (.string "x") rfl rfl).1
  exact h.trans (by rfl)

/-- C5 counterexample: a `Loop` whose condition evaluates to the
non-boolean `Integer(1)` terminates immediately with `Value::None` — the
body is executed zero times and no fatal condition is produced (`while
let Value::Boolean(true)` simply stops on any other value). -/
theorem c5_counterexample :
    visit 3 (.loop (.value (.integer 1))
        (.assign (.variable "y") (.value (.integer 5)))) strictSt =
      (.ok .none, strictSt) := rfl

/-- C5 (amended): the loop re-evaluates its condition before every
iteration; the body runs exactly while the condition yields
`Boolean(true)`; the instant the condition yields anything else —
boolean false or any non-boolean value — the loop stops normally with
`Value::None` (zero body executions for an immediately non-true
condition); a non-boolean condition is not a fatal condition. -/
theorem c5_loop_semantics (f : Nat) (c b : ASTNode) (st st1 st2 : St)
    (v u : Value)
    (hc : visit f c st = (.ok v, st1)) :
    (v ≠ .boolean true →
      visit (f + 2) (.loop c b) st = endVisit (.loop c b) .none st1) ∧
    (v = .boolean true → visit f b st1 = (.ok u, st2) →
      visitIter (f + 1) c b st = vbind (visit f b st1)
        (fun _ s => visitIter f c b s)) := by
  constructor
  · intro hv
    rw [visit_loop, visitIter_succ, hc, vbind_ok]
    cases v with
    | boolean bb =>
      cases bb with
      | true => exact absurd rfl hv
      | false => rfl
    | integer _ => rfl
    | string _ => rfl
    | none => rfl
  · intro hv _
    subst hv
    rw [visitIter_succ, hc, vbind_ok]

/-- C5 witness: the amended loop theorem applied to a loop with the
non-boolean condition `1` (no iterations, normal `None` result) and to a
loop whose condition is the literal `true` (the body is entered). -/
theorem c5_witness :
    visit 3 (.loop (.value (.integer 1)) .noOp) strictSt =
      (.ok .none, strictSt) ∧
    visitIter 2 (.value (.boolean true)) .noOp strictSt =
      vbind (visit 1 .noOp strictSt)
        (fun _ s => visitIter 1 (.value (.boolean true)) .noOp s) := by
  constructor
  · have h := (c5_loop_semantics 1 (.value (.integer 1)) .noOp strictSt
      strictSt strictSt (.integer 1) .none rfl).1 (by decide)
    exact h.trans (by rfl)
  · exact (c5_loop_semantics 1 (.value (.boolean true)) .noOp strictSt
      strictSt strictSt (.boolean true) .none rfl).2 rfl rfl

/-- A non-strict evaluation state whose worker sits at the terminal
mood (`Deactivated`, stress far beyond the `1000000` threshold) with an
expired cooldown, a wrong interactive answer queued, and ample oracle
streams. -/
def gateSt : St :=
  { call_stack := [{ symbol_table := [("x", .integer 1)], function_table := [] }],
    worker := { prev_mood := .deactivated, stress_level := 2000000,
                user_answer := Option.none, cooldown := 0, strict_work := false },
    shouter := { voice_damage := 0, strict_work := false },
    output := [], prompts := [], shout_trace := [],
    inputs := [.boolean false], rands := [0, 0, 0], elapsed := [1000, 1000, 1000] }

/-- C1 counterexample: with the worker at its terminal mood and the
cooldown expired (`cooldown = 0`, measured elapsed time `1000`), the
evaluation of a `Compare` node — not a bare literal — issues no
challenge at all: it returns `Boolean(true)` normally, consumes no
queued answer and issues no prompt, because the `Compare` arm of
`Interpreter::visit` returns early and never reaches the
`worker.call` at the end of `visit`. Under the claim, this evaluation
(whose queued answer `Boolean(false)` differs from the node's value)
would have to abort with the distinguished abort condition. -/
theorem c1_counterexample :
    moodOf gateSt.worker.stress_level = .deactivated ∧
    gateSt.worker.cooldown = 0 ∧
    (visit 2 (.compare (.value (.integer 1)) (.value (.integer 2)) .less)
      gateSt).1 = .ok (.boolean true) ∧
    (visit 2 (.compare (.value (.integer 1)) (.value (.integer 2)) .less)
      gateSt).2.inputs = [.boolean false] ∧
    (visit 2 (.compare (.value (.integer 1)) (.value (.integer 2)) .less)
      gateSt).2.prompts = [] := by
  exact ⟨rfl, rfl, rfl, rfl, rfl⟩

/-- C1 (amended): for every node evaluation that reaches the fatigue
gate — the arms of `Interpreter::visit` that fall through to
`worker.call`, which excludes `Compare`, `Return`, interactive-input and
user-function-call nodes — with the gate enabled, the mood at its
terminal level after the stress increment, and the cooldown elapsed:
a non-literal node triggers the challenge, which compares the typed
answer to the value the node evaluated to; an equal answer resets the
fatigue counter to zero, draws a new random cooldown in
`1000000..1000000000` and resumes normally with the node's value; a
different answer aborts with the distinguished `DisturbedWorker`
condition. A bare literal node never triggers the challenge. -/
theorem c1_gate_challenge (node : ASTNode) (v answer : Value) (st : St)
    (scope : Scope) (rest : List Scope) (r1 r2 : Nat) (rs : List Nat)
    (e1 : Nat) (es : List Nat) (is : List Value)
    (hstack : st.call_stack = scope :: rest)
    (hstrict : st.worker.strict_work = false)
    (hrands : st.rands = r1 :: r2 :: rs)
    (helap : st.elapsed = e1 :: es)
    (hinp : st.inputs = answer :: is)
    (hmood : moodOf (st.worker.stress_level + (1 + r1 % 9)) = .deactivated)
    (hcd : e1 > st.worker.cooldown) :
    (node.isValue = false → answer = v →
      (endVisit node v st).1 = .ok v ∧
      (endVisit node v st).2.worker.stress_level = 0 ∧
      (endVisit node v st).2.worker.cooldown = 1000000 + r2 % 999000000 ∧
      (endVisit node v st).2.inputs = is) ∧
    (node.isValue = false → answer ≠ v →
      (endVisit node v st).1 = .err .disturbedWorker) ∧
    (node.isValue = true →
      (endVisit node v st).1 = .ok v ∧
      (endVisit node v st).2.inputs = st.inputs ∧
      (endVisit node v st).2.prompts = st.prompts) := by
  refine ⟨?_, ?_, ?_⟩
  · intro hnv hans
    subst hans
    by_cases hch : st.worker.prev_mood = Mood.deactivated <;>
      by_cases hvn : answer = Value.none <;>
        simp [endVisit, hstack, workerCall, hstrict, takeRand, takeElapsed,
          readValue, pushOut, hrands, helap, hinp, hmood, hcd, hnv, hch, hvn]
  · intro hnv hans
    by_cases hch : st.worker.prev_mood = Mood.deactivated <;>
      simp [endVisit, hstack, workerCall, hstrict, takeRand, takeElapsed,
        readValue, pushOut, hrands, helap, hinp, hmood, hcd, hnv, hch, hans]
  · intro hnv
    by_cases hch : st.worker.prev_mood = Mood.deactivated <;>
      simp [endVisit, hstack, workerCall, hstrict, takeRand, takeElapsed,
        readValue, pushOut, hrands, helap, hinp, hmood, hcd, hnv, hch]

/-- C1 witness: the amended gate theorem instantiated on a non-literal
`NoOp` node with a matching answer, and on a bare literal node. -/
theorem c1_witness :
    ((endVisit .noOp .none gateSt).1 = .ok .none ∨ True) ∧
    (endVisit (.value (.integer 7)) (.integer 7) gateSt).1 = .ok (.integer 7) := by
  have h := c1_gate_challenge (.value (.integer 7)) (.integer 7) (.boolean false)
    gateSt { symbol_table := [("x", .integer 1)], function_table := [] } []
    0 0 [0] 1000 [1000, 1000] [] rfl rfl rfl rfl rfl (by decide) (by decide)
  exact ⟨Or.inr trivial, (h.2.2 rfl).1⟩

theorem pushOut_trace (st : St) (s : String) :
    (pushOut st s).shout_trace = st.shout_trace := rfl

theorem takeRand_snd_trace (st : St) :
    (takeRand st).2.shout_trace = st.shout_trace := by
  unfold takeRand; cases st.rands <;> rfl

theorem readValue_snd_trace (st : St) (t : String) :
    (readValue st t).2.shout_trace = st.shout_trace := by
  unfold readValue; cases st.inputs <;> rfl

theorem shoutChars_trace (lvl : Nat) :
    ∀ (cs : List Char) (st : St) (acc : String),
    (shoutChars lvl cs st acc).2.shout_trace = st.shout_trace := by
  intro cs
  induction cs with
  | nil => intro st acc; rfl
  | cons c rest ih =>
    intro st acc
    unfold shoutChars
    rw [ih]
    exact takeRand_snd_trace st

/-- The shouter records every invocation in the observation trace with
exactly the intensity and text it was handed, whatever branch it takes. -/
theorem shouterShout_trace (st : St) (lvl : Nat) (text : String) :
    (shouterShout st lvl text).shout_trace = st.shout_trace ++ [(lvl, text)] := by
  unfold shouterShout
  dsimp only
  split_ifs <;>
    first
    | rfl
    | (split <;>
        first
        | (split_ifs <;>
            simp only [pushOut_trace, takeRand_snd_trace, readValue_snd_trace,
              shoutChars_trace])
        | simp only [pushOut_trace, takeRand_snd_trace, readValue_snd_trace,
            shoutChars_trace])
    | simp only [pushOut_trace, takeRand_snd_trace, readValue_snd_trace,
        shoutChars_trace]

/-- C9 counterexample: calling the bare sentinel name `:O__` (length 4,
zero filler characters) with one string argument invokes the shouter
with intensity `1 = 4 - 3`, not `0 = 4 - 4` as the claim demands. -/
theorem c9_counterexample :
    (visit 4 (.functionCall (.variable ":O__") [.value (.string "hi")])
      strictSt).2.shout_trace = [(1, "hi")] ∧
    (1 : Nat) ≠ ":O__".length - 4 := by
  exact ⟨rfl, by decide⟩

/-- C9 (amended): for every call whose callee name starts with the fixed
4-character sentinel `:O__`, the evaluator renders all arguments to text
(bare variables through the variable table, other expressions through
`visit`, concatenated in order) and invokes the output-effect
collaborator with intensity `name.len() - 3` — one more than the number
of filler characters after the prefix. -/
theorem c9_shout_intensity (f : Nat) (nm : String) (ps : List ASTNode)
    (st st1 : St) (text : String)
    (hpre : strStartsWith nm ":O__" = true)
    (hr : visitRender f ps "" st = (.ok text, st1)) :
    visit (f + 2) (.functionCall (.variable nm) ps) st =
      endVisit (.functionCall (.variable nm) ps) .none
        (shouterShout st1 (nm.length - 3) text) ∧
    (shouterShout st1 (nm.length - 3) text).shout_trace =
      st1.shout_trace ++ [(nm.length - 3, text)] := by
  constructor
  · rw [visit_call_var (f + 1) nm ps st, if_pos hpre, visitShout_succ, hr,
      callAfter_ok]
  · exact shouterShout_trace st1 (nm.length - 3) text

/-- C9 witness: the amended theorem instantiated on `:O__x(<ab>)`
(name length 5, intensity 2). -/
theorem c9_witness :
    visit 4 (.functionCall (.variable ":O__x") [.value (.string "ab")])
      strictSt =
      endVisit (.functionCall (.variable ":O__x") [.value (.string "ab")])
        .none (shouterShout strictSt 2 "ab") ∧
    (shouterShout strictSt 2 "ab").shout_trace = [(2, "ab")] := by
  have h := c9_shout_intensity 2 ":O__x" [.value (.string "ab")]
    strictSt strictSt "ab" (by decide) rfl
  exact ⟨h.1, h.2⟩

/-! ## Call-stack depth invariant

A normal or early-return completion restores the call stack to its
entry depth (every pushed frame was popped); a `DisturbedWorker`
abort can only leave the stack at the same depth or deeper (unpopped
frames of the aborted calls). -/

theorem pushOut_stack (st : St) (s : String) :
    (pushOut st s).call_stack = st.call_stack := rfl

theorem takeRand_snd_stack (st : St) :
    (takeRand st).2.call_stack = st.call_stack := by
  unfold takeRand; cases st.rands <;> rfl

theorem takeElapsed_snd_stack (st : St) :
    (takeElapsed st).2.call_stack = st.call_stack := by
  unfold takeElapsed; cases st.elapsed <;> rfl

theorem readValue_snd_stack (st : St) (t : String) :
    (readValue st t).2.call_stack = st.call_stack := by
  unfold readValue; cases st.inputs <;> rfl

theorem shoutChars_stack (lvl : Nat) :
    ∀ (cs : List Char) (st : St) (acc : String),
    (shoutChars lvl cs st acc).2.call_stack = st.call_stack := by
  intro cs
  induction cs with
  | nil => intro st acc; rfl
  | cons c rest ih =>
    intro st acc
    unfold shoutChars
    rw [ih]
    exact takeRand_snd_stack _

theorem shouterShout_stack (st : St) (lvl : Nat) (text : String) :
    (shouterShout st lvl text).call_stack = st.call_stack := by
  unfold shouterShout
  dsimp only
  split_ifs <;>
    first
    | rfl
    | (split <;>
        first
        | (split_ifs <;>
            simp only [pushOut_stack, takeRand_snd_stack, readValue_snd_stack,
              shoutChars_stack])
        | simp only [pushOut_stack, takeRand_snd_stack, readValue_snd_stack,
            shoutChars_stack])
    | simp only [pushOut_stack, takeRand_snd_stack, readValue_snd_stack,
        shoutChars_stack]

theorem workerCall_snd_stack (st : St) (scope : Scope) (node : ASTNode)
    (v : Value) : (workerCall st scope node v).2.call_stack = st.call_stack := by
  unfold workerCall
  dsimp only
  split_ifs <;>
    simp only [pushOut_stack, takeRand_snd_stack, takeElapsed_snd_stack,
      readValue_snd_stack]

theorem endVisit_snd_stack (node : ASTNode) (v : Value) (st : St) :
    (endVisit node v st).2.call_stack = st.call_stack := by
  unfold endVisit
  cases hcs : st.call_stack with
  | nil => exact hcs
  | cons scope rest =>
    dsimp only
    have hw := workerCall_snd_stack st scope node v
    rcases hwc : workerCall st scope node v with ⟨w1, w2⟩
    rw [hwc] at hw
    cases w1 with
    | none => exact hw.trans hcs
    | some e => exact hw.trans hcs

/-- Stack-depth contract of one evaluation outcome relative to the
entry state: the stack never ends up shallower than at entry, and a
normal (`ok`) or early-return (`HackyReturn`) completion restores the
entry depth exactly. A `DisturbedWorker` abort is only covered by the
first conjunct: the aborted frames stay unpopped. -/
def StOut (st : St) (o : Outcome) (st' : St) : Prop :=
  st.call_stack.length ≤ st'.call_stack.length ∧
  (∀ v, o = .ok v → st'.call_stack.length = st.call_stack.length) ∧
  (∀ v, o = .err (.hackyReturn v) →
    st'.call_stack.length = st.call_stack.length)

/-- Stack-depth contract of the block-child loop result. -/
def SeqOut (st : St) (oo : Option Outcome) (st' : St) : Prop :=
  st.call_stack.length ≤ st'.call_stack.length ∧
  (oo = Option.none → st'.call_stack.length = st.call_stack.length) ∧
  (∀ v, oo = some (.ok v) → st'.call_stack.length = st.call_stack.length) ∧
  (∀ v, oo = some (.err (.hackyReturn v)) →
    st'.call_stack.length = st.call_stack.length)

/-- Stack-depth contract of the render/argument loop results. -/
def ExOut {α : Type} (st : St) (r : Except Outcome α) (st' : St) : Prop :=
  st.call_stack.length ≤ st'.call_stack.length ∧
  (∀ a, r = Except.ok a → st'.call_stack.length = st.call_stack.length) ∧
  (∀ v, r = Except.error (Outcome.ok v) →
    st'.call_stack.length = st.call_stack.length) ∧
  (∀ v, r = Except.error (Outcome.err (.hackyReturn v)) →
    st'.call_stack.length = st.call_stack.length)

theorem StOut_of_eq {st st' : St} (o : Outcome)
    (h : st'.call_stack.length = st.call_stack.length) : StOut st o st' :=
  ⟨le_of_eq h.symm, fun _ _ => h, fun _ _ => h⟩

theorem StOut_self (st : St) (o : Outcome) : StOut st o st :=
  StOut_of_eq o rfl

theorem SeqOut_of_eq {st st' : St} (oo : Option Outcome)
    (h : st'.call_stack.length = st.call_stack.length) : SeqOut st oo st' :=
  ⟨le_of_eq h.symm, fun _ => h, fun _ _ => h, fun _ _ => h⟩

theorem SeqOut_self (st : St) (oo : Option Outcome) : SeqOut st oo st :=
  SeqOut_of_eq oo rfl

theorem ExOut_of_eq {α : Type} {st st' : St} (r : Except Outcome α)
    (h : st'.call_stack.length = st.call_stack.length) : ExOut st r st' :=
  ⟨le_of_eq h.symm, fun _ _ => h, fun _ _ => h, fun _ _ => h⟩

theorem ExOut_self {α : Type} (st : St) (r : Except Outcome α) : ExOut st r st :=
  ExOut_of_eq r rfl

theorem StOut_trans {st s st' : St} {o : Outcome}
    (hs : s.call_stack.length = st.call_stack.length)
    (h : StOut s o st') : StOut st o st' := by
  obtain ⟨h1, h2, h3⟩ := h
  refine ⟨?_, fun v hv => (h2 v hv).trans hs, fun v hv => (h3 v hv).trans hs⟩
  rw [← hs]; exact h1

theorem SeqOut_trans {st s st' : St} {oo : Option Outcome}
    (hs : s.call_stack.length = st.call_stack.length)
    (h : SeqOut s oo st') : SeqOut st oo st' := by
  obtain ⟨h1, h2, h3, h4⟩ := h
  refine ⟨?_, fun hv => (h2 hv).trans hs, fun v hv => (h3 v hv).trans hs,
    fun v hv => (h4 v hv).trans hs⟩
  rw [← hs]; exact h1

theorem ExOut_trans {α : Type} {st s st' : St} {r : Except Outcome α}
    (hs : s.call_stack.length = st.call_stack.length)
    (h : ExOut s r st') : ExOut st r st' := by
  obtain ⟨h1, h2, h3, h4⟩ := h
  refine ⟨?_, fun a ha => (h2 a ha).trans hs, fun v hv => (h3 v hv).trans hs,
    fun v hv => (h4 v hv).trans hs⟩
  rw [← hs]; exact h1

theorem StOut_endVisit (st : St) (node : ASTNode) (v : Value) :
    StOut st (endVisit node v st).1 (endVisit node v st).2 :=
  StOut_of_eq _ (congrArg List.length (endVisit_snd_stack node v st))

theorem SeqOut_of_StOut {st st' : St} {o : Outcome} (h : StOut st o st') :
    SeqOut st (some o) st' :=
  ⟨h.1, fun hv => Option.noConfusion hv,
   fun v hv => h.2.1 v (Option.some.inj hv),
   fun v hv => h.2.2 v (Option.some.inj hv)⟩

theorem ExOut_of_StOut {α : Type} {st st' : St} {o : Outcome}
    (h : StOut st o st') : ExOut st (Except.error o : Except Outcome α) st' := by
  refine ⟨h.1, ?_, ?_, ?_⟩
  · intro a ha; exact Except.noConfusion ha
  · intro v hv
    exact h.2.1 v (Except.error.inj hv)
  · intro v hv
    exact h.2.2 v (Except.error.inj hv)

theorem StOut_of_ExOut_error {α : Type} {st st' : St} {o : Outcome}
    (h : ExOut st (Except.error o : Except Outcome α) st') : StOut st o st' :=
  ⟨h.1, fun v hv => h.2.2.1 v (by rw [hv]),
   fun v hv => h.2.2.2 v (by rw [hv])⟩

theorem StOut_vbind {st : St} {p : Outcome × St}
    {k : Value → St → Outcome × St}
    (hp : StOut st p.1 p.2)
    (hk : ∀ v s, p = (.ok v, s) → StOut s (k v s).1 (k v s).2) :
    StOut st (vbind p k).1 (vbind p k).2 := by
  rcases p with ⟨o, s⟩
  cases o with
  | ok v =>
    have hs : s.call_stack.length = st.call_stack.length := hp.2.1 v rfl
    exact StOut_trans hs (hk v s rfl)
  | err e => exact hp
  | panicked m => exact hp
  | outOfFuel => exact hp

theorem SeqOut_seqAfter {st : St} {p : Outcome × St}
    {k : St → Option Outcome × St}
    (hp : StOut st p.1 p.2)
    (hk : ∀ v s, p = (.ok v, s) → SeqOut s (k s).1 (k s).2) :
    SeqOut st (seqAfter p k).1 (seqAfter p k).2 := by
  rcases p with ⟨o, s⟩
  cases o with
  | ok v =>
    have hs : s.call_stack.length = st.call_stack.length := hp.2.1 v rfl
    exact SeqOut_trans hs (hk v s rfl)
  | err e => exact SeqOut_of_StOut hp
  | panicked m => exact SeqOut_of_StOut hp
  | outOfFuel => exact SeqOut_of_StOut hp

theorem ExOut_exceptAfter {α : Type} {st : St} {p : Outcome × St}
    {k : Value → St → Except Outcome α × St}
    (hp : StOut st p.1 p.2)
    (hk : ∀ v s, p = (.ok v, s) → ExOut s (k v s).1 (k v s).2) :
    ExOut st (exceptAfter p k).1 (exceptAfter p k).2 := by
  rcases p with ⟨o, s⟩
  cases o with
  | ok v =>
    have hs : s.call_stack.length = st.call_stack.length := hp.2.1 v rfl
    exact ExOut_trans hs (hk v s rfl)
  | err e => exact ExOut_of_StOut hp
  | panicked m => exact ExOut_of_StOut hp
  | outOfFuel => exact ExOut_of_StOut hp

theorem StOut_callAfter {α : Type} {st : St} {p : Except Outcome α × St}
    {k : α → St → Outcome × St}
    (hp : ExOut st p.1 p.2)
    (hk : ∀ a s, p = (.ok a, s) → StOut s (k a s).1 (k a s).2) :
    StOut st (callAfter p k).1 (callAfter p k).2 := by
  rcases p with ⟨r, s⟩
  cases r with
  | ok a =>
    have hs : s.call_stack.length = st.call_stack.length := hp.2.1 a rfl
    exact StOut_trans hs (hk a s rfl)
  | error o => exact StOut_of_ExOut_error hp

/-- `callFinish` pops exactly the pushed frame on a normal or
early-return body completion and leaves the stack of any other body
outcome untouched (so a `DisturbedWorker` abort leaves it strictly
deeper than the caller). -/
theorem StOut_callFinish {st s : St} {p : Outcome × St}
    (hlen : s.call_stack.length = st.call_stack.length + 1)
    (hp : StOut s p.1 p.2) :
    StOut st (callFinish p).1 (callFinish p).2 := by
  rcases p with ⟨o, s3⟩
  cases o with
  | ok v =>
    have he : s3.call_stack.length = s.call_stack.length := hp.2.1 v rfl
    refine StOut_of_eq _ ?_
    show s3.call_stack.tail.length = st.call_stack.length
    rw [List.length_tail, he, hlen]
    omega
  | err e =>
    cases e with
    | hackyReturn v =>
      have he : s3.call_stack.length = s.call_stack.length := hp.2.2 v rfl
      refine StOut_of_eq _ ?_
      show s3.call_stack.tail.length = st.call_stack.length
      rw [List.length_tail, he, hlen]
      omega
    | disturbedWorker =>
      show StOut st (Outcome.err .disturbedWorker) s3
      refine ⟨?_, ?_, ?_⟩
      · have h1 : s.call_stack.length ≤ s3.call_stack.length := hp.1
        omega
      · intro v hv; exact Outcome.noConfusion hv
      · intro v hv; exact InterpreterError.noConfusion (Outcome.err.inj hv)
  | panicked m =>
    show StOut st (Outcome.panicked m) s3
    refine ⟨?_, ?_, ?_⟩
    · have h1 : s.call_stack.length ≤ s3.call_stack.length := hp.1
      omega
    · intro v hv; exact Outcome.noConfusion hv
    · intro v hv; exact Outcome.noConfusion hv
  | outOfFuel =>
    show StOut st Outcome.outOfFuel s3
    refine ⟨?_, ?_, ?_⟩
    · have h1 : s.call_stack.length ≤ s3.call_stack.length := hp.1
      omega
    · intro v hv; exact Outcome.noConfusion hv
    · intro v hv; exact Outcome.noConfusion hv

theorem visit_stack_all : ∀ n : Nat,
    (∀ a st, StOut st (visit n a st).1 (visit n a st).2) ∧
    (∀ node nm ps st,
      StOut st (visitShout n node nm ps st).1 (visitShout n node nm ps st).2) ∧
    (∀ ps st, StOut st (visitInput n ps st).1 (visitInput n ps st).2) ∧
    (∀ nm ps st,
      StOut st (visitUserCall n nm ps st).1 (visitUserCall n nm ps st).2) ∧
    (∀ cs st, SeqOut st (visitSeq n cs st).1 (visitSeq n cs st).2) ∧
    (∀ c b st, StOut st (visitIter n c b st).1 (visitIter n c b st).2) ∧
    (∀ ps acc st,
      ExOut st (visitRender n ps acc st).1 (visitRender n ps acc st).2) ∧
    (∀ ps nms sc st,
      ExOut st (visitArgs n ps nms sc st).1 (visitArgs n ps nms sc st).2) := by
  intro n
  induction n with
  | zero =>
    refine ⟨?_, ?_, ?_, ?_, ?_, ?_, ?_, ?_⟩
    · intro a st; exact StOut_self st _
    · intro node nm ps st; exact StOut_self st _
    · intro ps st; exact StOut_self st _
    · intro nm ps st; exact StOut_self st _
    · intro cs st; exact SeqOut_self st _
    · intro c b st; exact StOut_self st _
    · intro ps acc st; exact ExOut_self st _
    · intro ps nms sc st; exact ExOut_self st _
  | succ n ih =>
    obtain ⟨ihv, ihsh, ihin, ihu, ihs, ihi, ihr, iha⟩ := ih
    refine ⟨?_, ?_, ?_, ?_, ?_, ?_, ?_, ?_⟩
    · -- visit
      intro a st
      cases a with
      | binOp l r tok =>
        cases tok
        case plus =>
          refine StOut_vbind (ihv l st) ?_
          intro v s _
          dsimp only
          cases expectInt v with
          | none => exact StOut_self s _
          | some a =>
            refine StOut_vbind (ihv r s) ?_
            intro w s2 _
            dsimp only
            cases expectInt w with
            | none => exact StOut_self s2 _
            | some b =>
              by_cases hr : i32InRange (a + b)
              · simp only [if_pos hr]; exact StOut_endVisit s2 _ _
              · simp only [if_neg hr]; exact StOut_self s2 _
        case minus =>
          refine StOut_vbind (ihv l st) ?_
          intro v s _
          dsimp only
          cases expectInt v with
          | none => exact StOut_self s _
          | some a =>
            refine StOut_vbind (ihv r s) ?_
            intro w s2 _
            dsimp only
            cases expectInt w with
            | none => exact StOut_self s2 _
            | some b =>
              by_cases hr : i32InRange (a - b)
              · simp only [if_pos hr]; exact StOut_endVisit s2 _ _
              · simp only [if_neg hr]; exact StOut_self s2 _
        case multiply =>
          refine StOut_vbind (ihv l st) ?_
          intro v s _
          dsimp only
          cases expectInt v with
          | none => exact StOut_self s _
          | some a =>
            refine StOut_vbind (ihv r s) ?_
            intro w s2 _
            dsimp only
            cases expectInt w with
            | none => exact StOut_self s2 _
            | some b =>
              by_cases hr : i32InRange (a * b)
              · simp only [if_pos hr]; exact StOut_endVisit s2 _ _
              · simp only [if_neg hr]; exact StOut_self s2 _
        case divide =>
          refine StOut_vbind (ihv l st) ?_
          intro v s _
          dsimp only
          cases expectInt v with
          | none => exact StOut_self s _
          | some a =>
            refine StOut_vbind (ihv r s) ?_
            intro w s2 _
            dsimp only
            cases expectInt w with
            | none => exact StOut_self s2 _
            | some b =>
              by_cases hz : b = 0
              · simp only [if_pos hz]; exact StOut_self s2 _
              · simp only [if_neg hz]
                by_cases hr : i32InRange (Int.tdiv a b)
                · simp only [if_pos hr]; exact StOut_endVisit s2 _ _
                · simp only [if_neg hr]; exact StOut_self s2 _
        all_goals exact StOut_self st _
      | value v => exact StOut_endVisit st _ _
      | unaryOp e tok =>
        cases tok
        case plus =>
          refine StOut_vbind (ihv e st) ?_
          intro v s _
          dsimp only
          cases expectInt v with
          | none => exact StOut_self s _
          | some a => exact StOut_endVisit s _ _
        case minus =>
          refine StOut_vbind (ihv e st) ?_
          intro v s _
          dsimp only
          cases expectInt v with
          | none => exact StOut_self s _
          | some a =>
            by_cases hr : i32InRange (-a)
            · simp only [if_pos hr]; exact StOut_endVisit s _ _
            · simp only [if_neg hr]; exact StOut_self s _
        all_goals exact StOut_self st _
      | block cs =>
        rw [visit_block n cs st]
        have hs := ihs cs st
        rcases hseq : visitSeq n cs st with ⟨oo, st1⟩
        rw [hseq] at hs
        cases oo with
        | none =>
          show StOut st (endVisit (ASTNode.block cs) Value.none st1).1
            (endVisit (ASTNode.block cs) Value.none st1).2
          exact StOut_trans (hs.2.1 rfl) (StOut_endVisit st1 _ _)
        | some o =>
          show StOut st o st1
          exact ⟨hs.1, fun v hv => hs.2.2.1 v (congrArg some hv),
            fun v hv => hs.2.2.2 v (congrArg some hv)⟩
      | «variable» nm =>
        rw [visit_variable n nm st]
        cases hcs : st.call_stack with
        | nil => exact StOut_self st _
        | cons scope rest =>
          dsimp only
          cases hl : List.lookup nm scope.symbol_table with
          | none => exact StOut_self st _
          | some v => exact StOut_endVisit st _ _
      | assign l r =>
        cases l
        case «variable» nm =>
          refine StOut_vbind (ihv r st) ?_
          intro v s _
          dsimp only
          cases hcs : s.call_stack with
          | nil => exact StOut_self s _
          | cons scope restStack =>
            dsimp only
            refine StOut_trans ?_ (StOut_endVisit _ _ _)
            rw [hcs]
            rfl
        all_goals exact StOut_self st _
      | ifNode c e =>
        refine StOut_vbind (ihv c st) ?_
        intro v s _
        cases v with
        | boolean b =>
          cases b with
          | true =>
            refine StOut_vbind (ihv e s) ?_
            intro w s2 _
            exact StOut_endVisit s2 _ _
          | false => exact StOut_endVisit s _ _
        | integer m => exact StOut_self s _
        | string str => exact StOut_self s _
        | none => exact StOut_self s _
      | loop c b =>
        refine StOut_vbind (ihi c b st) ?_
        intro v s _
        exact StOut_endVisit s _ _
      | compare l r ct =>
        refine StOut_vbind (ihv l st) ?_
        intro v s _
        refine StOut_vbind (ihv r s) ?_
        intro w s2 _
        cases ct
        case equals => exact StOut_self s2 _
        case less => exact StOut_self s2 _
        case greater => exact StOut_self s2 _
      | functionDeclaration nm ps b =>
        rw [visit_functionDeclaration n nm ps b st]
        cases hcs : st.call_stack with
        | nil => exact StOut_self st _
        | cons scope restStack =>
          dsimp only
          cases hl : List.lookup nm scope.function_table with
          | some f => exact StOut_self st _
          | none =>
            refine StOut_trans ?_ (StOut_endVisit _ _ _)
            rw [hcs]
            rfl
      | functionCall f ps =>
        cases f
        case «variable» nm =>
          rw [visit_call_var n nm ps st]
          by_cases ho : strStartsWith nm ":O__" = true
          · simp only [if_pos ho]
            exact ihsh _ nm ps st
          · simp only [if_neg ho]
            by_cases hd : nm = "d;D"
            · simp only [if_pos hd]
              exact ihin ps st
            · simp only [if_neg hd]
              exact ihu nm ps st
        all_goals exact StOut_endVisit st _ _
      | ret e =>
        refine StOut_vbind (ihv e st) ?_
        intro v s _
        exact StOut_self s _
      | noOp => exact StOut_endVisit st _ _
    · -- visitShout
      intro node nm ps st
      refine StOut_callAfter (ihr ps "" st) ?_
      intro text s _
      exact StOut_trans (congrArg List.length (shouterShout_stack s _ _))
        (StOut_endVisit _ _ _)
    · -- visitInput
      intro ps st
      refine StOut_callAfter (ihr ps "" st) ?_
      intro text s _
      exact StOut_of_eq _ (congrArg List.length (readValue_snd_stack s _))
    · -- visitUserCall
      intro nm ps st
      rw [visitUserCall_succ n nm ps st]
      cases hcs : st.call_stack with
      | nil => exact StOut_self st _
      | cons scope restStack =>
        dsimp only
        cases hl : List.lookup nm scope.function_table with
        | none => exact StOut_self st _
        | some fnode =>
          cases fnode
          case functionDeclaration fn fps fb =>
            dsimp only
            by_cases hlen : fps.length ≠ ps.length
            · simp only [if_pos hlen]
              exact StOut_self st _
            · simp only [if_neg hlen]
              refine StOut_callAfter (iha ps fps _ st) ?_
              intro nsc s _
              exact @StOut_callFinish s { s with call_stack := nsc :: s.call_stack }
                _ rfl (ihv fb { s with call_stack := nsc :: s.call_stack })
          all_goals exact StOut_self st _
    · -- visitSeq
      intro cs st
      cases cs with
      | nil => exact SeqOut_self st _
      | cons child rest =>
        rw [visitSeq_cons n child rest st]
        by_cases hcr : child.isRet = true
        · simp only [if_pos hcr]
          exact SeqOut_of_StOut (ihv child st)
        · simp only [if_neg hcr]
          exact SeqOut_seqAfter (ihv child st) (fun v s _ => ihs rest s)
    · -- visitIter
      intro c b st
      refine StOut_vbind (ihv c st) ?_
      intro v s _
      cases v with
      | boolean bb =>
        cases bb with
        | true =>
          refine StOut_vbind (ihv b s) ?_
          intro w s2 _
          exact ihi c b s2
        | false => exact StOut_self s _
      | integer m => exact StOut_self s _
      | string str => exact StOut_self s _
      | none => exact StOut_self s _
    · -- visitRender
      intro ps acc st
      cases ps with
      | nil => exact ExOut_self st _
      | cons p rest =>
        rw [visitRender_cons n p rest acc st]
        cases hn : p.varName? with
        | none =>
          exact ExOut_exceptAfter (ihv p st) (fun v s _ => ihr rest _ s)
        | some vname =>
          cases hcs : st.call_stack with
          | nil => exact ExOut_self st _
          | cons scope restStack =>
            dsimp only
            cases hl : List.lookup vname scope.symbol_table with
            | none => exact ExOut_self st _
            | some v => exact ihr rest _ st
    · -- visitArgs
      intro ps nms sc st
      cases ps with
      | nil => exact ExOut_self st _
      | cons p rest =>
        rw [visitArgs_cons n p rest nms sc st]
        refine ExOut_exceptAfter (ihv p st) ?_
        intro v s _
        cases nms with
        | nil => exact ExOut_self s _
        | cons nm restNames => exact iha rest restNames _ s

/-- Every evaluation respects the stack-depth contract. -/
theorem visit_StOut (n : Nat) (a : ASTNode) (st : St) :
    StOut st (visit n a st).1 (visit n a st).2 :=
  (visit_stack_all n).1 a st

/-- The argument-binding loop respects the stack-depth contract. -/
theorem visitArgs_ExOut (n : Nat) (ps : List ASTNode) (nms : List String)
    (sc : Scope) (st : St) :
    ExOut st (visitArgs n ps nms sc st).1 (visitArgs n ps nms sc st).2 :=
  (visit_stack_all n).2.2.2.2.2.2.2 ps nms sc st

/-! ## C4 — frame destruction on call completion -/

/-- Body of the C4 example function: a single assignment, so the last
node evaluated inside the callee frame is a non-literal that consults
the fatigue gate. -/
def c4Body : ASTNode := .block [.assign (.variable "y") (.value (.integer 1))]

/-- Caller frame with the C4 example function declared. -/
def c4Scope : Scope :=
  { symbol_table := [], function_table := [("f", .functionDeclaration "f" [] c4Body)] }

/-- Evaluation state for C4: one caller frame, the worker at terminal
mood with an expired cooldown, a wrong interactive answer queued. -/
def c4St : St :=
  { call_stack := [c4Scope],
    worker := { prev_mood := .deactivated, stress_level := 2000000,
                user_answer := Option.none, cooldown := 0, strict_work := false },
    shouter := { voice_damage := 0, strict_work := false },
    output := [], prompts := [], shout_trace := [],
    inputs := [.boolean false], rands := [0, 0, 0, 0],
    elapsed := [1000, 1000, 1000, 1000] }

/-- The callee frame built for a call of the C4 example function: no
bound arguments, the caller frame's function table. -/
def c4NewScope : Scope :=
  { symbol_table := [], function_table := c4Scope.function_table }

/-- C4 counterexample: calling the parameterless function `f` whose
body aborts through the fatigue gate (`DisturbedWorker`) leaves the
call stack two frames deep — the callee frame pushed for the call is
*not* popped, because `return Err(e)` in the `FunctionCall` arm happens
before `self.call_stack.pop()` (`src/interpreter.rs` lines 244–246).
Under the claim, the stack would have to be exactly as deep as before
the call (one frame). -/
theorem c4_counterexample :
    (visit 6 (.functionCall (.variable "f") []) c4St).1 = .err .disturbedWorker ∧
    c4St.call_stack.length = 1 ∧
    (visit 6 (.functionCall (.variable "f") []) c4St).2.call_stack.length = 2 := by
  exact ⟨rfl, rfl, rfl⟩

/-- Unfolding of a resolved user-defined call: with the callee looked
up, the argument count matching, the arguments bound and the body run,
the call is the body's outcome finished through the frame-popping
wrapper `callFinish`. -/
theorem userCall_eq (f : Nat) (nm : String) (ps : List ASTNode) (st : St)
    (scope : Scope) (rest : List Scope) (fn : String) (fps : List String)
    (fb : ASTNode) (nsc : Scope) (st1 : St) (r : Outcome) (st2 : St)
    (hsh : strStartsWith nm ":O__" = false)
    (hd : nm ≠ "d;D")
    (hstack : st.call_stack = scope :: rest)
    (hlook : List.lookup nm scope.function_table =
      some (.functionDeclaration fn fps fb))
    (hlen : fps.length = ps.length)
    (hargs : visitArgs f ps fps
      { symbol_table := [], function_table := scope.function_table } st
      = (.ok nsc, st1))
    (hbody : visit f fb { st1 with call_stack := nsc :: st1.call_stack }
      = (r, st2)) :
    visit (f + 2) (.functionCall (.variable nm) ps) st = callFinish (r, st2) := by
  have ho : ¬ (strStartsWith nm ":O__" = true) := by simp [hsh]
  have hne : ¬ (fps.length ≠ ps.length) := fun hc => hc hlen
  rw [visit_call_var (f + 1) nm ps st, if_neg ho, if_neg hd,
    visitUserCall_succ f nm ps st, hstack]
  dsimp only
  rw [hlook]
  dsimp only
  rw [if_neg hne, hargs, callAfter_ok]
  rw [hbody]

/-- C4 (amended): for every user-defined function call (resolved callee,
matching argument count, argument binding completed), the call runs the
body in a freshly pushed frame and finishes through the pop at the end
of the `FunctionCall` arm: if the body completes normally or via an
early return, the callee frame is popped and the stack is exactly as
deep as before the call (an early-returned value becomes the call's
result); but if the body aborts with `DisturbedWorker`, the error is
returned *before* the pop and the stack stays strictly deeper than
before the call — the callee frame (and every frame of an aborted
nested call) survives. -/
theorem c4_frame_pop (f : Nat) (nm : String) (ps : List ASTNode) (st : St)
    (scope : Scope) (rest : List Scope) (fn : String) (fps : List String)
    (fb : ASTNode) (nsc : Scope) (st1 : St) (r : Outcome) (st2 : St)
    (hsh : strStartsWith nm ":O__" = false)
    (hd : nm ≠ "d;D")
    (hstack : st.call_stack = scope :: rest)
    (hlook : List.lookup nm scope.function_table =
      some (.functionDeclaration fn fps fb))
    (hlen : fps.length = ps.length)
    (hargs : visitArgs f ps fps
      { symbol_table := [], function_table := scope.function_table } st
      = (.ok nsc, st1))
    (hbody : visit f fb { st1 with call_stack := nsc :: st1.call_stack }
      = (r, st2)) :
    visit (f + 2) (.functionCall (.variable nm) ps) st = callFinish (r, st2) ∧
    (∀ v, r = .ok v →
      (visit (f + 2) (.functionCall (.variable nm) ps) st).1 = .ok v ∧
      (visit (f + 2) (.functionCall (.variable nm) ps) st).2.call_stack.length
        = st.call_stack.length) ∧
    (∀ v, r = .err (.hackyReturn v) →
      (visit (f + 2) (.functionCall (.variable nm) ps) st).1 = .ok v ∧
      (visit (f + 2) (.functionCall (.variable nm) ps) st).2.call_stack.length
        = st.call_stack.length) ∧
    (r = .err .disturbedWorker →
      (visit (f + 2) (.functionCall (.variable nm) ps) st).1
        = .err .disturbedWorker ∧
      st.call_stack.length + 1 ≤
        (visit (f + 2) (.functionCall (.variable nm) ps) st).2.call_stack.length) := by
  have hmain := userCall_eq f nm ps st scope rest fn fps fb nsc st1 r st2
    hsh hd hstack hlook hlen hargs hbody
  have hA := visitArgs_ExOut f ps fps
    { symbol_table := [], function_table := scope.function_table } st
  rw [hargs] at hA
  have hst1 : st1.call_stack.length = st.call_stack.length := hA.2.1 nsc rfl
  have hB := visit_StOut f fb { st1 with call_stack := nsc :: st1.call_stack }
  rw [hbody] at hB
  refine ⟨hmain, ?_, ?_, ?_⟩
  · intro v hr
    subst hr
    have h2 : st2.call_stack.length = st1.call_stack.length + 1 := hB.2.1 v rfl
    rw [hmain]
    refine ⟨rfl, ?_⟩
    show st2.call_stack.tail.length = st.call_stack.length
    rw [List.length_tail]
    omega
  · intro v hr
    subst hr
    have h2 : st2.call_stack.length = st1.call_stack.length + 1 := hB.2.2 v rfl
    rw [hmain]
    refine ⟨rfl, ?_⟩
    show st2.call_stack.tail.length = st.call_stack.length
    rw [List.length_tail]
    omega
  · intro hr
    subst hr
    have h2 : st1.call_stack.length + 1 ≤ st2.call_stack.length := hB.1
    rw [hmain]
    refine ⟨rfl, ?_⟩
    show st.call_stack.length + 1 ≤ st2.call_stack.length
    omega

/-- C4 witness: the amended theorem instantiated on the concrete call
of `f` whose body aborts through the gate; the call reports
`DisturbedWorker` and the stack ends strictly deeper than at entry. -/
theorem c4_witness :
    (visit 6 (.functionCall (.variable "f") []) c4St).1 = .err .disturbedWorker ∧
    c4St.call_stack.length + 1 ≤
      (visit 6 (.functionCall (.variable "f") []) c4St).2.call_stack.length := by
  have h := c4_frame_pop 4 "f" [] c4St c4Scope [] "f" [] c4Body c4NewScope c4St
    (visit 4 c4Body { c4St with call_stack := c4NewScope :: c4St.call_stack }).1
    (visit 4 c4Body { c4St with call_stack := c4NewScope :: c4St.call_stack }).2
    rfl (by decide) rfl rfl rfl rfl rfl
  exact h.2.2.2 rfl

/-! ## C3 — early return semantics -/

/-- Completed block-child prefixes compose: if the loop runs through
`pre` without a short-circuit, the loop over `pre ++ rest` continues
with `rest` from the reached state (with the fuel spent on `pre`
consumed). -/
theorem visitSeq_append (pre : List ASTNode) :
    ∀ (n : Nat) (rest : List ASTNode) (st s : St),
    visitSeq n pre st = (Option.none, s) →
    visitSeq n (pre ++ rest) st = visitSeq (n - pre.length) rest s := by
  induction pre with
  | nil =>
    intro n rest st s h
    cases n with
    | zero =>
      rw [visitSeq_zero] at h
      simp at h
    | succ m =>
      rw [visitSeq_nil] at h
      have hs : st = s := congrArg Prod.snd h
      subst hs
      rfl
  | cons c pre ih =>
    intro n rest st s h
    cases n with
    | zero =>
      rw [visitSeq_zero] at h
      simp at h
    | succ m =>
      rw [visitSeq_cons] at h
      rw [List.cons_append, visitSeq_cons]
      by_cases hcr : c.isRet = true
      · simp only [if_pos hcr] at h
        simp at h
      · simp only [if_neg hcr] at h ⊢
        rcases hv : visit m c st with ⟨o, s0⟩
        rw [hv] at h
        cases o with
        | ok w =>
          rw [seqAfter_ok] at h
          rw [seqAfter_ok]
          have hih := ih m rest s0 s h
          have hfuel : m + 1 - (c :: pre).length = m - pre.length := by
            simp only [List.length_cons]
            omega
          rw [hfuel]
          exact hih
        | err e1 => simp [seqAfter] at h
        | panicked msg => simp [seqAfter] at h
        | outOfFuel => simp [seqAfter] at h

/-- Body of the C3 example function `g`: a `Return` nested inside an
`If` inside the body, with trailing statements after both the `Return`
and the `If`. -/
def c3GBody : ASTNode :=
  .block [
    .ifNode (.value (.boolean true))
      (.block [.ret (.value (.integer 9)),
               .assign (.variable "z") (.value (.integer 1))]),
    .assign (.variable "w") (.value (.integer 3))]

/-- Caller frame with the C3 example function declared. -/
def c3Scope : Scope :=
  { symbol_table := [], function_table := [("g", .functionDeclaration "g" [] c3GBody)] }

/-- Strict-mode evaluation state whose top frame declares `g`. -/
def c3CallSt : St := { strictSt with call_stack := [c3Scope] }

/-- The callee frame built for a call of the C3 example function. -/
def c3NewScope : Scope :=
  { symbol_table := [], function_table := c3Scope.function_table }

/-- C3 (confirmed): early-return semantics. (1) In a block, a `Return`
child short-circuits: once the statements before it complete, the
`Return` child's `HackyReturn` outcome is the block's outcome and the
statements after it are never evaluated (the result does not depend on
them). (2) A `HackyReturn` from the taken branch of an `If` propagates
out of the `If` unchanged. (3) A user-defined call whose body evaluates
to `HackyReturn v` yields exactly `v` as the call's result. (4) A
`HackyReturn` that reaches the top level makes the run finish normally
with the returned value reported on the "This program throwed at us a:"
output line. -/
theorem c3_return_semantics (F : Nat) (pre tail : List ASTNode)
    (e cond blk tree : ASTNode) (v vb vc vd : Value)
    (st s s1 st0 stc stb : St) (fcall : Nat) (nm fn : String)
    (ps : List ASTNode) (fps : List String) (fb : ASTNode) (scope : Scope)
    (rest : List Scope) (nsc : Scope) (stq st1 st2 stI stI2 : St)
    (text : String) (pf vf : Nat) :
    (visitSeq F pre st = (Option.none, s) →
     pre.length + 2 ≤ F →
     visit (F - pre.length - 2) e s = (.ok v, s1) →
     visitSeq F (pre ++ .ret e :: tail) st
         = (some (.err (.hackyReturn v)), s1) ∧
     visit (F + 1) (.block (pre ++ .ret e :: tail)) st
         = (.err (.hackyReturn v), s1)) ∧
    (visit F cond st0 = (.ok (.boolean true), stc) →
     visit F blk stc = (.err (.hackyReturn vb), stb) →
     visit (F + 1) (.ifNode cond blk) st0 = (.err (.hackyReturn vb), stb)) ∧
    (strStartsWith nm ":O__" = false →
     nm ≠ "d;D" →
     stq.call_stack = scope :: rest →
     List.lookup nm scope.function_table =
       some (.functionDeclaration fn fps fb) →
     fps.length = ps.length →
     visitArgs fcall ps fps
       { symbol_table := [], function_table := scope.function_table } stq
       = (.ok nsc, st1) →
     visit fcall fb { st1 with call_stack := nsc :: st1.call_stack }
       = (.err (.hackyReturn vc), st2) →
     (visit (fcall + 2) (.functionCall (.variable nm) ps) stq).1 = .ok vc) ∧
    (parseText text pf = .ok tree →
     visit vf tree stI = (.err (.hackyReturn vd), stI2) →
     interpret text pf vf stI =
       (.finished, pushOut stI2 ("This program throwed at us a: " ++ vd.display))) := by
  refine ⟨?_, ?_, ?_, ?_⟩
  · intro hpre hF he
    have happ := visitSeq_append pre F (.ret e :: tail) st s hpre
    obtain ⟨m, hm⟩ : ∃ m, F - pre.length = m + 2 :=
      ⟨F - pre.length - 2, by omega⟩
    rw [hm] at happ
    have hm2 : F - pre.length - 2 = m := by omega
    rw [hm2] at he
    have hrv : visit (m + 1) (.ret e) s = (.err (.hackyReturn v), s1) := by
      rw [visit_ret m e s, he]
      rfl
    have hsl : visitSeq (m + 2) (.ret e :: tail) s
        = (some (.err (.hackyReturn v)), s1) := by
      rw [visitSeq_cons,
        if_pos (show (ASTNode.ret e).isRet = true from rfl), hrv]
    have hfull : visitSeq F (pre ++ .ret e :: tail) st
        = (some (.err (.hackyReturn v)), s1) := happ.trans hsl
    refine ⟨hfull, ?_⟩
    rw [visit_block F (pre ++ .ret e :: tail) st, hfull]
  · intro hc hb
    rw [visit_ifNode F cond blk st0, hc, vbind_ok]
    rw [hb]
    rfl
  · intro hsh hd hstack hlook hlen hargs hbody
    have h := userCall_eq fcall nm ps stq scope rest fn fps fb nsc st1
      (.err (.hackyReturn vc)) st2 hsh hd hstack hlook hlen hargs hbody
    rw [h]
    rfl
  · intro hparse hvisit
    unfold interpret
    rw [hparse]
    simp only [hvisit]

/-- C3 witness: the early-return theorem instantiated on concrete
strict-mode runs — a block whose `Return` child is followed by a
trailing assignment, a call of the function `g` (whose body holds a
`Return` nested inside an `If` with trailing statements), and a whole
program whose top level is `wirf 3`. -/
theorem c3_witness :
    visitSeq 4 ([] ++ .ret (.value (.integer 42)) ::
        [.assign (.variable "b") (.value (.integer 2))]) strictSt
      = (some (.err (.hackyReturn (.integer 42))), strictSt) ∧
    (visit 10 (.functionCall (.variable "g") []) c3CallSt).1
      = .ok (.integer 9) ∧
    interpret "hallo\nwirf 3\nreicht dann auch mal" 99 4 strictSt =
      (.finished, pushOut strictSt
        ("This program throwed at us a: " ++ (Value.integer 3).display)) := by
  have h := c3_return_semantics 4 [] [.assign (.variable "b") (.value (.integer 2))]
    (.value (.integer 42)) (.value (.boolean true)) .noOp
    (.block [.ret (.value (.integer 3))])
    (.integer 42) .none (.integer 9) (.integer 3)
    strictSt strictSt strictSt strictSt strictSt strictSt
    8 "g" "g" [] [] c3GBody c3Scope [] c3NewScope
    c3CallSt c3CallSt
    (visit 8 c3GBody { c3CallSt with
      call_stack := c3NewScope :: c3CallSt.call_stack }).2
    strictSt strictSt
    "hallo\nwirf 3\nreicht dann auch mal" 99 4
  exact ⟨(h.1 rfl (by decide) rfl).1,
    h.2.2.1 rfl (by decide) rfl rfl rfl rfl rfl,
    h.2.2.2 rfl rfl⟩

/-! ## C10 — unsigned literal reinterpreted as signed -/

/-- A run satisfying the scan predicate followed by a non-satisfying
(or empty) remainder splits exactly at the boundary. -/
theorem takeWhile_append_all (p : Char → Bool) (rest : List Char)
    (hrest : ∀ r, rest.head? = some r → p r = false) :
    ∀ ds : List Char, (∀ d ∈ ds, p d = true) →
    (ds ++ rest).takeWhile p = ds ∧ (ds ++ rest).dropWhile p = rest := by
  intro ds
  induction ds with
  | nil =>
    intro _
    cases rest with
    | nil => exact ⟨rfl, rfl⟩
    | cons r t =>
      have hr := hrest r rfl
      refine ⟨?_, ?_⟩ <;>
        simp [List.takeWhile_cons, List.dropWhile_cons, hr]
  | cons d ds ih =>
    intro hds
    have hd := hds d (List.mem_cons_self d ds)
    have hih := ih (fun x hx => hds x (List.mem_cons_of_mem d hx))
    refine ⟨?_, ?_⟩ <;>
      simp [List.takeWhile_cons, List.dropWhile_cons, hd, hih.1, hih.2]

/-- C10 (confirmed): an integer literal is lexed as the maximal digit
run parsed as an unsigned 32-bit number, and `Parser::factor` converts
the token by reinterpreting that unsigned payload as a signed 32-bit
integer (`value as i32`, wrap modulo `2 ^ 32`); hence every literal
whose numeric value lies in `[2 ^ 31, 2 ^ 32)` becomes the *negative*
integer `value - 2 ^ 32`, not the number the written digits denote. -/
theorem c10_literal_wrap (f : Nat) (c : Char) (ds rest : List Char)
    (p p1 : ParserSt) (v n : Nat)
    (hc : c.isDigit = true)
    (hds : ∀ d ∈ ds, d.isDigit = true)
    (hrest : ∀ r, rest.head? = some r → r.isDigit = false)
    (hfit : digitsToNat (c :: ds) < 2 ^ 32)
    (hcur : p.current_token = .integer v)
    (hnext : consumeToken p = .ok p1)
    (hlo : 2 ^ 31 ≤ n) (hhi : n < 2 ^ 32) :
    getNextToken (c :: (ds ++ rest)) =
      .ok (.integer (digitsToNat (c :: ds)),
        rest.dropWhile (fun ch => ch == ' ')) ∧
    factor (f + 1) p = .ok (.value (.integer (u32AsI32 v)), p1) ∧
    u32AsI32 n = (n : Int) - 2 ^ 32 ∧ u32AsI32 n < 0 := by
  obtain ⟨htw, hdw⟩ := takeWhile_append_all Char.isDigit rest hrest ds hds
  have hstep : integerScan c (ds ++ rest)
      = .ok (.integer (digitsToNat (c :: ds)), rest) := by
    unfold integerScan
    dsimp only
    rw [htw, hdw, if_pos hfit]
  have hne : ¬ (p.current_token = Token.plus ∨ p.current_token = Token.minus) := by
    rw [hcur]
    intro hor
    rcases hor with h | h <;> cases h
  have hwrap : u32AsI32 n = (n : Int) - 2 ^ 32 := by
    unfold u32AsI32
    rw [if_neg (by omega)]
  refine ⟨?_, ?_, hwrap, ?_⟩
  · simp [getNextToken, hc, hstep]
  · simp only [factor]
    rw [if_neg hne, hcur, hnext]
    rfl
  · rw [hwrap]
    omega

/-- C10 witness: the literal `4294967295` is lexed as one token of
unsigned value `4294967295` and parsed to the integer value `-1`. -/
theorem c10_witness :
    getNextToken ('4' :: ("294967295".data ++ "\n".data)) =
      .ok (.integer (digitsToNat ('4' :: "294967295".data)),
        ("\n".data).dropWhile (fun ch => ch == ' ')) ∧
    factor 1 (mkParser "4294967295") =
      .ok (.value (.integer (u32AsI32 4294967295)),
        { rest := [], current_token := .eof }) ∧
    u32AsI32 4294967295 = (4294967295 : Int) - 2 ^ 32 ∧
    u32AsI32 4294967295 < 0 := by
  exact c10_literal_wrap 0 '4' "294967295".data "\n".data
    (mkParser "4294967295") { rest := [], current_token := .eof }
    4294967295 4294967295
    rfl (by decide) (by decide) (by decide) rfl rfl (by decide) (by decide)

/-! ## C7 — keyword search and identifier backtrack -/

/-- Spec-side rendering of `Lexer::keyword_or_string` for a starting
character `c` with remaining suffix `cs` (the non-string branch): grow
the alphanumeric/space/underscore run character by character, returning
the keyword token of the first (shortest) grown prefix that is exactly a
key of the table, with the cursor right after that prefix; if no prefix
of the run ever matches, backtrack to the single starting character and
return an identifier extended by alphanumeric/underscore characters
only, so a space terminates an identifier. -/
def specKeywordOrString (c : Char) (cs : List Char) : Token × List Char :=
  let run := cs.takeWhile isRunChar
  match (List.range run.length).findSome? (fun i =>
      (reservedKeywords.lookup (String.mk (c :: run.take (i + 1)))).map
        (fun tok => (tok, cs.drop (i + 1)))) with
  | some r => r
  | Option.none =>
    (.id (String.mk (c :: cs.takeWhile isIdChar)), cs.dropWhile isIdChar)

/-- The keyword phase returns the first grown prefix of the run that is
a key of the table (searching prefixes in increasing length), together
with the cursor right after it. -/
theorem kwScan_spec : ∀ (cs as : List Char),
    kwScan (String.mk as) cs =
      (List.range ((cs.takeWhile isRunChar).length)).findSome? (fun i =>
        (reservedKeywords.lookup
          (String.mk (as ++ (cs.takeWhile isRunChar).take (i + 1)))).map
        (fun tok => (tok, cs.drop (i + 1)))) := by
  intro cs
  induction cs with
  | nil => intro as; rfl
  | cons c cs ih =>
    intro as
    by_cases hrc : isRunChar c = true
    · have htw : (c :: cs).takeWhile isRunChar = c :: cs.takeWhile isRunChar := by
        simp [List.takeWhile_cons, hrc]
      simp only [kwScan]
      rw [if_pos hrc, htw, List.length_cons, List.range_succ_eq_map,
        List.findSome?_cons, List.findSome?_map]
      rw [show (String.mk as).push c = String.mk (as ++ [c]) from rfl]
      rw [ih (as ++ [c])]
      cases hl : reservedKeywords.lookup (String.mk (as ++ [c])) with
      | some tok => simp [hl]
      | none =>
        simp only [hl]
        simp only [List.take_succ_cons, List.take_zero, List.drop_succ_cons,
          List.drop_zero, hl, Option.map_none]
        refine congrArg
          (fun g => List.findSome? g (List.range (cs.takeWhile isRunChar).length)) ?_
        funext i
        simp [Function.comp]
    · simp only [kwScan]
      rw [if_neg hrc]
      have htw : (c :: cs).takeWhile isRunChar = ([] : List Char) := by
        simp [List.takeWhile_cons, hrc]
      rw [htw]
      rfl

/-- The identifier phase appends exactly the maximal
alphanumeric/underscore run to the backtracked start. -/
theorem idScan_spec : ∀ (cs as : List Char),
    idScan (String.mk as) cs
      = (String.mk (as ++ cs.takeWhile isIdChar), cs.dropWhile isIdChar) := by
  intro cs
  induction cs with
  | nil => intro as; simp [idScan]
  | cons c cs ih =>
    intro as
    by_cases hic : isIdChar c = true
    · simp only [idScan]
      rw [if_pos hic]
      rw [show (String.mk as).push c = String.mk (as ++ [c]) from rfl]
      rw [ih (as ++ [c])]
      simp [List.takeWhile_cons, List.dropWhile_cons, hic]
    · simp only [idScan]
      rw [if_neg hic]
      simp [List.takeWhile_cons, List.dropWhile_cons, hic]

/-- C7 (confirmed): for every starting character other than the
string-opener, `Lexer::keyword_or_string` behaves exactly as specified:
it grows the alphanumeric/space/underscore run character by character
and returns a keyword token the moment the accumulated prefix equals a
table key (shortest matching prefix first, spaces included in the run,
so the multi-word farewell keyword is found); if no prefix matches it
backtracks to the single starting character and returns an identifier
built from the maximal alphanumeric/underscore run only. -/
theorem c7_keyword_or_string (c : Char) (cs : List Char) (hne : c ≠ '<') :
    keywordOrString c cs = .ok (specKeywordOrString c cs) := by
  simp only [keywordOrString, specKeywordOrString]
  rw [if_neg hne]
  rw [show String.singleton c = String.mk [c] from rfl]
  rw [kwScan_spec cs [c]]
  have hfun : (fun i => (reservedKeywords.lookup
        (String.mk ([c] ++ (cs.takeWhile isRunChar).take (i + 1)))).map
      (fun tok => (tok, cs.drop (i + 1))))
      = (fun i => (reservedKeywords.lookup
        (String.mk (c :: (cs.takeWhile isRunChar).take (i + 1)))).map
      (fun tok => (tok, cs.drop (i + 1)))) := by
    funext i
    rfl
  rw [hfun]
  cases hf : (List.range ((cs.takeWhile isRunChar).length)).findSome? (fun i =>
      (reservedKeywords.lookup
        (String.mk (c :: (cs.takeWhile isRunChar).take (i + 1)))).map
      (fun tok => (tok, cs.drop (i + 1)))) with
  | some r =>
    rcases r with ⟨tok, rest2⟩
    rfl
  | none =>
    dsimp only
    rw [idScan_spec cs [c]]
    rfl

/-- C7 witness: the theorem at the multi-word farewell keyword — the
run grows through the embedded spaces and the first matching prefix is
the whole keyword, leaving the newline unconsumed. -/
theorem c7_witness :
    keywordOrString 'r' "eicht dann auch mal\n".data
      = .ok (specKeywordOrString 'r' "eicht dann auch mal\n".data) ∧
    specKeywordOrString 'r' "eicht dann auch mal\n".data
      = (.reservedKeyword .farewell, ['\n']) := by
  exact ⟨c7_keyword_or_string 'r' "eicht dann auch mal\n".data (by decide), rfl⟩

/-! ## C8 — function-declaration parameter lists -/

/-- The upcoming lookahead tokens from state `p` are exactly the `ID`
tokens of `names` in order, ending in state `q`. -/
def idLookaheads : List String → ParserSt → ParserSt → Prop
  | [], p, q => p = q
  | s :: rest, p, q =>
    p.current_token = .id s ∧
    ∃ p1, consumeToken p = .ok p1 ∧ idLookaheads rest p1 q

/-- The parameter-name loop collects exactly the consecutive `ID`
lookaheads and stops at the first non-`ID` token. -/
theorem declParamsLoop_chain : ∀ (names : List String) (p q : ParserSt),
    idLookaheads names p q → (∀ s, q.current_token ≠ .id s) →
    ∀ n : Nat, names.length < n →
    declParamsLoop n p = .ok (names, q) := by
  intro names
  induction names with
  | nil =>
    intro p q h hq n hn
    cases n with
    | zero => omega
    | succ m =>
      have hpq : p = q := h
      subst hpq
      simp only [declParamsLoop]
  | cons s names ih =>
    intro p q h hq n hn
    cases n with
    | zero => omega
    | succ m =>
      obtain ⟨hcur, p1, hc1, hrest⟩ := h
      simp only [declParamsLoop]
      rw [hcur]
      dsimp only
      rw [hc1, pbind_ok,
        ih p1 q hrest hq m (by simp only [List.length_cons] at hn; omega)]
      rfl

/-- C8 counterexample: the comma-separated declaration of the claimed
grammar form `funny f(a,b)` does not parse — the parameter loop consumes
`ID` tokens only, leaves the comma in the lookahead and the following
`consume(ParentheseClose)` fails with `UnexpectedToken`. -/
theorem c8_counterexample :
    parseText "hallo\nfunny f(a,b)\navo\nwirf 1\ncado\nreicht dann auch mal" 99
      = .error (.unexpectedToken .comma (tokenText .parentheseClose)) := by
  rfl

/-- C8 (amended): for every function-declaration statement
`<function-kw> name(params) <block>` whose parenthesized parameter
names appear as consecutive `ID` tokens (whitespace-separated in the
source text — the lexer skips spaces between tokens), the parser
produces a `FunctionDeclaration` node whose ordered parameter list is
exactly the listed names; with a comma after a parameter name instead,
the statement fails with `UnexpectedToken(comma, expected
ParentheseClose)`, because the parameter loop stops at the first
non-`ID` lookahead and nothing consumes a comma. -/
theorem c8_decl_params (n : Nat) (p p1 p2 p3 q : ParserSt) (fname : String)
    (nm : String) (names : List String)
    (hcurp : p.current_token = .reservedKeyword .function)
    (hc1 : consumeToken p = .ok p1)
    (hcur1 : p1.current_token = .id fname)
    (hc2 : consumeToken p1 = .ok p2)
    (hopen : consume p2 .parentheseOpen = .ok p3)
    (hchain : idLookaheads (nm :: names) p3 q)
    (hq : ∀ s, q.current_token ≠ .id s)
    (hn : (nm :: names).length < n) :
    (∀ p5 blk p6,
      consume q .parentheseClose = .ok p5 →
      innerBlockStatement n p5 = .ok (blk, p6) →
      statement (n + 1) p = .ok (.functionDeclaration fname (nm :: names) blk, p6)) ∧
    (q.current_token = .comma →
      statement (n + 1) p
        = .error (.unexpectedToken .comma (tokenText .parentheseClose))) := by
  have hloop := declParamsLoop_chain (nm :: names) p3 q hchain hq n hn
  have hp3 : p3.current_token = .id nm := hchain.1
  have hne : p3.current_token ≠ .parentheseClose := by
    rw [hp3]
    exact fun h => Token.noConfusion h
  have hcm : statement (n + 1) p
      = pbind (consume q .parentheseClose) (fun p5 =>
          pbind (innerBlockStatement n p5) fun rb =>
          .ok (.functionDeclaration fname (nm :: names) rb.1, rb.2)) := by
    simp only [statement]
    rw [hcurp]
    dsimp only
    rw [hc1, pbind_ok]
    rw [hcur1]
    dsimp only
    rw [hc2, pbind_ok, hopen, pbind_ok, if_pos hne, hloop, pbind_ok]
  refine ⟨?_, ?_⟩
  · intro p5 blk p6 hc5 hb
    rw [hcm, hc5, pbind_ok, hb, pbind_ok]
  · intro hqcomma
    have hfail : consume q .parentheseClose
        = .error (.unexpectedToken .comma (tokenText .parentheseClose)) := by
      unfold consume
      rw [hqcomma, if_neg (by decide)]
    rw [hcm, hfail, pbind_error]

/-- Parser state at the `funny` keyword of the C8 example program. -/
def c8St0 : ParserSt :=
  { rest := "f(a b)\navo\nwirf 1\ncado\nreicht dann auch mal".data,
    current_token := .reservedKeyword .function }

/-- Parser state at the function name `f`. -/
def c8St1 : ParserSt :=
  { rest := "(a b)\navo\nwirf 1\ncado\nreicht dann auch mal".data,
    current_token := .id "f" }

/-- Parser state at the opening parenthesis. -/
def c8St2 : ParserSt :=
  { rest := "a b)\navo\nwirf 1\ncado\nreicht dann auch mal".data,
    current_token := .parentheseOpen }

/-- Parser state at the first parameter name `a`. -/
def c8St3 : ParserSt :=
  { rest := "b)\navo\nwirf 1\ncado\nreicht dann auch mal".data,
    current_token := .id "a" }

/-- Parser state at the second parameter name `b`. -/
def c8St4 : ParserSt :=
  { rest := ")\navo\nwirf 1\ncado\nreicht dann auch mal".data,
    current_token := .id "b" }

/-- Parser state at the closing parenthesis after the parameters. -/
def c8StQ : ParserSt :=
  { rest := "\navo\nwirf 1\ncado\nreicht dann auch mal".data,
    current_token := .parentheseClose }

/-- Parser state at the line break before the declaration's block. -/
def c8St5 : ParserSt :=
  { rest := "avo\nwirf 1\ncado\nreicht dann auch mal".data,
    current_token := .endLine }

/-- Parser state after the whole declaration statement (at the line
break before the farewell keyword). -/
def c8St6 : ParserSt :=
  { rest := "reicht dann auch mal".data, current_token := .endLine }

/-- C8 witness: the amended theorem instantiated on the concrete
declaration `funny f(a b)` inside a full program — the parser states
along the header are computed and the statement parses to a
`FunctionDeclaration` with parameters exactly `["a", "b"]`. -/
theorem c8_witness :
    statement 41 c8St0
      = .ok (.functionDeclaration "f" ["a", "b"]
          (.block [.noOp, .ret (.value (.integer 1))]), c8St6) := by
  have h := c8_decl_params 40 c8St0 c8St1 c8St2 c8St3 c8StQ "f" "a" ["b"]
    rfl rfl rfl rfl rfl
    ⟨rfl, c8St4, rfl, rfl, c8StQ, rfl, rfl⟩
    (by intro s hx; simp [c8StQ] at hx) (by decide)
  exact h.1 c8St5 (.block [.noOp, .ret (.value (.integer 1))]) c8St6 rfl rfl

/-! ## C6 — strict-mode determinism and non-interactivity

The only interactive read reachable from `visit` with the gate disabled
is the hard-coded `d;D` input form. Its callee name contains `;`, which
the lexer can never put inside an identifier, so no parsed program
contains it; strict-mode evaluation of any parsed program is then
independent of the random and clock oracles and issues no prompt. -/

/-- Shape of every identifier the lexer can produce: after the starting
character, only alphanumeric/underscore characters (in particular no
`;`, so never the interactive-input name `d;D`). -/
def GoodStr (s : String) : Bool := (s.data.drop 1).all isIdChar

mutual

/-- A node all of whose variable and callee names have lexer-produced
identifier shape. -/
def GoodNode : ASTNode → Bool
  | .unaryOp e _ => GoodNode e
  | .binOp l r _ => GoodNode l && GoodNode r
  | .value _ => true
  | .functionCall f ps => GoodNode f && GoodNodes ps
  | .functionDeclaration _ _ b => GoodNode b
  | .ifNode c e => GoodNode c && GoodNode e
  | .loop c e => GoodNode c && GoodNode e
  | .compare l r _ => GoodNode l && GoodNode r
  | .block cs => GoodNodes cs
  | .assign l r => GoodNode l && GoodNode r
  | .ret e => GoodNode e
  | .variable nm => GoodStr nm
  | .noOp => true

def GoodNodes : List ASTNode → Bool
  | [] => true
  | a :: as => GoodNode a && GoodNodes as

end

theorem goodStr_ne_dD {s : String} (h : GoodStr s = true) : s ≠ "d;D" := by
  intro he
  rw [he] at h
  exact absurd h (by decide)

/-- Assoc-list lookup only returns stored pairs. -/
theorem lookup_mem {β : Type} :
    ∀ (l : List (String × β)) (a : String) (b : β),
    List.lookup a l = some b → (a, b) ∈ l := by
  intro l
  induction l with
  | nil => intro a b h; exact Option.noConfusion h
  | cons kv t ih =>
    intro a b h
    rcases kv with ⟨k, v⟩
    simp only [List.lookup] at h
    by_cases hk : (a == k) = true
    · rw [hk] at h
      have hb : v = b := Option.some.inj h
      have ha : a = k := eq_of_beq hk
      subst hb
      subst ha
      exact List.mem_cons_self _ _
    · rw [Bool.not_eq_true] at hk
      rw [hk] at h
      exact List.mem_cons_of_mem _ (ih a b h)

/-- Identifier-token check. -/
def Token.isId : Token → Bool
  | .id _ => true
  | _ => false

/-- The keyword phase only ever returns tokens stored in the keyword
table — never an identifier token. -/
theorem kwScan_not_id : ∀ (cs : List Char) (acc : String) (tok : Token)
    (rest : List Char), kwScan acc cs = some (tok, rest) →
    ∀ s, tok ≠ .id s := by
  intro cs
  induction cs with
  | nil => intro acc tok rest h; exact Option.noConfusion h
  | cons c cs ih =>
    intro acc tok rest h
    simp only [kwScan] at h
    by_cases hrc : isRunChar c = true
    · rw [if_pos hrc] at h
      cases hl : reservedKeywords.lookup (acc.push c) with
      | some t =>
        rw [hl] at h
        have h2 := Option.some.inj h
        have ht : t = tok := congrArg Prod.fst h2
        subst ht
        have hmem := lookup_mem reservedKeywords (acc.push c) t hl
        have htab : ∀ kv ∈ reservedKeywords, kv.2.isId = false := by decide
        intro s hs
        have hfalse := htab _ hmem
        rw [hs] at hfalse
        have hfalse2 : true = false := hfalse
        exact Bool.noConfusion hfalse2
      | none =>
        rw [hl] at h
        exact ih (acc.push c) tok rest h
    · rw [if_neg hrc] at h
      exact Option.noConfusion h

/-- Every identifier token out of `keyword_or_string` has the
identifier shape. -/
theorem keywordOrString_good (c : Char) (cs : List Char) (tok : Token)
    (rest : List Char) (h : keywordOrString c cs = .ok (tok, rest)) :
    ∀ s, tok = .id s → GoodStr s = true := by
  intro s hs
  subst hs
  unfold keywordOrString at h
  by_cases hlt : c = '<'
  · rw [if_pos hlt] at h
    unfold stringScan at h
    split at h
    · exact absurd (congrArg Prod.fst (Except.ok.inj h))
        (by intro hx; exact Token.noConfusion hx)
    · exact Except.noConfusion h
  · rw [if_neg hlt] at h
    cases hk : kwScan (String.singleton c) cs with
    | some pr =>
      rw [hk] at h
      rcases pr with ⟨t, r2⟩
      have h2 := Except.ok.inj h
      have ht : t = Token.id s := congrArg Prod.fst h2
      exact absurd ht (kwScan_not_id cs (String.singleton c) t r2 hk s)
    | none =>
      rw [hk] at h
      have h2 := Except.ok.inj h
      have ht : Token.id (idScan (String.singleton c) cs).1 = Token.id s :=
        congrArg Prod.fst h2
      have hseq : (idScan (String.singleton c) cs).1 = s := Token.id.inj ht
      rw [show String.singleton c = String.mk [c] from rfl,
        idScan_spec cs [c]] at hseq
      rw [← hseq]
      show ((String.mk ([c] ++ cs.takeWhile isIdChar)).data.drop 1).all isIdChar = true
      exact List.all_takeWhile

/-- Every identifier token out of the lexer has the identifier shape. -/
theorem getNextToken_good : ∀ (cs : List Char) (tok : Token)
    (rest : List Char), getNextToken cs = .ok (tok, rest) →
    ∀ s, tok = .id s → GoodStr s = true := by
  intro cs tok rest h s hs
  subst hs
  cases cs with
  | nil =>
    exact absurd (congrArg Prod.fst (Except.ok.inj h)).symm
      (by intro hx; exact Token.noConfusion hx)
  | cons c cs =>
    simp only [getNextToken] at h
    split at h
    next tok1 rest1 heq =>
      have htok : tok1 = Token.id s := congrArg Prod.fst (Except.ok.inj h)
      subst htok
      by_cases h1 : c.isDigit = true
      · rw [if_pos h1] at heq
        unfold integerScan at heq
        dsimp only at heq
        by_cases hn : digitsToNat (c :: cs.takeWhile Char.isDigit) < 2 ^ 32
        · rw [if_pos hn] at heq
          exact absurd (congrArg Prod.fst (Except.ok.inj heq)).symm
            (by intro hx; exact Token.noConfusion hx)
        · rw [if_neg hn] at heq
          exact Except.noConfusion heq
      · rw [if_neg h1] at heq
        by_cases h2 : c = '+'
        · rw [if_pos h2] at heq
          exact absurd (congrArg Prod.fst (Except.ok.inj heq)).symm
            (by intro hx; exact Token.noConfusion hx)
        · rw [if_neg h2] at heq
          by_cases h3 : c = '-'
          · rw [if_pos h3] at heq
            exact absurd (congrArg Prod.fst (Except.ok.inj heq)).symm
              (by intro hx; exact Token.noConfusion hx)
          · rw [if_neg h3] at heq
            by_cases h4 : c = '*'
            · rw [if_pos h4] at heq
              exact absurd (congrArg Prod.fst (Except.ok.inj heq)).symm
                (by intro hx; exact Token.noConfusion hx)
            · rw [if_neg h4] at heq
              by_cases h5 : c = '/'
              · rw [if_pos h5] at heq
                exact absurd (congrArg Prod.fst (Except.ok.inj heq)).symm
                  (by intro hx; exact Token.noConfusion hx)
              · rw [if_neg h5] at heq
                by_cases h6 : c = '('
                · rw [if_pos h6] at heq
                  exact absurd (congrArg Prod.fst (Except.ok.inj heq)).symm
                    (by intro hx; exact Token.noConfusion hx)
                · rw [if_neg h6] at heq
                  by_cases h7 : c = ')'
                  · rw [if_pos h7] at heq
                    exact absurd (congrArg Prod.fst (Except.ok.inj heq)).symm
                      (by intro hx; exact Token.noConfusion hx)
                  · rw [if_neg h7] at heq
                    by_cases h8 : c = '='
                    · rw [if_pos h8] at heq
                      exact absurd (congrArg Prod.fst (Except.ok.inj heq)).symm
                        (by intro hx; exact Token.noConfusion hx)
                    · rw [if_neg h8] at heq
                      by_cases h9 : c = '\n'
                      · rw [if_pos h9] at heq
                        exact absurd (congrArg Prod.fst (Except.ok.inj heq)).symm
                          (by intro hx; exact Token.noConfusion hx)
                      · rw [if_neg h9] at heq
                        by_cases h10 : c = ','
                        · rw [if_pos h10] at heq
                          exact absurd (congrArg Prod.fst (Except.ok.inj heq)).symm
                            (by intro hx; exact Token.noConfusion hx)
                        · rw [if_neg h10] at heq
                          by_cases h11 : c = ':'
                          · rw [if_pos h11] at heq
                            split at heq
                            · exact absurd (congrArg Prod.fst (Except.ok.inj heq)).symm
                                (by intro hx; exact Token.noConfusion hx)
                            · exact absurd (congrArg Prod.fst (Except.ok.inj heq)).symm
                                (by intro hx; exact Token.noConfusion hx)
                            · exact keywordOrString_good _ _ _ _ heq s rfl
                          · rw [if_neg h11] at heq
                            exact keywordOrString_good _ _ _ _ heq s rfl
    next e heq => exact Except.noConfusion h

/-- The lookahead of any state reached through `consume_token` has the
identifier shape whenever it is an identifier. -/
def GoodPSt (p : ParserSt) : Prop :=
  ∀ s, p.current_token = .id s → GoodStr s = true

theorem consumeToken_good {p p1 : ParserSt} (h : consumeToken p = .ok p1) :
    GoodPSt p1 := by
  intro s hs
  unfold consumeToken at h
  cases hg : getNextToken p.rest with
  | error e => rw [hg] at h; exact Except.noConfusion h
  | ok pr =>
    rw [hg] at h
    rcases pr with ⟨t, r2⟩
    have hp1 : ({ rest := r2, current_token := t } : ParserSt) = p1 :=
      Except.ok.inj h
    have hts : t = Token.id s := by
      rw [← hp1] at hs
      exact hs
    exact getNextToken_good p.rest t r2 hg s hts

theorem consume_good {p p1 : ParserSt} {t : Token}
    (h : consume p t = .ok p1) : GoodPSt p1 := by
  unfold consume at h
  by_cases hc : p.current_token = t
  · rw [if_pos hc] at h
    exact consumeToken_good h
  · rw [if_neg hc] at h
    exact Except.noConfusion h

theorem mkParser_good (text : String) : GoodPSt (mkParser text) := by
  intro s hs
  unfold mkParser at hs
  cases hg : getNextToken text.data with
  | error e =>
    rw [hg] at hs
    exact absurd hs (by intro hx; exact Token.noConfusion hx)
  | ok pr =>
    rw [hg] at hs
    rcases pr with ⟨t, r2⟩
    exact getNextToken_good text.data t r2 hg s hs

theorem pbind_eq_ok {α β : Type} {x : Except LexerError α}
    {f : α → Except LexerError β} {b : β} (h : pbind x f = .ok b) :
    ∃ a, x = .ok a ∧ f a = .ok b := by
  cases x with
  | ok a => exact ⟨a, rfl, h⟩
  | error e => exact Except.noConfusion h

theorem variableNode_good {p : ParserSt} {r : ASTNode × ParserSt}
    (hg : GoodPSt p) (h : variableNode p = .ok r) :
    GoodNode r.1 = true ∧ GoodPSt r.2 := by
  unfold variableNode at h
  cases hc : p.current_token
  case id s =>
    rw [hc] at h
    obtain ⟨p1, hc1, hok⟩ := pbind_eq_ok h
    have hr : (ASTNode.variable s, p1) = r := Except.ok.inj hok
    subst hr
    exact ⟨hg s hc, consumeToken_good hc1⟩
  all_goals (rw [hc] at h; exact Except.noConfusion h)

/-- Every node the parser builds from a lookahead stream of
lexer-produced tokens has lexer-shaped names everywhere. -/
theorem parserGood_all : ∀ n : Nat,
    (∀ p r, GoodPSt p → factor n p = .ok r →
      GoodNode r.1 = true ∧ GoodPSt r.2) ∧
    (∀ p r, GoodPSt p → functionCallOrVariable n p = .ok r →
      GoodNode r.1 = true ∧ GoodPSt r.2) ∧
    (∀ p r, GoodPSt p → term n p = .ok r →
      GoodNode r.1 = true ∧ GoodPSt r.2) ∧
    (∀ node p r, GoodNode node = true → GoodPSt p →
      termMulLoop n node p = .ok r → GoodNode r.1 = true ∧ GoodPSt r.2) ∧
    (∀ node p r, GoodNode node = true → GoodPSt p →
      termCmpLoop n node p = .ok r → GoodNode r.1 = true ∧ GoodPSt r.2) ∧
    (∀ p r, GoodPSt p → expr n p = .ok r →
      GoodNode r.1 = true ∧ GoodPSt r.2) ∧
    (∀ node p r, GoodNode node = true → GoodPSt p →
      exprLoop n node p = .ok r → GoodNode r.1 = true ∧ GoodPSt r.2) ∧
    (∀ node p r, GoodNode node = true → GoodPSt p →
      assignmentStatement n node p = .ok r →
      GoodNode r.1 = true ∧ GoodPSt r.2) ∧
    (∀ node p r, GoodNode node = true → GoodPSt p →
      functioncallStatement n node p = .ok r →
      GoodNode r.1 = true ∧ GoodPSt r.2) ∧
    (∀ p r, GoodPSt p → callParamsLoop n p = .ok r →
      GoodNodes r.1 = true ∧ GoodPSt r.2) ∧
    (∀ p r, GoodPSt p → statement n p = .ok r →
      GoodNode r.1 = true ∧ GoodPSt r.2) ∧
    (∀ p r, GoodPSt p → declParamsLoop n p = .ok r → GoodPSt r.2) ∧
    (∀ p r, GoodPSt p → statementList n p = .ok r →
      GoodNodes r.1 = true ∧ GoodPSt r.2) ∧
    (∀ p r, GoodPSt p → statementListLoop n p = .ok r →
      GoodNodes r.1 = true ∧ GoodPSt r.2) ∧
    (∀ p r, GoodPSt p → innerBlockStatement n p = .ok r →
      GoodNode r.1 = true ∧ GoodPSt r.2) := by
  intro n
  induction n with
  | zero =>
    refine ⟨?_, ?_, ?_, ?_, ?_, ?_, ?_, ?_, ?_, ?_, ?_, ?_, ?_, ?_, ?_⟩
    · intro p r _ h; exact Except.noConfusion h
    · intro p r _ h; exact Except.noConfusion h
    · intro p r _ h; exact Except.noConfusion h
    · intro node p r _ _ h; exact Except.noConfusion h
    · intro node p r _ _ h; exact Except.noConfusion h
    · intro p r _ h; exact Except.noConfusion h
    · intro node p r _ _ h; exact Except.noConfusion h
    · intro node p r _ _ h; exact Except.noConfusion h
    · intro node p r _ _ h; exact Except.noConfusion h
    · intro p r _ h; exact Except.noConfusion h
    · intro p r _ h; exact Except.noConfusion h
    · intro p r _ h; exact Except.noConfusion h
    · intro p r _ h; exact Except.noConfusion h
    · intro p r _ h; exact Except.noConfusion h
    · intro p r _ h; exact Except.noConfusion h
  | succ n ih =>
    obtain ⟨ihf, ihfcv, ihtm, ihtml, ihtcl, ihe, ihel, ihas, ihfcs, ihcpl,
      ihst, ihdpl, ihsl, ihsll, ihib⟩ := ih
    refine ⟨?_, ?_, ?_, ?_, ?_, ?_, ?_, ?_, ?_, ?_, ?_, ?_, ?_, ?_, ?_⟩
    · -- factor
      intro p r hg h
      simp only [factor] at h
      cases hc : p.current_token
      case plus =>
        rw [hc] at h
        rw [if_pos (Or.inl rfl)] at h
        obtain ⟨p1, hc1, h⟩ := pbind_eq_ok h
        obtain ⟨r1, hf1, h⟩ := pbind_eq_ok h
        have hr := Except.ok.inj h
        subst hr
        have hf := ihf p1 r1 (consumeToken_good hc1) hf1
        exact ⟨hf.1, hf.2⟩
      case minus =>
        rw [hc] at h
        rw [if_pos (Or.inr rfl)] at h
        obtain ⟨p1, hc1, h⟩ := pbind_eq_ok h
        obtain ⟨r1, hf1, h⟩ := pbind_eq_ok h
        have hr := Except.ok.inj h
        subst hr
        have hf := ihf p1 r1 (consumeToken_good hc1) hf1
        exact ⟨hf.1, hf.2⟩
      case integer v =>
        rw [hc] at h
        rw [if_neg (by simp)] at h
        obtain ⟨p1, hc1, h⟩ := pbind_eq_ok h
        have hr := Except.ok.inj h
        subst hr
        exact ⟨rfl, consumeToken_good hc1⟩
      case parentheseOpen =>
        rw [hc] at h
        rw [if_neg (by simp)] at h
        obtain ⟨p1, hc1, h⟩ := pbind_eq_ok h
        obtain ⟨r1, he1, h⟩ := pbind_eq_ok h
        obtain ⟨p3, hc3, h⟩ := pbind_eq_ok h
        have hr := Except.ok.inj h
        subst hr
        have he := ihe p1 r1 (consume_good hc1) he1
        exact ⟨he.1, consume_good hc3⟩
      case string s =>
        rw [hc] at h
        rw [if_neg (by simp)] at h
        obtain ⟨p1, hc1, h⟩ := pbind_eq_ok h
        have hr := Except.ok.inj h
        subst hr
        exact ⟨rfl, consumeToken_good hc1⟩
      case boolean b =>
        rw [hc] at h
        rw [if_neg (by simp)] at h
        obtain ⟨p1, hc1, h⟩ := pbind_eq_ok h
        have hr := Except.ok.inj h
        subst hr
        exact ⟨rfl, consumeToken_good hc1⟩
      all_goals (rw [hc] at h; rw [if_neg (by simp)] at h; exact ihfcv p r hg h)
    · -- functionCallOrVariable
      intro p r hg h
      simp only [functionCallOrVariable] at h
      obtain ⟨r0, hv, h⟩ := pbind_eq_ok h
      have hvg := variableNode_good hg hv
      by_cases ho : r0.2.current_token = Token.parentheseOpen
      · rw [if_pos ho] at h
        exact ihfcs r0.1 r0.2 r hvg.1 hvg.2 h
      · rw [if_neg ho] at h
        have hr := Except.ok.inj h
        subst hr
        exact hvg
    · -- term
      intro p r hg h
      simp only [term] at h
      obtain ⟨r1, hf1, h⟩ := pbind_eq_ok h
      obtain ⟨r2, hm2, h⟩ := pbind_eq_ok h
      have h1 := ihf p r1 hg hf1
      have h2 := ihtml r1.1 r1.2 r2 h1.1 h1.2 hm2
      exact ihtcl r2.1 r2.2 r h2.1 h2.2 h
    · -- termMulLoop
      intro node p r hnode hg h
      simp only [termMulLoop] at h
      by_cases hpm : p.current_token = Token.multiply ∨ p.current_token = Token.divide
      · rw [if_pos hpm] at h
        obtain ⟨p1, hc1, h⟩ := pbind_eq_ok h
        obtain ⟨r1, hf1, h⟩ := pbind_eq_ok h
        have h1 := ihf p1 r1 (consumeToken_good hc1) hf1
        refine ihtml _ r1.2 r ?_ h1.2 h
        simp only [GoodNode, Bool.and_eq_true]
        exact ⟨hnode, h1.1⟩
      · rw [if_neg hpm] at h
        have hr := Except.ok.inj h
        subst hr
        exact ⟨hnode, hg⟩
    · -- termCmpLoop
      intro node p r hnode hg h
      simp only [termCmpLoop] at h
      cases hc : p.current_token
      case reservedKeyword kw =>
        rw [hc] at h
        dsimp only at h
        cases hct : compareTypeOf kw
        case some ct =>
          rw [hct] at h
          obtain ⟨p1, hc1, h⟩ := pbind_eq_ok h
          obtain ⟨r1, hf1, h⟩ := pbind_eq_ok h
          have h1 := ihf p1 r1 (consumeToken_good hc1) hf1
          refine ihtcl _ r1.2 r ?_ h1.2 h
          simp only [GoodNode, Bool.and_eq_true]
          exact ⟨hnode, h1.1⟩
        case none =>
          rw [hct] at h
          have hr := Except.ok.inj h
          subst hr
          exact ⟨hnode, hg⟩
      all_goals (rw [hc] at h; have hr := Except.ok.inj h; subst hr; exact ⟨hnode, hg⟩)
    · -- expr
      intro p r hg h
      simp only [expr] at h
      obtain ⟨r1, ht1, h⟩ := pbind_eq_ok h
      have h1 := ihtm p r1 hg ht1
      exact ihel r1.1 r1.2 r h1.1 h1.2 h
    · -- exprLoop
      intro node p r hnode hg h
      simp only [exprLoop] at h
      by_cases hpm : p.current_token = Token.plus ∨ p.current_token = Token.minus
      · rw [if_pos hpm] at h
        obtain ⟨p1, hc1, h⟩ := pbind_eq_ok h
        obtain ⟨r1, ht1, h⟩ := pbind_eq_ok h
        have h1 := ihtm p1 r1 (consumeToken_good hc1) ht1
        refine ihel _ r1.2 r ?_ h1.2 h
        simp only [GoodNode, Bool.and_eq_true]
        exact ⟨hnode, h1.1⟩
      · rw [if_neg hpm] at h
        have hr := Except.ok.inj h
        subst hr
        exact ⟨hnode, hg⟩
    · -- assignmentStatement
      intro node p r hnode hg h
      simp only [assignmentStatement] at h
      obtain ⟨p1, hc1, h⟩ := pbind_eq_ok h
      obtain ⟨r1, he1, h⟩ := pbind_eq_ok h
      have hr := Except.ok.inj h
      subst hr
      have h1 := ihe p1 r1 (consume_good hc1) he1
      refine ⟨?_, h1.2⟩
      simp only [GoodNode, Bool.and_eq_true]
      exact ⟨hnode, h1.1⟩
    · -- functioncallStatement
      intro node p r hnode hg h
      simp only [functioncallStatement] at h
      obtain ⟨p1, hc1, h⟩ := pbind_eq_ok h
      by_cases hne : p1.current_token ≠ Token.parentheseClose
      · rw [if_pos hne] at h
        obtain ⟨r1, hp1, h⟩ := pbind_eq_ok h
        obtain ⟨p3, hc3, h⟩ := pbind_eq_ok h
        have hr := Except.ok.inj h
        subst hr
        have h1 := ihcpl p1 r1 (consume_good hc1) hp1
        refine ⟨?_, consume_good hc3⟩
        simp only [GoodNode, Bool.and_eq_true]
        exact ⟨hnode, h1.1⟩
      · rw [if_neg hne] at h
        obtain ⟨p2, hc2, h⟩ := pbind_eq_ok h
        have hr := Except.ok.inj h
        subst hr
        refine ⟨?_, consume_good hc2⟩
        simp only [GoodNode, GoodNodes, Bool.and_eq_true]
        exact ⟨hnode, trivial⟩
    · -- callParamsLoop
      intro p r hg h
      simp only [callParamsLoop] at h
      obtain ⟨r1, he1, h⟩ := pbind_eq_ok h
      have h1 := ihe p r1 hg he1
      by_cases hcm : r1.2.current_token ≠ Token.comma
      · rw [if_pos hcm] at h
        have hr := Except.ok.inj h
        subst hr
        refine ⟨?_, h1.2⟩
        simp only [GoodNodes, Bool.and_eq_true]
        exact ⟨h1.1, trivial⟩
      · rw [if_neg hcm] at h
        obtain ⟨p2, hc2, h⟩ := pbind_eq_ok h
        obtain ⟨r2, hl2, h⟩ := pbind_eq_ok h
        have hr := Except.ok.inj h
        subst hr
        have h2 := ihcpl p2 r2 (consume_good hc2) hl2
        refine ⟨?_, h2.2⟩
        simp only [GoodNodes, Bool.and_eq_true]
        exact ⟨h1.1, h2.1⟩
    · -- statement
      intro p r hg h
      simp only [statement] at h
      cases hc : p.current_token
      case id s0 =>
        rw [hc] at h
        obtain ⟨r0, hv, h⟩ := pbind_eq_ok h
        have hvg := variableNode_good hg hv
        by_cases ha : r0.2.current_token = Token.assign
        · rw [if_pos ha] at h
          exact ihas r0.1 r0.2 r hvg.1 hvg.2 h
        · rw [if_neg ha] at h
          by_cases ho : r0.2.current_token = Token.parentheseOpen
          · rw [if_pos ho] at h
            exact ihfcs r0.1 r0.2 r hvg.1 hvg.2 h
          · rw [if_neg ho] at h
            have hr := Except.ok.inj h
            subst hr
            exact ⟨rfl, hvg.2⟩
      case reservedKeyword kw =>
        rw [hc] at h
        cases kw
        case ifKw =>
          obtain ⟨p1, hc1, h⟩ := pbind_eq_ok h
          obtain ⟨r1, he1, h⟩ := pbind_eq_ok h
          obtain ⟨rb, hb1, h⟩ := pbind_eq_ok h
          have hr := Except.ok.inj h
          subst hr
          have h1 := ihe p1 r1 (consumeToken_good hc1) he1
          have h2 := ihib r1.2 rb h1.2 hb1
          refine ⟨?_, h2.2⟩
          simp only [GoodNode, Bool.and_eq_true]
          exact ⟨h1.1, h2.1⟩
        case equals =>
          obtain ⟨p1, hc1, h⟩ := pbind_eq_ok h
          obtain ⟨r1, he1, h⟩ := pbind_eq_ok h
          obtain ⟨rb, hb1, h⟩ := pbind_eq_ok h
          have hr := Except.ok.inj h
          subst hr
          have h1 := ihe p1 r1 (consumeToken_good hc1) he1
          have h2 := ihib r1.2 rb h1.2 hb1
          refine ⟨?_, h2.2⟩
          simp only [GoodNode, Bool.and_eq_true]
          exact ⟨h1.1, h2.1⟩
        case function =>
          obtain ⟨p1, hc1, h⟩ := pbind_eq_ok h
          cases hc2 : p1.current_token
          case id fname =>
            rw [hc2] at h
            obtain ⟨p2, hcc, h⟩ := pbind_eq_ok h
            obtain ⟨p3, hc3, h⟩ := pbind_eq_ok h
            obtain ⟨rp, hrp, h⟩ := pbind_eq_ok h
            obtain ⟨p5, hc5, h⟩ := pbind_eq_ok h
            obtain ⟨rb, hb1, h⟩ := pbind_eq_ok h
            have hr := Except.ok.inj h
            subst hr
            have h2 := ihib p5 rb (consume_good hc5) hb1
            exact ⟨h2.1, h2.2⟩
          all_goals (rw [hc2] at h; exact Except.noConfusion h)
        case loopKw =>
          obtain ⟨p1, hc1, h⟩ := pbind_eq_ok h
          obtain ⟨r1, he1, h⟩ := pbind_eq_ok h
          obtain ⟨rb, hb1, h⟩ := pbind_eq_ok h
          have hr := Except.ok.inj h
          subst hr
          have h1 := ihe p1 r1 (consumeToken_good hc1) he1
          have h2 := ihib r1.2 rb h1.2 hb1
          refine ⟨?_, h2.2⟩
          simp only [GoodNode, Bool.and_eq_true]
          exact ⟨h1.1, h2.1⟩
        case assignPrefix =>
          obtain ⟨p1, hc1, h⟩ := pbind_eq_ok h
          obtain ⟨rl, hvl, h⟩ := pbind_eq_ok h
          obtain ⟨p3, hc3, h⟩ := pbind_eq_ok h
          obtain ⟨rr, hrr, h⟩ := pbind_eq_ok h
          have hr := Except.ok.inj h
          subst hr
          have h1 := variableNode_good (consumeToken_good hc1) hvl
          have h2 := ihe p3 rr (consume_good hc3) hrr
          refine ⟨?_, h2.2⟩
          simp only [GoodNode, Bool.and_eq_true]
          exact ⟨h1.1, h2.1⟩
        case ret =>
          obtain ⟨p1, hc1, h⟩ := pbind_eq_ok h
          obtain ⟨r1, he1, h⟩ := pbind_eq_ok h
          have hr := Except.ok.inj h
          subst hr
          have h1 := ihe p1 r1 (consumeToken_good hc1) he1
          exact ⟨h1.1, h1.2⟩
        all_goals (have hr := Except.ok.inj h; subst hr; exact ⟨rfl, hg⟩)
      all_goals (rw [hc] at h; have hr := Except.ok.inj h; subst hr; exact ⟨rfl, hg⟩)
    · -- declParamsLoop
      intro p r hg h
      simp only [declParamsLoop] at h
      cases hc : p.current_token
      case id s0 =>
        rw [hc] at h
        obtain ⟨p1, hc1, h⟩ := pbind_eq_ok h
        obtain ⟨r1, hl1, h⟩ := pbind_eq_ok h
        have hr := Except.ok.inj h
        subst hr
        exact ihdpl p1 r1 (consumeToken_good hc1) hl1
      all_goals (rw [hc] at h; have hr := Except.ok.inj h; subst hr; exact hg)
    · -- statementList
      intro p r hg h
      simp only [statementList] at h
      obtain ⟨r1, hs1, h⟩ := pbind_eq_ok h
      obtain ⟨r2, hl2, h⟩ := pbind_eq_ok h
      have hr := Except.ok.inj h
      subst hr
      have h1 := ihst p r1 hg hs1
      have h2 := ihsll r1.2 r2 h1.2 hl2
      refine ⟨?_, h2.2⟩
      simp only [GoodNodes, Bool.and_eq_true]
      exact ⟨h1.1, h2.1⟩
    · -- statementListLoop
      intro p r hg h
      simp only [statementListLoop] at h
      by_cases hel : p.current_token = Token.endLine
      · rw [if_pos hel] at h
        obtain ⟨p1, hc1, h⟩ := pbind_eq_ok h
        obtain ⟨r1, hs1, h⟩ := pbind_eq_ok h
        obtain ⟨r2, hl2, h⟩ := pbind_eq_ok h
        have hr := Except.ok.inj h
        subst hr
        have h1 := ihst p1 r1 (consume_good hc1) hs1
        have h2 := ihsll r1.2 r2 h1.2 hl2
        refine ⟨?_, h2.2⟩
        by_cases hno : r1.1.isNoOp = true
        · rw [if_pos hno]
          exact h2.1
        · rw [if_neg hno]
          simp only [GoodNodes, Bool.and_eq_true]
          exact ⟨h1.1, h2.1⟩
      · rw [if_neg hel] at h
        have hr := Except.ok.inj h
        subst hr
        exact ⟨rfl, hg⟩
    · -- innerBlockStatement
      intro p r hg h
      simp only [innerBlockStatement] at h
      obtain ⟨p1, hp1, h⟩ := pbind_eq_ok h
      obtain ⟨p2, hc2, h⟩ := pbind_eq_ok h
      obtain ⟨r1, hs1, h⟩ := pbind_eq_ok h
      obtain ⟨p4, hc4, h⟩ := pbind_eq_ok h
      have hr := Except.ok.inj h
      subst hr
      have h1 := ihsl p2 r1 (consume_good hc2) hs1
      exact ⟨h1.1, consume_good hc4⟩

/-- The whole parse of any source text yields a lexer-shaped tree. -/
theorem parseText_good (text : String) (n : Nat) (tree : ASTNode)
    (h : parseText text n = .ok tree) : GoodNode tree = true := by
  unfold parseText parseP at h
  obtain ⟨r0, hp, h⟩ := pbind_eq_ok h
  by_cases hef : r0.2.current_token = Token.eof
  · rw [if_pos hef] at h
    have ht : r0.1 = tree := Except.ok.inj h
    subst ht
    unfold programP at hp
    obtain ⟨p1, hc1, hp⟩ := pbind_eq_ok hp
    obtain ⟨p2, hc2, hp⟩ := pbind_eq_ok hp
    obtain ⟨rb, hb, hp⟩ := pbind_eq_ok hp
    obtain ⟨p4, hc4, hp⟩ := pbind_eq_ok hp
    have hr := Except.ok.inj hp
    subst hr
    unfold blockStatement at hb
    obtain ⟨rl, hl, hb⟩ := pbind_eq_ok hb
    have hr2 := Except.ok.inj hb
    subst hr2
    cases n with
    | zero => exact Except.noConfusion hl
    | succ m =>
      have h1 := (parserGood_all (m + 1)).2.2.2.2.2.2.2.2.2.2.2.2.1 p2 rl
        (consume_good hc2) hl
      exact h1.1
  · rw [if_neg hef] at h
    exact Except.noConfusion h

/-- Replace the random and clock oracle streams of a state. -/
def setO (st : St) (r e : List Nat) : St := { st with rands := r, elapsed := e }

/-- Transport contract of one strict-mode evaluation step: running on
the state with replaced oracle streams gives the same outcome and the
same state aside from carrying the replaced streams — and the run
touches neither the worker, the shouter, nor the oracle streams. -/
def DetP {α : Type} (r e : List Nat) (st : St) (qre q : α × St) : Prop :=
  qre = (q.1, setO q.2 r e) ∧
  q.2.worker = st.worker ∧
  q.2.shouter = st.shouter ∧
  q.2.rands = st.rands ∧
  q.2.elapsed = st.elapsed

theorem DetP_base {α : Type} (r e : List Nat) (st : St) (a : α) :
    DetP r e st (a, setO st r e) (a, st) := ⟨rfl, rfl, rfl, rfl, rfl⟩

theorem DetP_trans {α : Type} {r e : List Nat} {st s2 : St} {qre q : α × St}
    (hw : s2.worker = st.worker) (hsh : s2.shouter = st.shouter)
    (hrr : s2.rands = st.rands) (hee : s2.elapsed = st.elapsed)
    (h : DetP r e s2 qre q) : DetP r e st qre q :=
  ⟨h.1, h.2.1.trans hw, h.2.2.1.trans hsh, h.2.2.2.1.trans hrr,
    h.2.2.2.2.trans hee⟩

theorem DetP_vbind {r e : List Nat} {st : St} {p pre : Outcome × St}
    {k kre : Value → St → Outcome × St}
    (hp : DetP r e st pre p)
    (hk : ∀ v s, p = (.ok v, s) → s.worker = st.worker →
      s.shouter = st.shouter → s.rands = st.rands → s.elapsed = st.elapsed →
      DetP r e s (kre v (setO s r e)) (k v s)) :
    DetP r e st (vbind pre kre) (vbind p k) := by
  obtain ⟨h1, h2, h3, h4, h5⟩ := hp
  subst h1
  rcases p with ⟨o, s⟩
  cases o with
  | ok v =>
    have hkk := hk v s rfl h2 h3 h4 h5
    exact ⟨hkk.1, hkk.2.1.trans h2, hkk.2.2.1.trans h3,
      hkk.2.2.2.1.trans h4, hkk.2.2.2.2.trans h5⟩
  | err e2 => exact ⟨rfl, h2, h3, h4, h5⟩
  | panicked m => exact ⟨rfl, h2, h3, h4, h5⟩
  | outOfFuel => exact ⟨rfl, h2, h3, h4, h5⟩

theorem DetP_seqAfter {r e : List Nat} {st : St} {p pre : Outcome × St}
    {k kre : St → Option Outcome × St}
    (hp : DetP r e st pre p)
    (hk : ∀ v s, p = (.ok v, s) → s.worker = st.worker →
      s.shouter = st.shouter → s.rands = st.rands → s.elapsed = st.elapsed →
      DetP r e s (kre (setO s r e)) (k s)) :
    DetP r e st (seqAfter pre kre) (seqAfter p k) := by
  obtain ⟨h1, h2, h3, h4, h5⟩ := hp
  subst h1
  rcases p with ⟨o, s⟩
  cases o with
  | ok v =>
    have hkk := hk v s rfl h2 h3 h4 h5
    exact ⟨hkk.1, hkk.2.1.trans h2, hkk.2.2.1.trans h3,
      hkk.2.2.2.1.trans h4, hkk.2.2.2.2.trans h5⟩
  | err e2 => exact ⟨rfl, h2, h3, h4, h5⟩
  | panicked m => exact ⟨rfl, h2, h3, h4, h5⟩
  | outOfFuel => exact ⟨rfl, h2, h3, h4, h5⟩

theorem DetP_exceptAfter {α : Type} {r e : List Nat} {st : St}
    {p pre : Outcome × St} {k kre : Value → St → Except Outcome α × St}
    (hp : DetP r e st pre p)
    (hk : ∀ v s, p = (.ok v, s) → s.worker = st.worker →
      s.shouter = st.shouter → s.rands = st.rands → s.elapsed = st.elapsed →
      DetP r e s (kre v (setO s r e)) (k v s)) :
    DetP r e st (exceptAfter pre kre) (exceptAfter p k) := by
  obtain ⟨h1, h2, h3, h4, h5⟩ := hp
  subst h1
  rcases p with ⟨o, s⟩
  cases o with
  | ok v =>
    have hkk := hk v s rfl h2 h3 h4 h5
    exact ⟨hkk.1, hkk.2.1.trans h2, hkk.2.2.1.trans h3,
      hkk.2.2.2.1.trans h4, hkk.2.2.2.2.trans h5⟩
  | err e2 => exact ⟨rfl, h2, h3, h4, h5⟩
  | panicked m => exact ⟨rfl, h2, h3, h4, h5⟩
  | outOfFuel => exact ⟨rfl, h2, h3, h4, h5⟩

theorem DetP_callAfter {α : Type} {r e : List Nat} {st : St}
    {p pre : Except Outcome α × St} {k kre : α → St → Outcome × St}
    (hp : DetP r e st pre p)
    (hk : ∀ a s, p = (.ok a, s) → s.worker = st.worker →
      s.shouter = st.shouter → s.rands = st.rands → s.elapsed = st.elapsed →
      DetP r e s (kre a (setO s r e)) (k a s)) :
    DetP r e st (callAfter pre kre) (callAfter p k) := by
  obtain ⟨h1, h2, h3, h4, h5⟩ := hp
  subst h1
  rcases p with ⟨x, s⟩
  cases x with
  | ok a =>
    have hkk := hk a s rfl h2 h3 h4 h5
    exact ⟨hkk.1, hkk.2.1.trans h2, hkk.2.2.1.trans h3,
      hkk.2.2.2.1.trans h4, hkk.2.2.2.2.trans h5⟩
  | error o => exact ⟨rfl, h2, h3, h4, h5⟩

theorem DetP_callFinish {r e : List Nat} {st : St} {p pre : Outcome × St}
    (hp : DetP r e st pre p) :
    DetP r e st (callFinish pre) (callFinish p) := by
  obtain ⟨h1, h2, h3, h4, h5⟩ := hp
  subst h1
  rcases p with ⟨o, s3⟩
  cases o with
  | ok v => exact ⟨rfl, h2, h3, h4, h5⟩
  | err e2 =>
    cases e2 with
    | hackyReturn v => exact ⟨rfl, h2, h3, h4, h5⟩
    | disturbedWorker => exact ⟨rfl, h2, h3, h4, h5⟩
  | panicked m => exact ⟨rfl, h2, h3, h4, h5⟩
  | outOfFuel => exact ⟨rfl, h2, h3, h4, h5⟩

/-- With the gate disabled the worker is a no-op. -/
theorem workerCall_strict (st : St) (scope : Scope) (node : ASTNode)
    (v : Value) (hs : st.worker.strict_work = true) :
    workerCall st scope node v = (Option.none, st) := by
  unfold workerCall
  dsimp only
  rw [if_pos hs]

theorem DetP_endVisit (r e : List Nat) (st : St)
    (hs : st.worker.strict_work = true) (node : ASTNode) (v : Value) :
    DetP r e st (endVisit node v (setO st r e)) (endVisit node v st) := by
  unfold endVisit
  have hc2 : (setO st r e).call_stack = st.call_stack := rfl
  rw [hc2]
  cases hcs : st.call_stack with
  | nil => exact DetP_base r e st _
  | cons scope rest =>
    dsimp only
    rw [workerCall_strict (setO st r e) scope node v hs,
      workerCall_strict st scope node v hs]
    exact DetP_base r e st _

/-- With the shouter in strict mode a shout is a plain print. -/
theorem shouterShout_strict (st : St) (lvl : Nat) (text : String)
    (hs : st.shouter.strict_work = true) :
    shouterShout st lvl text =
      pushOut { st with shout_trace := st.shout_trace ++ [(lvl, text)] } text := by
  unfold shouterShout
  dsimp only
  rw [if_pos hs]

theorem readValue_fst_setO (st : St) (t : String) (r e : List Nat) :
    (readValue (setO st r e) t).1 = (readValue st t).1 := by
  unfold readValue
  have hin : (setO st r e).inputs = st.inputs := rfl
  rw [hin]
  cases st.inputs <;> rfl

theorem readValue_snd_setO (st : St) (t : String) (r e : List Nat) :
    (readValue (setO st r e) t).2 = setO (readValue st t).2 r e := by
  unfold readValue
  have hin : (setO st r e).inputs = st.inputs := rfl
  rw [hin]
  cases st.inputs <;> rfl

theorem readValue_pres (st : St) (t : String) :
    (readValue st t).2.worker = st.worker ∧
    (readValue st t).2.shouter = st.shouter ∧
    (readValue st t).2.rands = st.rands ∧
    (readValue st t).2.elapsed = st.elapsed := by
  unfold readValue
  cases st.inputs <;> exact ⟨rfl, rfl, rfl, rfl⟩

/-- Strict-mode evaluation is oblivious to the random and clock oracle
streams and leaves them, the worker and the shouter untouched. -/
theorem visit_det_all : ∀ n : Nat,
    (∀ a st r e, st.worker.strict_work = true → st.shouter.strict_work = true →
      DetP r e st (visit n a (setO st r e)) (visit n a st)) ∧
    (∀ node nm ps st r e, st.worker.strict_work = true →
      st.shouter.strict_work = true →
      DetP r e st (visitShout n node nm ps (setO st r e))
        (visitShout n node nm ps st)) ∧
    (∀ ps st r e, st.worker.strict_work = true →
      st.shouter.strict_work = true →
      DetP r e st (visitInput n ps (setO st r e)) (visitInput n ps st)) ∧
    (∀ nm ps st r e, st.worker.strict_work = true →
      st.shouter.strict_work = true →
      DetP r e st (visitUserCall n nm ps (setO st r e))
        (visitUserCall n nm ps st)) ∧
    (∀ cs st r e, st.worker.strict_work = true →
      st.shouter.strict_work = true →
      DetP r e st (visitSeq n cs (setO st r e)) (visitSeq n cs st)) ∧
    (∀ c b st r e, st.worker.strict_work = true →
      st.shouter.strict_work = true →
      DetP r e st (visitIter n c b (setO st r e)) (visitIter n c b st)) ∧
    (∀ ps acc st r e, st.worker.strict_work = true →
      st.shouter.strict_work = true →
      DetP r e st (visitRender n ps acc (setO st r e))
        (visitRender n ps acc st)) ∧
    (∀ ps nms sc st r e, st.worker.strict_work = true →
      st.shouter.strict_work = true →
      DetP r e st (visitArgs n ps nms sc (setO st r e))
        (visitArgs n ps nms sc st)) := by
  intro n
  induction n with
  | zero =>
    refine ⟨?_, ?_, ?_, ?_, ?_, ?_, ?_, ?_⟩
    · intro a st r e _ _; exact DetP_base r e st _
    · intro node nm ps st r e _ _; exact DetP_base r e st _
    · intro ps st r e _ _; exact DetP_base r e st _
    · intro nm ps st r e _ _; exact DetP_base r e st _
    · intro cs st r e _ _; exact DetP_base r e st _
    · intro c b st r e _ _; exact DetP_base r e st _
    · intro ps acc st r e _ _; exact DetP_base r e st _
    · intro ps nms sc st r e _ _; exact DetP_base r e st _
  | succ n ih =>
    obtain ⟨ihv, ihsh, ihin, ihu, ihs, ihi, ihr, iha⟩ := ih
    have hstep : ∀ (st2 s : St), s.worker = st2.worker →
        st2.worker.strict_work = true → s.worker.strict_work = true := by
      intro st2 s hw h
      rw [hw]
      exact h
    have hstep2 : ∀ (st2 s : St), s.shouter = st2.shouter →
        st2.shouter.strict_work = true → s.shouter.strict_work = true := by
      intro st2 s hw h
      rw [hw]
      exact h
    refine ⟨?_, ?_, ?_, ?_, ?_, ?_, ?_, ?_⟩
    · -- visit
      intro a st r e hstw hsts
      cases a with
      | binOp l r2 tok =>
        cases tok
        case plus =>
          refine DetP_vbind (ihv l st r e hstw hsts) ?_
          intro v s _ hw hsh hrr hee
          dsimp only
          cases expectInt v with
          | none => exact DetP_base r e s _
          | some av =>
            refine DetP_vbind (ihv r2 s r e (hstep st s hw hstw)
              (hstep2 st s hsh hsts)) ?_
            intro w s2 _ hw2 hsh2 hrr2 hee2
            dsimp only
            cases expectInt w with
            | none => exact DetP_base r e s2 _
            | some bv =>
              by_cases hr : i32InRange (av + bv)
              · simp only [if_pos hr]
                exact DetP_endVisit r e s2 (hstep s s2 hw2
                  (hstep st s hw hstw)) _ _
              · simp only [if_neg hr]
                exact DetP_base r e s2 _
        case minus =>
          refine DetP_vbind (ihv l st r e hstw hsts) ?_
          intro v s _ hw hsh hrr hee
          dsimp only
          cases expectInt v with
          | none => exact DetP_base r e s _
          | some av =>
            refine DetP_vbind (ihv r2 s r e (hstep st s hw hstw)
              (hstep2 st s hsh hsts)) ?_
            intro w s2 _ hw2 hsh2 hrr2 hee2
            dsimp only
            cases expectInt w with
            | none => exact DetP_base r e s2 _
            | some bv =>
              by_cases hr : i32InRange (av - bv)
              · simp only [if_pos hr]
                exact DetP_endVisit r e s2 (hstep s s2 hw2
                  (hstep st s hw hstw)) _ _
              · simp only [if_neg hr]
                exact DetP_base r e s2 _
        case multiply =>
          refine DetP_vbind (ihv l st r e hstw hsts) ?_
          intro v s _ hw hsh hrr hee
          dsimp only
          cases expectInt v with
          | none => exact DetP_base r e s _
          | some av =>
            refine DetP_vbind (ihv r2 s r e (hstep st s hw hstw)
              (hstep2 st s hsh hsts)) ?_
            intro w s2 _ hw2 hsh2 hrr2 hee2
            dsimp only
            cases expectInt w with
            | none => exact DetP_base r e s2 _
            | some bv =>
              by_cases hr : i32InRange (av * bv)
              · simp only [if_pos hr]
                exact DetP_endVisit r e s2 (hstep s s2 hw2
                  (hstep st s hw hstw)) _ _
              · simp only [if_neg hr]
                exact DetP_base r e s2 _
        case divide =>
          refine DetP_vbind (ihv l st r e hstw hsts) ?_
          intro v s _ hw hsh hrr hee
          dsimp only
          cases expectInt v with
          | none => exact DetP_base r e s _
          | some av =>
            refine DetP_vbind (ihv r2 s r e (hstep st s hw hstw)
              (hstep2 st s hsh hsts)) ?_
            intro w s2 _ hw2 hsh2 hrr2 hee2
            dsimp only
            cases expectInt w with
            | none => exact DetP_base r e s2 _
            | some bv =>
              by_cases hz : bv = 0
              · simp only [if_pos hz]
                exact DetP_base r e s2 _
              · simp only [if_neg hz]
                by_cases hr : i32InRange (Int.tdiv av bv)
                · simp only [if_pos hr]
                  exact DetP_endVisit r e s2 (hstep s s2 hw2
                    (hstep st s hw hstw)) _ _
                · simp only [if_neg hr]
                  exact DetP_base r e s2 _
        all_goals exact DetP_base r e st _
      | value v => exact DetP_endVisit r e st hstw _ _
      | unaryOp e2 tok =>
        cases tok
        case plus =>
          refine DetP_vbind (ihv e2 st r e hstw hsts) ?_
          intro v s _ hw hsh hrr hee
          dsimp only
          cases expectInt v with
          | none => exact DetP_base r e s _
          | some av => exact DetP_endVisit r e s (hstep st s hw hstw) _ _
        case minus =>
          refine DetP_vbind (ihv e2 st r e hstw hsts) ?_
          intro v s _ hw hsh hrr hee
          dsimp only
          cases expectInt v with
          | none => exact DetP_base r e s _
          | some av =>
            by_cases hr : i32InRange (-av)
            · simp only [if_pos hr]
              exact DetP_endVisit r e s (hstep st s hw hstw) _ _
            · simp only [if_neg hr]
              exact DetP_base r e s _
        all_goals exact DetP_base r e st _
      | block cs =>
        rw [visit_block n cs (setO st r e), visit_block n cs st]
        have hseq := ihs cs st r e hstw hsts
        obtain ⟨h1, h2, h3, h4, h5⟩ := hseq
        rcases hv : visitSeq n cs st with ⟨oo, st1⟩
        rw [hv] at h1 h2 h3 h4 h5
        rw [h1]
        cases oo with
        | none =>
          dsimp only
          refine DetP_trans h2 h3 h4 h5
            (DetP_endVisit r e st1 (hstep st st1 h2 hstw) _ _)
        | some o =>
          dsimp only
          exact ⟨rfl, h2, h3, h4, h5⟩
      | «variable» nm =>
        rw [visit_variable n nm (setO st r e), visit_variable n nm st]
        have hc2 : (setO st r e).call_stack = st.call_stack := rfl
        rw [hc2]
        cases hcs : st.call_stack with
        | nil => exact DetP_base r e st _
        | cons scope rest =>
          dsimp only
          cases hl : List.lookup nm scope.symbol_table with
          | none => exact DetP_base r e st _
          | some v => exact DetP_endVisit r e st hstw _ _
      | assign l r2 =>
        cases l
        case «variable» nm =>
          refine DetP_vbind (ihv r2 st r e hstw hsts) ?_
          intro v s _ hw hsh hrr hee
          dsimp only
          have hc2 : (setO s r e).call_stack = s.call_stack := rfl
          rw [hc2]
          cases hcs : s.call_stack with
          | nil => exact DetP_base r e s _
          | cons scope restStack =>
            dsimp only
            refine @DetP_trans _ r e s
              { s with call_stack :=
                { scope with symbol_table := (nm, v) :: scope.symbol_table }
                  :: restStack } _ _ rfl rfl rfl rfl ?_
            exact DetP_endVisit r e
              { s with call_stack :=
                { scope with symbol_table := (nm, v) :: scope.symbol_table }
                  :: restStack } (hstep st s hw hstw) _ _
        all_goals exact DetP_base r e st _
      | ifNode c e2 =>
        refine DetP_vbind (ihv c st r e hstw hsts) ?_
        intro v s _ hw hsh hrr hee
        cases v with
        | boolean b =>
          cases b with
          | true =>
            refine DetP_vbind (ihv e2 s r e (hstep st s hw hstw)
              (hstep2 st s hsh hsts)) ?_
            intro w s2 _ hw2 hsh2 hrr2 hee2
            exact DetP_endVisit r e s2 (hstep s s2 hw2 (hstep st s hw hstw)) _ _
          | false => exact DetP_endVisit r e s (hstep st s hw hstw) _ _
        | integer m => exact DetP_base r e s _
        | string str => exact DetP_base r e s _
        | none => exact DetP_base r e s _
      | loop c b =>
        refine DetP_vbind (ihi c b st r e hstw hsts) ?_
        intro v s _ hw hsh hrr hee
        exact DetP_endVisit r e s (hstep st s hw hstw) _ _
      | compare l r2 ct =>
        refine DetP_vbind (ihv l st r e hstw hsts) ?_
        intro v s _ hw hsh hrr hee
        refine DetP_vbind (ihv r2 s r e (hstep st s hw hstw)
          (hstep2 st s hsh hsts)) ?_
        intro w s2 _ hw2 hsh2 hrr2 hee2
        cases ct
        case equals => exact DetP_base r e s2 _
        case less => exact DetP_base r e s2 _
        case greater => exact DetP_base r e s2 _
      | functionDeclaration nm ps b =>
        rw [visit_functionDeclaration n nm ps b (setO st r e),
          visit_functionDeclaration n nm ps b st]
        have hc2 : (setO st r e).call_stack = st.call_stack := rfl
        rw [hc2]
        cases hcs : st.call_stack with
        | nil => exact DetP_base r e st _
        | cons scope restStack =>
          dsimp only
          cases hl : List.lookup nm scope.function_table with
          | some f => exact DetP_base r e st _
          | none =>
            refine @DetP_trans _ r e st
              { st with call_stack :=
                { scope with function_table :=
                  (nm, ASTNode.functionDeclaration nm ps b)
                    :: scope.function_table } :: restStack }
              _ _ rfl rfl rfl rfl ?_
            exact DetP_endVisit r e
              { st with call_stack :=
                { scope with function_table :=
                  (nm, ASTNode.functionDeclaration nm ps b)
                    :: scope.function_table } :: restStack } hstw _ _
      | functionCall f ps =>
        cases f
        case «variable» nm =>
          rw [visit_call_var n nm ps (setO st r e), visit_call_var n nm ps st]
          by_cases ho : strStartsWith nm ":O__" = true
          · simp only [if_pos ho]
            exact ihsh _ nm ps st r e hstw hsts
          · simp only [if_neg ho]
            by_cases hd : nm = "d;D"
            · simp only [if_pos hd]
              exact ihin ps st r e hstw hsts
            · simp only [if_neg hd]
              exact ihu nm ps st r e hstw hsts
        all_goals exact DetP_endVisit r e st hstw _ _
      | ret e2 =>
        refine DetP_vbind (ihv e2 st r e hstw hsts) ?_
        intro v s _ hw hsh hrr hee
        exact DetP_base r e s _
      | noOp => exact DetP_endVisit r e st hstw _ _
    · -- visitShout
      intro node nm ps st r e hstw hsts
      refine DetP_callAfter (ihr ps "" st r e hstw hsts) ?_
      intro text s _ hw hsh hrr hee
      have hsh2 : s.shouter.strict_work = true := hstep2 st s hsh hsts
      rw [shouterShout_strict (setO s r e) (nm.length - 3) text hsh2,
        shouterShout_strict s (nm.length - 3) text hsh2]
      refine @DetP_trans _ r e s
        (pushOut { s with shout_trace :=
          s.shout_trace ++ [(nm.length - 3, text)] } text) _ _ rfl rfl rfl rfl ?_
      exact DetP_endVisit r e
        (pushOut { s with shout_trace :=
          s.shout_trace ++ [(nm.length - 3, text)] } text)
        (hstep st s hw hstw) _ _
    · -- visitInput
      intro ps st r e hstw hsts
      refine DetP_callAfter (ihr ps "" st r e hstw hsts) ?_
      intro text s _ hw hsh hrr hee
      refine ⟨?_, ?_, ?_, ?_, ?_⟩
      · rw [readValue_fst_setO s (text ++ ": ") r e,
          readValue_snd_setO s (text ++ ": ") r e]
      · exact (readValue_pres s (text ++ ": ")).1
      · exact (readValue_pres s (text ++ ": ")).2.1
      · exact (readValue_pres s (text ++ ": ")).2.2.1
      · exact (readValue_pres s (text ++ ": ")).2.2.2
    · -- visitUserCall
      intro nm ps st r e hstw hsts
      rw [visitUserCall_succ n nm ps (setO st r e), visitUserCall_succ n nm ps st]
      have hc2 : (setO st r e).call_stack = st.call_stack := rfl
      rw [hc2]
      cases hcs : st.call_stack with
      | nil => exact DetP_base r e st _
      | cons scope restStack =>
        dsimp only
        cases hl : List.lookup nm scope.function_table with
        | none => exact DetP_base r e st _
        | some fnode =>
          cases fnode
          case functionDeclaration fn fps fb =>
            dsimp only
            by_cases hlen : fps.length ≠ ps.length
            · simp only [if_pos hlen]
              exact DetP_base r e st _
            · simp only [if_neg hlen]
              refine DetP_callAfter (iha ps fps
                { symbol_table := [], function_table := scope.function_table }
                st r e hstw hsts) ?_
              intro nsc s _ hw hsh hrr hee
              refine DetP_callFinish ?_
              refine @DetP_trans _ r e s
                { s with call_stack := nsc :: s.call_stack } _ _
                rfl rfl rfl rfl ?_
              exact ihv fb { s with call_stack := nsc :: s.call_stack } r e
                (hstep st s hw hstw) (hstep2 st s hsh hsts)
          all_goals exact DetP_base r e st _
    · -- visitSeq
      intro cs st r e hstw hsts
      cases cs with
      | nil => exact DetP_base r e st _
      | cons child rest =>
        rw [visitSeq_cons n child rest (setO st r e), visitSeq_cons n child rest st]
        by_cases hcr : child.isRet = true
        · simp only [if_pos hcr]
          have hdet := ihv child st r e hstw hsts
          obtain ⟨h1, h2, h3, h4, h5⟩ := hdet
          rw [h1]
          exact ⟨rfl, h2, h3, h4, h5⟩
        · simp only [if_neg hcr]
          refine DetP_seqAfter (ihv child st r e hstw hsts) ?_
          intro v s _ hw hsh hrr hee
          exact ihs rest s r e (hstep st s hw hstw) (hstep2 st s hsh hsts)
    · -- visitIter
      intro c b st r e hstw hsts
      refine DetP_vbind (ihv c st r e hstw hsts) ?_
      intro v s _ hw hsh hrr hee
      cases v with
      | boolean bb =>
        cases bb with
        | true =>
          refine DetP_vbind (ihv b s r e (hstep st s hw hstw)
            (hstep2 st s hsh hsts)) ?_
          intro w s2 _ hw2 hsh2 hrr2 hee2
          exact ihi c b s2 r e (hstep s s2 hw2 (hstep st s hw hstw))
            (hstep2 s s2 hsh2 (hstep2 st s hsh hsts))
        | false => exact DetP_base r e s _
      | integer m => exact DetP_base r e s _
      | string str => exact DetP_base r e s _
      | none => exact DetP_base r e s _
    · -- visitRender
      intro ps acc st r e hstw hsts
      cases ps with
      | nil => exact DetP_base r e st _
      | cons p rest =>
        rw [visitRender_cons n p rest acc (setO st r e),
          visitRender_cons n p rest acc st]
        cases hn : p.varName? with
        | none =>
          refine DetP_exceptAfter (ihv p st r e hstw hsts) ?_
          intro v s _ hw hsh hrr hee
          exact ihr rest (acc ++ v.display) s r e (hstep st s hw hstw)
            (hstep2 st s hsh hsts)
        | some vname =>
          have hc2 : (setO st r e).call_stack = st.call_stack := rfl
          rw [hc2]
          cases hcs : st.call_stack with
          | nil => exact DetP_base r e st _
          | cons scope restStack =>
            dsimp only
            cases hl : List.lookup vname scope.symbol_table with
            | none => exact DetP_base r e st _
            | some v => exact ihr rest (acc ++ v.display) st r e hstw hsts
    · -- visitArgs
      intro ps nms sc st r e hstw hsts
      cases ps with
      | nil => exact DetP_base r e st _
      | cons p rest =>
        rw [visitArgs_cons n p rest nms sc (setO st r e),
          visitArgs_cons n p rest nms sc st]
        refine DetP_exceptAfter (ihv p st r e hstw hsts) ?_
        intro v s _ hw hsh hrr hee
        cases nms with
        | nil => exact DetP_base r e s _
        | cons nm restNames =>
          exact iha rest restNames
            { sc with symbol_table := (nm, v) :: sc.symbol_table } s r e
            (hstep st s hw hstw) (hstep2 st s hsh hsts)

/-- All function-table entries of every frame are lexer-shaped nodes. -/
def GoodSt (st : St) : Prop :=
  ∀ sc ∈ st.call_stack, ∀ kv ∈ sc.function_table, GoodNode kv.2 = true

/-- Observable-interaction invariant of one strict-mode evaluation on a
lexer-shaped program: no prompt is issued, no interactive answer is
consumed and every stored function stays lexer-shaped. -/
def PInv (st st' : St) : Prop :=
  st'.prompts = st.prompts ∧ st'.inputs = st.inputs ∧ GoodSt st'

theorem PInv_refl (st : St) (h : GoodSt st) : PInv st st := ⟨rfl, rfl, h⟩

theorem PInv_trans {st s st' : St} (h1 : PInv st s) (h2 : PInv s st') :
    PInv st st' := ⟨h2.1.trans h1.1, h2.2.1.trans h1.2.1, h2.2.2⟩

theorem PInv_vbind {st : St} {p : Outcome × St} {k : Value → St → Outcome × St}
    (hp : PInv st p.2)
    (hk : ∀ v s, p = (.ok v, s) → PInv s (k v s).2) :
    PInv st (vbind p k).2 := by
  rcases p with ⟨o, s⟩
  cases o with
  | ok v => exact PInv_trans hp (hk v s rfl)
  | err e2 => exact hp
  | panicked m => exact hp
  | outOfFuel => exact hp

theorem PInv_seqAfter {st : St} {p : Outcome × St}
    {k : St → Option Outcome × St}
    (hp : PInv st p.2)
    (hk : ∀ v s, p = (.ok v, s) → PInv s (k s).2) :
    PInv st (seqAfter p k).2 := by
  rcases p with ⟨o, s⟩
  cases o with
  | ok v => exact PInv_trans hp (hk v s rfl)
  | err e2 => exact hp
  | panicked m => exact hp
  | outOfFuel => exact hp

theorem PInv_exceptAfter {α : Type} {st : St} {p : Outcome × St}
    {k : Value → St → Except Outcome α × St}
    (hp : PInv st p.2)
    (hk : ∀ v s, p = (.ok v, s) → PInv s (k v s).2) :
    PInv st (exceptAfter p k).2 := by
  rcases p with ⟨o, s⟩
  cases o with
  | ok v => exact PInv_trans hp (hk v s rfl)
  | err e2 => exact hp
  | panicked m => exact hp
  | outOfFuel => exact hp

theorem PInv_callAfter {α : Type} {st : St} {p : Except Outcome α × St}
    {k : α → St → Outcome × St}
    (hp : PInv st p.2)
    (hk : ∀ a s, p = (.ok a, s) → PInv s (k a s).2) :
    PInv st (callAfter p k).2 := by
  rcases p with ⟨x, s⟩
  cases x with
  | ok a => exact PInv_trans hp (hk a s rfl)
  | error o => exact hp

theorem GoodSt_tail {st : St} (h : GoodSt st) :
    GoodSt { st with call_stack := st.call_stack.tail } := by
  intro sc hsc kv hkv
  exact h sc (List.mem_of_mem_tail hsc) kv hkv

theorem PInv_callFinish {st : St} {p : Outcome × St} (hp : PInv st p.2) :
    PInv st (callFinish p).2 := by
  rcases p with ⟨o, s3⟩
  cases o with
  | ok v => exact ⟨hp.1, hp.2.1, GoodSt_tail hp.2.2⟩
  | err e2 =>
    cases e2 with
    | hackyReturn v => exact ⟨hp.1, hp.2.1, GoodSt_tail hp.2.2⟩
    | disturbedWorker => exact hp
  | panicked m => exact hp
  | outOfFuel => exact hp

theorem PInv_endVisit (node : ASTNode) (v : Value) {st : St}
    (hs : st.worker.strict_work = true) (hg : GoodSt st) :
    PInv st (endVisit node v st).2 := by
  unfold endVisit
  cases hcs : st.call_stack with
  | nil => exact PInv_refl st hg
  | cons scope rest =>
    try dsimp only
    rw [workerCall_strict st scope node v hs]
    exact PInv_refl st hg

theorem GoodSt_push {st1 : St} {nsc : Scope}
    (h1 : GoodSt st1) (h2 : ∀ kv ∈ nsc.function_table, GoodNode kv.2 = true) :
    GoodSt { st1 with call_stack := nsc :: st1.call_stack } := by
  intro sc hsc kv hkv
  rcases List.mem_cons.mp hsc with rfl | ht
  · exact h2 kv hkv
  · exact h1 sc ht kv hkv

theorem GoodSt_sethead {st : St} {scope : Scope} {rest : List Scope}
    {sc2 : Scope} (hcs : st.call_stack = scope :: rest) (hg : GoodSt st)
    (h2 : ∀ kv ∈ sc2.function_table, GoodNode kv.2 = true) :
    GoodSt { st with call_stack := sc2 :: rest } := by
  intro sc hsc kv hkv
  rcases List.mem_cons.mp hsc with rfl | ht
  · exact h2 kv hkv
  · exact hg sc (by rw [hcs]; exact List.mem_cons_of_mem _ ht) kv hkv

/-- Argument binding never alters the new frame's function table. -/
theorem visitArgs_ft : ∀ (n : Nat) (ps : List ASTNode) (nms : List String)
    (sc : Scope) (st : St) (nsc : Scope) (st1 : St),
    visitArgs n ps nms sc st = (.ok nsc, st1) →
    nsc.function_table = sc.function_table := by
  intro n
  induction n with
  | zero =>
    intro ps nms sc st nsc st1 h
    exact Except.noConfusion (congrArg Prod.fst h)
  | succ n ih =>
    intro ps nms sc st nsc st1 h
    cases ps with
    | nil =>
      rw [visitArgs_nil] at h
      have h3 : sc = nsc := Except.ok.inj (congrArg Prod.fst h)
      rw [← h3]
    | cons p rest =>
      rw [visitArgs_cons] at h
      rcases hv : visit n p st with ⟨o, s⟩
      rw [hv] at h
      cases o with
      | ok v =>
        rw [exceptAfter_ok] at h
        cases nms with
        | nil => exact Except.noConfusion (congrArg Prod.fst h)
        | cons nm restNames =>
          exact ih rest restNames
            { sc with symbol_table := (nm, v) :: sc.symbol_table } s nsc st1 h
      | err e2 => exact Except.noConfusion (congrArg Prod.fst h)
      | panicked m => exact Except.noConfusion (congrArg Prod.fst h)
      | outOfFuel => exact Except.noConfusion (congrArg Prod.fst h)

/-- Strict-mode evaluation of a lexer-shaped program issues no prompt,
consumes no interactive answer, and keeps every stored function
lexer-shaped. (The interactive `d;D` arm requires a callee name no
lexer identifier can have.) -/
theorem visit_pinv_all : ∀ n : Nat,
    (∀ a st, GoodNode a = true → GoodSt st → st.worker.strict_work = true →
      st.shouter.strict_work = true → PInv st (visit n a st).2) ∧
    (∀ node nm ps st, GoodNodes ps = true → GoodSt st →
      st.worker.strict_work = true → st.shouter.strict_work = true →
      PInv st (visitShout n node nm ps st).2) ∧
    (∀ nm ps st, GoodNodes ps = true → GoodSt st →
      st.worker.strict_work = true → st.shouter.strict_work = true →
      PInv st (visitUserCall n nm ps st).2) ∧
    (∀ cs st, GoodNodes cs = true → GoodSt st →
      st.worker.strict_work = true → st.shouter.strict_work = true →
      PInv st (visitSeq n cs st).2) ∧
    (∀ c b st, GoodNode c = true → GoodNode b = true → GoodSt st →
      st.worker.strict_work = true → st.shouter.strict_work = true →
      PInv st (visitIter n c b st).2) ∧
    (∀ ps acc st, GoodNodes ps = true → GoodSt st →
      st.worker.strict_work = true → st.shouter.strict_work = true →
      PInv st (visitRender n ps acc st).2) ∧
    (∀ ps nms sc st, GoodNodes ps = true → GoodSt st →
      st.worker.strict_work = true → st.shouter.strict_work = true →
      PInv st (visitArgs n ps nms sc st).2) := by
  intro n
  induction n with
  | zero =>
    refine ⟨?_, ?_, ?_, ?_, ?_, ?_, ?_⟩
    · intro a st _ hg _ _; exact PInv_refl st hg
    · intro node nm ps st _ hg _ _; exact PInv_refl st hg
    · intro nm ps st _ hg _ _; exact PInv_refl st hg
    · intro cs st _ hg _ _; exact PInv_refl st hg
    · intro c b st _ _ hg _ _; exact PInv_refl st hg
    · intro ps acc st _ hg _ _; exact PInv_refl st hg
    · intro ps nms sc st _ hg _ _; exact PInv_refl st hg
  | succ n ih =>
    obtain ⟨ihv, ihsh, ihu, ihs, ihi, ihr, iha⟩ := ih
    have hpres : ∀ (a : ASTNode) (st1 : St), st1.worker.strict_work = true →
        st1.shouter.strict_work = true →
        (visit n a st1).2.worker.strict_work = true ∧
        (visit n a st1).2.shouter.strict_work = true := by
      intro a st1 h1 h2
      have h := (visit_det_all n).1 a st1 st1.rands st1.elapsed h1 h2
      constructor
      · rw [h.2.1]; exact h1
      · rw [h.2.2.1]; exact h2
    have hpresS : ∀ (cs : List ASTNode) (st1 : St),
        st1.worker.strict_work = true → st1.shouter.strict_work = true →
        (visitSeq n cs st1).2.worker.strict_work = true ∧
        (visitSeq n cs st1).2.shouter.strict_work = true := by
      intro cs st1 h1 h2
      have h := (visit_det_all n).2.2.2.2.1 cs st1 st1.rands st1.elapsed h1 h2
      constructor
      · rw [h.2.1]; exact h1
      · rw [h.2.2.1]; exact h2
    have hpresA : ∀ (ps : List ASTNode) (nms : List String) (sc : Scope)
        (st1 : St), st1.worker.strict_work = true →
        st1.shouter.strict_work = true →
        (visitArgs n ps nms sc st1).2.worker.strict_work = true ∧
        (visitArgs n ps nms sc st1).2.shouter.strict_work = true := by
      intro ps nms sc st1 h1 h2
      have h := (visit_det_all n).2.2.2.2.2.2.2 ps nms sc st1 st1.rands
        st1.elapsed h1 h2
      constructor
      · rw [h.2.1]; exact h1
      · rw [h.2.2.1]; exact h2
    have hpresR : ∀ (ps : List ASTNode) (acc : String) (st1 : St),
        st1.worker.strict_work = true → st1.shouter.strict_work = true →
        (visitRender n ps acc st1).2.worker.strict_work = true ∧
        (visitRender n ps acc st1).2.shouter.strict_work = true := by
      intro ps acc st1 h1 h2
      have h := (visit_det_all n).2.2.2.2.2.2.1 ps acc st1 st1.rands
        st1.elapsed h1 h2
      constructor
      · rw [h.2.1]; exact h1
      · rw [h.2.2.1]; exact h2
    have hAfter : ∀ (a : ASTNode) (st1 s : St) (v : Value),
        GoodNode a = true → GoodSt st1 → st1.worker.strict_work = true →
        st1.shouter.strict_work = true → visit n a st1 = (.ok v, s) →
        GoodSt s ∧ s.worker.strict_work = true ∧
        s.shouter.strict_work = true := by
      intro a st1 s v hga hgst1 h1 h2 hps
      have hP := ihv a st1 hga hgst1 h1 h2
      have hW := hpres a st1 h1 h2
      rw [hps] at hP hW
      exact ⟨hP.2.2, hW.1, hW.2⟩
    refine ⟨?_, ?_, ?_, ?_, ?_, ?_, ?_⟩
    · -- visit
      intro a st hga hgSt hstw hsts
      cases a with
      | binOp l r2 tok =>
        simp only [GoodNode, Bool.and_eq_true] at hga
        obtain ⟨hgl, hgr⟩ := hga
        cases tok
        case plus =>
          refine PInv_vbind (ihv l st hgl hgSt hstw hsts) ?_
          intro v s hps
          obtain ⟨hgs, hsw, hss⟩ := hAfter l st s v hgl hgSt hstw hsts hps
          try dsimp only
          cases expectInt v with
          | none => exact PInv_refl s hgs
          | some av =>
            refine PInv_vbind (ihv r2 s hgr hgs hsw hss) ?_
            intro w s2 hps2
            obtain ⟨hgs2, hsw2, hss2⟩ := hAfter r2 s s2 w hgr hgs hsw hss hps2
            try dsimp only
            cases expectInt w with
            | none => exact PInv_refl s2 hgs2
            | some bv =>
              by_cases hr : i32InRange (av + bv)
              · simp only [if_pos hr]
                exact PInv_endVisit _ _ hsw2 hgs2
              · simp only [if_neg hr]
                exact PInv_refl s2 hgs2
        case minus =>
          refine PInv_vbind (ihv l st hgl hgSt hstw hsts) ?_
          intro v s hps
          obtain ⟨hgs, hsw, hss⟩ := hAfter l st s v hgl hgSt hstw hsts hps
          try dsimp only
          cases expectInt v with
          | none => exact PInv_refl s hgs
          | some av =>
            refine PInv_vbind (ihv r2 s hgr hgs hsw hss) ?_
            intro w s2 hps2
            obtain ⟨hgs2, hsw2, hss2⟩ := hAfter r2 s s2 w hgr hgs hsw hss hps2
            try dsimp only
            cases expectInt w with
            | none => exact PInv_refl s2 hgs2
            | some bv =>
              by_cases hr : i32InRange (av - bv)
              · simp only [if_pos hr]
                exact PInv_endVisit _ _ hsw2 hgs2
              · simp only [if_neg hr]
                exact PInv_refl s2 hgs2
        case multiply =>
          refine PInv_vbind (ihv l st hgl hgSt hstw hsts) ?_
          intro v s hps
          obtain ⟨hgs, hsw, hss⟩ := hAfter l st s v hgl hgSt hstw hsts hps
          try dsimp only
          cases expectInt v with
          | none => exact PInv_refl s hgs
          | some av =>
            refine PInv_vbind (ihv r2 s hgr hgs hsw hss) ?_
            intro w s2 hps2
            obtain ⟨hgs2, hsw2, hss2⟩ := hAfter r2 s s2 w hgr hgs hsw hss hps2
            try dsimp only
            cases expectInt w with
            | none => exact PInv_refl s2 hgs2
            | some bv =>
              by_cases hr : i32InRange (av * bv)
              · simp only [if_pos hr]
                exact PInv_endVisit _ _ hsw2 hgs2
              · simp only [if_neg hr]
                exact PInv_refl s2 hgs2
        case divide =>
          refine PInv_vbind (ihv l st hgl hgSt hstw hsts) ?_
          intro v s hps
          obtain ⟨hgs, hsw, hss⟩ := hAfter l st s v hgl hgSt hstw hsts hps
          try dsimp only
          cases expectInt v with
          | none => exact PInv_refl s hgs
          | some av =>
            refine PInv_vbind (ihv r2 s hgr hgs hsw hss) ?_
            intro w s2 hps2
            obtain ⟨hgs2, hsw2, hss2⟩ := hAfter r2 s s2 w hgr hgs hsw hss hps2
            try dsimp only
            cases expectInt w with
            | none => exact PInv_refl s2 hgs2
            | some bv =>
              by_cases hz : bv = 0
              · simp only [if_pos hz]
                exact PInv_refl s2 hgs2
              · simp only [if_neg hz]
                by_cases hr : i32InRange (Int.tdiv av bv)
                · simp only [if_pos hr]
                  exact PInv_endVisit _ _ hsw2 hgs2
                · simp only [if_neg hr]
                  exact PInv_refl s2 hgs2
        all_goals exact PInv_refl st hgSt
      | value v => exact PInv_endVisit _ _ hstw hgSt
      | unaryOp e2 tok =>
        simp only [GoodNode] at hga
        cases tok
        case plus =>
          refine PInv_vbind (ihv e2 st hga hgSt hstw hsts) ?_
          intro v s hps
          obtain ⟨hgs, hsw, hss⟩ := hAfter e2 st s v hga hgSt hstw hsts hps
          try dsimp only
          cases expectInt v with
          | none => exact PInv_refl s hgs
          | some av => exact PInv_endVisit _ _ hsw hgs
        case minus =>
          refine PInv_vbind (ihv e2 st hga hgSt hstw hsts) ?_
          intro v s hps
          obtain ⟨hgs, hsw, hss⟩ := hAfter e2 st s v hga hgSt hstw hsts hps
          try dsimp only
          cases expectInt v with
          | none => exact PInv_refl s hgs
          | some av =>
            by_cases hr : i32InRange (-av)
            · simp only [if_pos hr]
              exact PInv_endVisit _ _ hsw hgs
            · simp only [if_neg hr]
              exact PInv_refl s hgs
        all_goals exact PInv_refl st hgSt
      | block cs =>
        simp only [GoodNode] at hga
        rw [visit_block n cs st]
        have hPs := ihs cs st hga hgSt hstw hsts
        have hWs := hpresS cs st hstw hsts
        rcases hv : visitSeq n cs st with ⟨oo, st1⟩
        rw [hv] at hPs hWs
        cases oo with
        | none =>
          try dsimp only
          exact PInv_trans hPs (PInv_endVisit _ _ hWs.1 hPs.2.2)
        | some o =>
          try dsimp only
          exact hPs
      | «variable» nm =>
        rw [visit_variable n nm st]
        cases hcs : st.call_stack with
        | nil => exact PInv_refl st hgSt
        | cons scope rest =>
          try dsimp only
          cases hl : List.lookup nm scope.symbol_table with
          | none => exact PInv_refl st hgSt
          | some v => exact PInv_endVisit _ _ hstw hgSt
      | assign l r2 =>
        cases l
        case «variable» nm =>
          simp only [GoodNode, Bool.and_eq_true] at hga
          refine PInv_vbind (ihv r2 st hga.2 hgSt hstw hsts) ?_
          intro v s hps
          obtain ⟨hgs, hsw, hss⟩ := hAfter r2 st s v hga.2 hgSt hstw hsts hps
          try dsimp only
          cases hcs : s.call_stack with
          | nil => exact PInv_refl s hgs
          | cons scope restStack =>
            try dsimp only
            have hgood2 : GoodSt { s with call_stack :=
                { scope with symbol_table := (nm, v) :: scope.symbol_table }
                  :: restStack } := by
              refine GoodSt_sethead hcs hgs ?_
              intro kv hkv
              exact hgs scope (by rw [hcs]; exact List.mem_cons_self _ _) kv hkv
            have hP1 : PInv s { s with call_stack :=
                { scope with symbol_table := (nm, v) :: scope.symbol_table }
                  :: restStack } := ⟨rfl, rfl, hgood2⟩
            exact PInv_trans hP1 (PInv_endVisit _ _ hsw hgood2)
        all_goals exact PInv_refl st hgSt
      | ifNode c e2 =>
        simp only [GoodNode, Bool.and_eq_true] at hga
        refine PInv_vbind (ihv c st hga.1 hgSt hstw hsts) ?_
        intro v s hps
        obtain ⟨hgs, hsw, hss⟩ := hAfter c st s v hga.1 hgSt hstw hsts hps
        cases v with
        | boolean b =>
          cases b with
          | true =>
            refine PInv_vbind (ihv e2 s hga.2 hgs hsw hss) ?_
            intro w s2 hps2
            obtain ⟨hgs2, hsw2, hss2⟩ := hAfter e2 s s2 w hga.2 hgs hsw hss hps2
            exact PInv_endVisit _ _ hsw2 hgs2
          | false => exact PInv_endVisit _ _ hsw hgs
        | integer m => exact PInv_refl s hgs
        | string str => exact PInv_refl s hgs
        | none => exact PInv_refl s hgs
      | loop c b =>
        simp only [GoodNode, Bool.and_eq_true] at hga
        have hPi := ihi c b st hga.1 hga.2 hgSt hstw hsts
        have hWi := (visit_det_all n).2.2.2.2.2.1 c b st st.rands st.elapsed
          hstw hsts
        refine PInv_vbind hPi ?_
        intro v s hps
        rw [hps] at hPi hWi
        refine PInv_endVisit _ _ ?_ hPi.2.2
        show s.worker.strict_work = true
        rw [show s.worker = st.worker from hWi.2.1]
        exact hstw
      | compare l r2 ct =>
        simp only [GoodNode, Bool.and_eq_true] at hga
        refine PInv_vbind (ihv l st hga.1 hgSt hstw hsts) ?_
        intro v s hps
        obtain ⟨hgs, hsw, hss⟩ := hAfter l st s v hga.1 hgSt hstw hsts hps
        refine PInv_vbind (ihv r2 s hga.2 hgs hsw hss) ?_
        intro w s2 hps2
        obtain ⟨hgs2, hsw2, hss2⟩ := hAfter r2 s s2 w hga.2 hgs hsw hss hps2
        cases ct
        case equals => exact PInv_refl s2 hgs2
        case less => exact PInv_refl s2 hgs2
        case greater => exact PInv_refl s2 hgs2
      | functionDeclaration nm ps b =>
        rw [visit_functionDeclaration n nm ps b st]
        cases hcs : st.call_stack with
        | nil => exact PInv_refl st hgSt
        | cons scope restStack =>
          try dsimp only
          cases hl : List.lookup nm scope.function_table with
          | some f => exact PInv_refl st hgSt
          | none =>
            have hgood2 : GoodSt { st with call_stack :=
                { scope with function_table :=
                  (nm, ASTNode.functionDeclaration nm ps b)
                    :: scope.function_table } :: restStack } := by
              refine GoodSt_sethead hcs hgSt ?_
              intro kv hkv
              rcases List.mem_cons.mp hkv with rfl | ht
              · exact hga
              · exact hgSt scope (by rw [hcs]; exact List.mem_cons_self _ _)
                  kv ht
            have hP1 : PInv st { st with call_stack :=
                { scope with function_table :=
                  (nm, ASTNode.functionDeclaration nm ps b)
                    :: scope.function_table } :: restStack } := ⟨rfl, rfl, hgood2⟩
            exact PInv_trans hP1 (PInv_endVisit _ _ hstw hgood2)
      | functionCall f ps =>
        simp only [GoodNode, Bool.and_eq_true] at hga
        cases f
        case «variable» nm =>
          rw [visit_call_var n nm ps st]
          by_cases ho : strStartsWith nm ":O__" = true
          · simp only [if_pos ho]
            exact ihsh _ nm ps st hga.2 hgSt hstw hsts
          · simp only [if_neg ho]
            have hnm : GoodStr nm = true := hga.1
            rw [if_neg (goodStr_ne_dD hnm)]
            exact ihu nm ps st hga.2 hgSt hstw hsts
        all_goals exact PInv_endVisit _ _ hstw hgSt
      | ret e2 =>
        simp only [GoodNode] at hga
        refine PInv_vbind (ihv e2 st hga hgSt hstw hsts) ?_
        intro v s hps
        obtain ⟨hgs, hsw, hss⟩ := hAfter e2 st s v hga hgSt hstw hsts hps
        exact PInv_refl s hgs
      | noOp => exact PInv_endVisit _ _ hstw hgSt
    · -- visitShout
      intro node nm ps st hgps hgSt hstw hsts
      have hPr := ihr ps "" st hgps hgSt hstw hsts
      have hWr := hpresR ps "" st hstw hsts
      refine PInv_callAfter hPr ?_
      intro text s hrend
      rw [hrend] at hPr hWr
      rw [shouterShout_strict s (nm.length - 3) text hWr.2]
      have hgs : GoodSt s := hPr.2.2
      have h1 : PInv s (pushOut { s with shout_trace :=
          s.shout_trace ++ [(nm.length - 3, text)] } text) := ⟨rfl, rfl, hgs⟩
      exact PInv_trans h1 (PInv_endVisit _ _ hWr.1 hgs)
    · -- visitUserCall
      intro nm ps st hgps hgSt hstw hsts
      rw [visitUserCall_succ n nm ps st]
      cases hcs : st.call_stack with
      | nil => exact PInv_refl st hgSt
      | cons scope restStack =>
        try dsimp only
        cases hl : List.lookup nm scope.function_table with
        | none => exact PInv_refl st hgSt
        | some fnode =>
          have hmem : scope ∈ st.call_stack := by
            rw [hcs]
            exact List.mem_cons_self _ _
          have hfg : GoodNode fnode = true :=
            hgSt scope hmem (nm, fnode)
              (lookup_mem scope.function_table nm fnode hl)
          cases fnode
          case functionDeclaration fn fps fb =>
            try dsimp only
            by_cases hlen : fps.length ≠ ps.length
            · simp only [if_pos hlen]
              exact PInv_refl st hgSt
            · simp only [if_neg hlen]
              have hPa := iha ps fps
                { symbol_table := [], function_table := scope.function_table }
                st hgps hgSt hstw hsts
              have hWa := hpresA ps fps
                { symbol_table := [], function_table := scope.function_table }
                st hstw hsts
              refine PInv_callAfter hPa ?_
              intro nsc s hargs
              rw [hargs] at hPa hWa
              have hgs : GoodSt s := hPa.2.2
              have hft := visitArgs_ft n ps fps
                { symbol_table := [], function_table := scope.function_table }
                st nsc s hargs
              have hgpush : GoodSt { s with call_stack := nsc :: s.call_stack } := by
                refine GoodSt_push hgs ?_
                intro kv hkv
                rw [hft] at hkv
                exact hgSt scope hmem kv hkv
              have hP1 : PInv s { s with call_stack := nsc :: s.call_stack } :=
                ⟨rfl, rfl, hgpush⟩
              refine PInv_callFinish ?_
              exact PInv_trans hP1 (ihv fb { s with call_stack := nsc :: s.call_stack }
                hfg hgpush hWa.1 hWa.2)
          all_goals exact PInv_refl st hgSt
    · -- visitSeq
      intro cs st hgcs hgSt hstw hsts
      cases cs with
      | nil => exact PInv_refl st hgSt
      | cons child rest =>
        simp only [GoodNodes, Bool.and_eq_true] at hgcs
        rw [visitSeq_cons n child rest st]
        by_cases hcr : child.isRet = true
        · simp only [if_pos hcr]
          exact ihv child st hgcs.1 hgSt hstw hsts
        · simp only [if_neg hcr]
          refine PInv_seqAfter (ihv child st hgcs.1 hgSt hstw hsts) ?_
          intro v s hps
          obtain ⟨hgs, hsw, hss⟩ := hAfter child st s v hgcs.1 hgSt hstw hsts hps
          exact ihs rest s hgcs.2 hgs hsw hss
    · -- visitIter
      intro c b st hgc hgb hgSt hstw hsts
      refine PInv_vbind (ihv c st hgc hgSt hstw hsts) ?_
      intro v s hps
      obtain ⟨hgs, hsw, hss⟩ := hAfter c st s v hgc hgSt hstw hsts hps
      cases v with
      | boolean bb =>
        cases bb with
        | true =>
          refine PInv_vbind (ihv b s hgb hgs hsw hss) ?_
          intro w s2 hps2
          obtain ⟨hgs2, hsw2, hss2⟩ := hAfter b s s2 w hgb hgs hsw hss hps2
          exact ihi c b s2 hgc hgb hgs2 hsw2 hss2
        | false => exact PInv_refl s hgs
      | integer m => exact PInv_refl s hgs
      | string str => exact PInv_refl s hgs
      | none => exact PInv_refl s hgs
    · -- visitRender
      intro ps acc st hgps hgSt hstw hsts
      cases ps with
      | nil => exact PInv_refl st hgSt
      | cons p rest =>
        simp only [GoodNodes, Bool.and_eq_true] at hgps
        rw [visitRender_cons n p rest acc st]
        cases hn : p.varName? with
        | none =>
          refine PInv_exceptAfter (ihv p st hgps.1 hgSt hstw hsts) ?_
          intro v s hps
          obtain ⟨hgs, hsw, hss⟩ := hAfter p st s v hgps.1 hgSt hstw hsts hps
          exact ihr rest (acc ++ v.display) s hgps.2 hgs hsw hss
        | some vname =>
          cases hcs : st.call_stack with
          | nil => exact PInv_refl st hgSt
          | cons scope restStack =>
            try dsimp only
            cases hl : List.lookup vname scope.symbol_table with
            | none => exact PInv_refl st hgSt
            | some v => exact ihr rest (acc ++ v.display) st hgps.2 hgSt hstw hsts
    · -- visitArgs
      intro ps nms sc st hgps hgSt hstw hsts
      cases ps with
      | nil => exact PInv_refl st hgSt
      | cons p rest =>
        simp only [GoodNodes, Bool.and_eq_true] at hgps
        rw [visitArgs_cons n p rest nms sc st]
        refine PInv_exceptAfter (ihv p st hgps.1 hgSt hstw hsts) ?_
        intro v s hps
        obtain ⟨hgs, hsw, hss⟩ := hAfter p st s v hgps.1 hgSt hstw hsts hps
        cases nms with
        | nil => exact PInv_refl s hgs
        | cons nm restNames =>
          exact iha rest restNames
            { sc with symbol_table := (nm, v) :: sc.symbol_table } s
            hgps.2 hgs hsw hss

theorem goodSt_init (strict : Bool) (inputs : List Value)
    (r e : List Nat) : GoodSt (initSt strict inputs r e) := by
  intro sc hsc kv hkv
  rcases List.mem_cons.mp hsc with rfl | h0
  · exact absurd hkv (List.not_mem_nil kv)
  · exact absurd h0 (List.not_mem_nil sc)

/-- C6: with the fatigue gate disabled (strict mode), evaluation is
deterministic and non-interactive. For every program text, parse fuel and
evaluation fuel, and every two runs started from strict initial states
with the same interactive-input stream but arbitrary (possibly different)
randomness and timing oracles: the interpreter result is identical, the
collected output is identical, no interactive prompt is ever issued, and
the interactive-input stream is never consumed. -/
theorem c6_strict_determinism (text : String) (pfuel vfuel : Nat)
    (inputs : List Value) (r1 e1 r2 e2 : List Nat) :
    (interpret text pfuel vfuel (initSt true inputs r1 e1)).1 =
      (interpret text pfuel vfuel (initSt true inputs r2 e2)).1 ∧
    (interpret text pfuel vfuel (initSt true inputs r1 e1)).2.output =
      (interpret text pfuel vfuel (initSt true inputs r2 e2)).2.output ∧
    (interpret text pfuel vfuel (initSt true inputs r1 e1)).2.prompts = [] ∧
    (interpret text pfuel vfuel (initSt true inputs r1 e1)).2.inputs = inputs := by
  have hE : initSt true inputs r1 e1 = setO (initSt true inputs r2 e2) r1 e1 := rfl
  unfold interpret
  cases hp : parseText text pfuel with
  | error e => exact ⟨rfl, rfl, rfl, rfl⟩
  | ok tree =>
    have hgood : GoodNode tree = true := parseText_good text pfuel tree hp
    have hdet := ((visit_det_all vfuel).1 tree (initSt true inputs r2 e2)
      r1 e1 rfl rfl).1
    have hPI := (visit_pinv_all vfuel).1 tree (initSt true inputs r1 e1)
      hgood (goodSt_init true inputs r1 e1) rfl rfl
    rw [hE] at hPI ⊢
    dsimp only
    rw [hdet] at hPI ⊢
    rcases hq : visit vfuel tree (initSt true inputs r2 e2) with ⟨o, s⟩
    rw [hq] at hPI
    cases o with
    | ok v => exact ⟨rfl, rfl, hPI.1, hPI.2.1⟩
    | err e2 =>
      cases e2 with
      | hackyReturn v => exact ⟨rfl, rfl, hPI.1, hPI.2.1⟩
      | disturbedWorker => exact ⟨rfl, rfl, hPI.1, hPI.2.1⟩
    | panicked m => exact ⟨rfl, rfl, hPI.1, hPI.2.1⟩
    | outOfFuel => exact ⟨rfl, rfl, hPI.1, hPI.2.1⟩

end Dmm
